import Mathlib

/-!
A verification development for the `pious` package: an assembler,
disassembler and linker for the RP2350 PIO 16-bit instruction set.
Instruction words are modelled as `Nat` values below `2 ^ 16`, with the
Go `uint16` operations made explicit (`&&&`, `>>>`, `% 65536`).  Errors
returned by the Go functions are modelled by the inductive `PErr`
(assembly side) and by `Except String` (disassembly side, whose error
payload is the message text the Go code produces alongside `ErrBad`).
-/

set_option maxRecDepth 10000
set_option maxHeartbeats 2000000

deriving instance DecidableEq for Except

/-- Modelling of Go `uint16` subtraction `a - b` (wrap-around modulo `2^16`). -/
def subU16 (a b : Nat) : Nat := (a % 65536 + 65536 - b % 65536) % 65536

/-- Modelling of Go `uint16` addition `a + b` (wrap-around modulo `2^16`). -/
def addU16 (a b : Nat) : Nat := (a + b) % 65536

/-- Modelling of Go `uint16` left shift `a << b` (result truncated to 16 bits). -/
def shlU16 (a b : Nat) : Nat := (a <<< b) % 65536

/-- Errors produced by the assembly-side functions.  `bad` is `ErrBad`
("invalid instruction"), `empty` is `ErrEmpty`, `num` is a
`strconv.Atoi` syntax error surfacing through `parseConst`, `oob` marks
a Go runtime out-of-range slice index (a panic in the original), and the
two side-set errors are the `fmt.Errorf` values built inside `Assemble`. -/
inductive PErr where
  | bad
  | empty
  | num
  | oob
  | sideTooLarge (w : Nat)
  | sideMissing (w : Nat)
deriving DecidableEq, Repr

/-- The operand-flag constants of `defines.go` (`1 << iota`). -/
def flagCondition : Nat := 1
def flagAddress : Nat := 2
def flagPolSource : Nat := 4
def flagWIndex : Nat := 8
def flagISource : Nat := 16
def flagBitCount : Nat := 32
def flagMDestination : Nat := 64
def flagDestination : Nat := 128
def flagIfF : Nat := 256
def flagBlk : Nat := 512
def flagFromXIdxlIndex : Nat := 1024
def flagIfE : Nat := 2048
def flagOp : Nat := 4096
def flagMSource : Nat := 8192
def flagClrWaitIdxModeIndex : Nat := 16384
def flagData : Nat := 32768

/-- One row of the instruction table (`defines.go`). -/
structure Instruction where
  token : String
  mask : Nat
  bits : Nat
  flags : Nat
deriving DecidableEq, Repr

/-- Indices into `instructions` (`defines.go`). -/
def idxJMP : Nat := 0
def idxWAIT : Nat := 1
def idxIN : Nat := 2
def idxOUT : Nat := 3
def idxNOP : Nat := 4
def idxPUSH : Nat := 5
def idxMOV1 : Nat := 6
def idxPULL : Nat := 7
def idxMOV2 : Nat := 8
def idxIRQ : Nat := 9
def idxSET : Nat := 10

/-- The instruction table of `defines.go`. -/
def instructions : List Instruction := [
  { token := "jmp", mask := 0xe000, bits := 0x0000, flags := flagCondition ||| flagAddress },
  { token := "wait", mask := 0xe000, bits := 0x2000, flags := flagPolSource ||| flagWIndex },
  { token := "in", mask := 0xe000, bits := 0x4000, flags := flagISource ||| flagBitCount },
  { token := "out", mask := 0xe000, bits := 0x6000, flags := flagDestination ||| flagBitCount },
  { token := "nop", mask := 0xe0ff, bits := 0x8042, flags := 0 },
  { token := "push", mask := 0xe09f, bits := 0x8000, flags := flagIfF ||| flagBlk },
  { token := "mov", mask := 0xe074, bits := 0x8010, flags := flagFromXIdxlIndex },
  { token := "pull", mask := 0xe09f, bits := 0x8080, flags := flagIfE ||| flagBlk },
  { token := "mov", mask := 0xe000, bits := 0xa000, flags := flagMDestination ||| flagOp ||| flagMSource },
  { token := "irq", mask := 0xe080, bits := 0xc000, flags := flagClrWaitIdxModeIndex },
  { token := "set", mask := 0xe000, bits := 0xe000, flags := flagDestination ||| flagData }]

/-- `disCondition` (`defines.go`): jump condition mnemonics. -/
def disCondition : List String := ["", "!x", "x--", "!y", "y--", "x!=y", "pin", "!osre"]

/-- `disDestinations` (`defines.go`). -/
def disDestinations : List String :=
  ["pins", "x", "y", "null", "pindirs", "pc", "isr", "exec"]

/-- `disMDestinations` (`defines.go`): destinations for `mov`. -/
def disMDestinations : List String :=
  ["pins", "x", "y", "pindirs", "exec", "pc", "isr", "osr"]

/-- `disISources` (`defines.go`): `in` source choices. -/
def disISources : List String := ["pins", "x", "y", "null", "", "", "isr", "osr"]

/-- `disMSources` (`defines.go`): `mov` source choices. -/
def disMSources : List String := ["pins", "x", "y", "null", "", "status", "isr", "osr"]

/-- `disBitSource` (`defines.go`). -/
def disBitSource : List String := ["gpio", "pin", "irq", "jmppin"]

/-- Modelled from the spec: the per-program `Settings` record (its Go
declaration is not among the provided sources; every field and its
meaning is fixed by §3 of the spec and by the uses in `pious.go`):
name; origin; wrap and wrap target; side-set bit count with
optional-flag and pindirs-flag; set-pin count; and the `in`/`out` shift
configuration (bit width, left/right direction, auto flag, threshold
with 32 encoded as 0).  Numeric fields are Go `uint16` values. -/
structure Settings where
  Name : String := ""
  Origin : Nat := 0
  Wrap : Nat := 0
  WrapTarget : Nat := 0
  SideSet : Nat := 0
  SideSetOpt : Bool := false
  SideSetPindirs : Bool := false
  Set : Nat := 0
  Out : Nat := 0
  OutLeft : Bool := false
  OutAuto : Bool := false
  OutThreshold : Nat := 0
  In : Nat := 0
  InLeft : Bool := false
  InAuto : Bool := false
  InThreshold : Nat := 0
deriving DecidableEq, Repr

/-- The compiled `Program` (current `pious.go` shape: `Attr Settings`,
label map, its sorted inverse, the code words, and per-submodule
settings filled in by `Cat`).  The two Go maps are modelled as
association lists with unique keys: `Labels` keyed by label name,
`Targets` keyed by code offset. -/
structure Program where
  Attr : Settings := {}
  Labels : List (String × Nat) := []
  Targets : List (Nat × List String) := []
  Code : List Nat := []
  Modules : List Settings := []
deriving DecidableEq, Repr

/-- Go map insert: replace the value at an existing key, else append. -/
def mapInsert (m : List (String × Nat)) (key : String) (v : Nat) : List (String × Nat) :=
  match m with
  | [] => [(key, v)]
  | (k, w) :: rest => if k = key then (k, v) :: rest else (k, w) :: mapInsert rest key v

/-- Render a value in lower-case hexadecimal, zero-padded to 4 digits,
as Go `fmt.Sprintf("%04x", instr)` does for a `uint16`. -/
def hex4 (n : Nat) : String :=
  let ds := Nat.toDigits 16 (n % 65536)
  String.mk (List.replicate (4 - ds.length) '0' ++ ds)

/-- `strconv.Atoi`: an optional sign followed by one or more decimal
digits; anything else is a syntax error (`none`).  The value is exact
(overflow clamping in Go cannot change any outcome here because every
caller rejects values above 32 anyway). -/
def atoi (s : String) : Option Int :=
  let chars := s.data
  let (neg, digits) :=
    match chars with
    | '-' :: rest => (true, rest)
    | '+' :: rest => (false, rest)
    | _ => (false, chars)
  if digits = [] then none
  else if digits.all (fun c => c.isDigit) then
    let n := digits.foldl (fun a c => a * 10 + (c.toNat - '0'.toNat)) 0
    some (if neg then -(n : Int) else (n : Int))
  else none

/-- `parseConst` (`pious.go`): look the token up in the constant table
when one is supplied, else parse it as an integer; values above 32 or
below 0 are `ErrBad`; a non-numeric token surfaces the `Atoi` error. -/
def parseConst (token : String) (consts : Option (List (String × Nat))) : Except PErr Nat :=
  match (match consts with
         | some m => m.lookup token
         | none => none) with
  | some n => .ok n
  | none =>
    match atoi token with
    | some n => if n > 32 || n < 0 then .error .bad else .ok n.toNat
    | none => .error .num

/-- A separator character of the tokenizer regular expression class `[, \r\t]`. -/
def isSep (c : Char) : Bool := c = ',' || c = ' ' || c = '\r' || c = '\t'

/-- Consume a maximal run of separator characters (the greedy `[, \r\t]+`). -/
def consumeSeps : List Char → List Char
  | [] => []
  | c :: r => if isSep c then consumeSeps r else c :: r

/-- Consume the rest of the line (`.*` in `//.*` and `;.*`, which stops
before a newline). -/
def consumeLine : List Char → List Char
  | [] => []
  | c :: r => if c = '\n' then c :: r else consumeLine r

/-- The splitting pass of Go `tokenizer.Split(code, -1)` for the pattern
`([, \r\t]+|//.*|;.*)`: emit the text between successive leftmost
matches (which may be empty when two matches are adjacent or a match
touches either end of the string).  Structural recursion on a fuel
argument (each step consumes at least one character, so fuel
`length + 1` never runs out; see `splitCoreF_fuel`). -/
def splitCoreF : Nat → List Char → List Char → List (List Char)
  | 0, _, _ => []
  | fuel + 1, s, acc =>
    match s with
    | [] => [acc.reverse]
    | c :: r =>
      if isSep c then acc.reverse :: splitCoreF fuel (consumeSeps r) []
      else if c = ';' then acc.reverse :: splitCoreF fuel (consumeLine r) []
      else if c = '/' then
        match r with
        | c2 :: r2 =>
          if c2 = '/' then acc.reverse :: splitCoreF fuel (consumeLine r2) []
          else splitCoreF fuel (c2 :: r2) (c :: acc)
        | [] => splitCoreF fuel [] (c :: acc)
      else splitCoreF fuel r (c :: acc)

/-- `splitCoreF` with its canonical fuel. -/
def splitCore (s : List Char) (acc : List Char) : List (List Char) :=
  splitCoreF (s.length + 1) s acc

/-- The empty-token removal loop of `Assemble`/`NewProgram`, exactly as
written in Go: removing index `i` shifts the next element into place and
the loop counter still advances, so the element following a removed one
is kept without being examined. -/
def removeEmptyGo : List String → List String
  | [] => []
  | x :: xs =>
    if x = "" then
      match xs with
      | [] => []
      | y :: ys => y :: removeEmptyGo ys
    else x :: removeEmptyGo xs

/-- `tokenizer.Split` followed by the empty-token removal loop, the
shared tokenization of `Assemble` and `NewProgram`. -/
def tokenize (code : String) : List String :=
  removeEmptyGo ((splitCore code.data []).map String.mk)

/-- First-match-wins scan of the instruction table (`for cmd, dec = range
instructions { if dec.mask&instr == dec.bits { ... break } }`). -/
def matchInstr (instr : Nat) : List (Nat × Instruction) → Option (Nat × Instruction)
  | [] => none
  | (i, d) :: rest => if d.mask &&& instr = d.bits then some (i, d) else matchInstr instr rest

/-- `Disassemble`, `flagCondition` block. -/
def disStepCondition (dec : Instruction) (instr : Nat) (decoded : List String) : List String :=
  if dec.flags &&& flagCondition ≠ 0 then
    let offset := 7 &&& (instr >>> 5)
    if offset ≠ 0 then decoded ++ [disCondition.getD offset "" ++ " "] else decoded
  else decoded

/-- `Disassemble`, `flagAddress` block: a label from the context's
`Targets` table (its first, lexicographically least name) when present,
else the decimal address. -/
def disStepAddress (dec : Instruction) (instr : Nat) (p : Option Program)
    (decoded : List String) : List String :=
  if dec.flags &&& flagAddress ≠ 0 then
    let addr := instr &&& 31
    match p with
    | some prog =>
      match prog.Targets.lookup addr with
      | some sym => decoded ++ [sym.headD ""]
      | none => decoded ++ [toString addr]
    | none => decoded ++ [toString addr]
  else decoded

/-- `Disassemble`, `flagPolSource`/`flagWIndex` block (the `wait`
instruction's polarity, bit source and index). -/
def disStepPolSource (dec : Instruction) (instr : Nat) (decoded : List String) :
    Except String (List String) :=
  if dec.flags &&& flagPolSource ≠ 0 then
    let poll := (instr >>> 5) &&& 7
    let index := instr &&& 31
    let src := poll &&& 3
    let decoded := decoded ++ [toString (poll >>> 2) ++ " ", disBitSource.getD src "" ++ " "]
    if src = 0 ∨ src = 1 then .ok (decoded ++ [toString index])
    else if src = 2 then
      let idxmode := index >>> 3
      let index := index &&& 7
      if idxmode = 0 then .ok (decoded ++ [toString index])
      else if idxmode = 1 then .ok (decoded ++ ["prev " ++ toString index])
      else if idxmode = 2 then .ok (decoded ++ [toString index ++ " rel"])
      else .ok (decoded ++ ["next " ++ toString index])
    else
      if index &&& 28 ≠ 0 then .error ("unknown <" ++ hex4 instr ++ ">")
      else .ok (decoded ++ ["+ " ++ toString index])
  else if dec.flags &&& flagWIndex ≠ 0 then .error ("unknown <" ++ hex4 instr ++ ">")
  else .ok decoded

/-- `Disassemble`, `flagISource` block: the two empty slots of
`disISources` are illegal. -/
def disStepISource (dec : Instruction) (instr : Nat) (decoded : List String) :
    Except String (List String) :=
  if dec.flags &&& flagISource ≠ 0 then
    let src := (instr >>> 5) &&& 7
    let tok := disISources.getD src ""
    if tok = "" then .error ("unknown <" ++ hex4 instr ++ ">")
    else .ok (decoded ++ [tok ++ " "])
  else .ok decoded

/-- `Disassemble`, `flagIfF` block. -/
def disStepIfF (dec : Instruction) (instr : Nat) (decoded : List String) : List String :=
  if dec.flags &&& flagIfF ≠ 0 then
    if instr &&& 64 ≠ 0 then decoded ++ ["iffull "] else decoded
  else decoded

/-- `Disassemble`, `flagIfE` block. -/
def disStepIfE (dec : Instruction) (instr : Nat) (decoded : List String) : List String :=
  if dec.flags &&& flagIfE ≠ 0 then
    if instr &&& 64 ≠ 0 then decoded ++ ["ifempty "] else decoded
  else decoded

/-- `Disassemble`, `flagBlk` block. -/
def disStepBlk (dec : Instruction) (instr : Nat) (decoded : List String) : List String :=
  if dec.flags &&& flagBlk ≠ 0 then
    if instr &&& 32 ≠ 0 then decoded ++ ["block"] else decoded ++ ["noblock"]
  else decoded

/-- `Disassemble`, `flagDestination` block: for `set` (table index
`idxSET`) the destinations `null` (3) and those at or above 5 other
than `exec` are rejected. -/
def disStepDestination (cmd : Nat) (dec : Instruction) (instr : Nat) (decoded : List String) :
    Except String (List String) :=
  if dec.flags &&& flagDestination ≠ 0 then
    let dest := (instr >>> 5) &&& 7
    if cmd = idxSET ∧ (dest = 3 ∨ dest ≥ 5) then .error "invalid destination"
    else .ok (decoded ++ [disDestinations.getD dest "" ++ ", "])
  else .ok decoded

/-- `Disassemble`, `flagMDestination` block. -/
def disStepMDestination (dec : Instruction) (instr : Nat) (decoded : List String) : List String :=
  if dec.flags &&& flagMDestination ≠ 0 then
    let dest := (instr >>> 5) &&& 7
    decoded ++ [disMDestinations.getD dest "" ++ ", "]
  else decoded

/-- `Disassemble`, `flagBitCount` block: 0 renders as 32. -/
def disStepBitCount (dec : Instruction) (instr : Nat) (decoded : List String) : List String :=
  if dec.flags &&& flagBitCount ≠ 0 then
    let bc := instr &&& 31
    let bc := if bc = 0 then 32 else bc
    decoded ++ [toString bc]
  else decoded

/-- `Disassemble`, `flagOp` block: `::` reverse, `!` invert, `0b11` illegal. -/
def disStepOp (dec : Instruction) (instr : Nat) (decoded : List String) :
    Except String (List String) :=
  if dec.flags &&& flagOp ≠ 0 then
    let op := (instr >>> 3) &&& 3
    if op = 3 then .error ("invalid <" ++ hex4 instr ++ ">")
    else if op = 2 then .ok (decoded ++ ["::"])
    else if op = 1 then .ok (decoded ++ ["!"])
    else .ok decoded
  else .ok decoded

/-- `Disassemble`, `flagMSource` block: source slot `0b100` is illegal. -/
def disStepMSource (dec : Instruction) (instr : Nat) (decoded : List String) :
    Except String (List String) :=
  if dec.flags &&& flagMSource ≠ 0 then
    let src := instr &&& 7
    if src = 4 then .error ("invalid <" ++ hex4 instr ++ ">")
    else .ok (decoded ++ [disMSources.getD src ""])
  else .ok decoded

/-- `Disassemble`, `flagData` block. -/
def disStepData (dec : Instruction) (instr : Nat) (decoded : List String) : List String :=
  if dec.flags &&& flagData ≠ 0 then decoded ++ [toString (instr &&& 31)] else decoded

/-- `Disassemble`, `flagFromXIdxlIndex` block (the FIFO `mov` forms). -/
def disStepFromXIdxlIndex (dec : Instruction) (instr : Nat) (decoded : List String) :
    Except String (List String) :=
  if dec.flags &&& flagFromXIdxlIndex ≠ 0 then
    if instr &&& 128 ≠ 0 then
      if instr &&& 8 ≠ 0 then
        .ok (decoded ++ ["osr, rxfifo[" ++ toString (instr &&& 3) ++ "]"])
      else
        if instr &&& 7 ≠ 0 then .error ("invalid <" ++ hex4 instr ++ ">")
        else .ok (decoded ++ ["osr, rxfifo[y]"])
    else
      if instr &&& 8 ≠ 0 then
        .ok (decoded ++ ["rxfifo[" ++ toString (instr &&& 3) ++ "], isr"])
      else
        if instr &&& 7 ≠ 0 then .error ("invalid <" ++ hex4 instr ++ ">")
        else .ok (decoded ++ ["rxfifo[y], isr"])
  else .ok decoded

/-- `Disassemble`, `flagClrWaitIdxModeIndex` block (the `irq` operand:
`clear` wins over `wait`, then the index-mode and 3-bit index). -/
def disStepClrWaitIdxModeIndex (dec : Instruction) (instr : Nat) (decoded : List String) :
    List String :=
  if dec.flags &&& flagClrWaitIdxModeIndex ≠ 0 then
    let but := if instr &&& 64 ≠ 0 then "clear " else if instr &&& 32 ≠ 0 then "wait " else ""
    let idxmode := (instr >>> 3) &&& 3
    let index := instr &&& 7
    if idxmode = 0 then decoded ++ [but ++ toString index]
    else if idxmode = 1 then decoded ++ ["prev " ++ but ++ toString index]
    else if idxmode = 2 then decoded ++ [but ++ toString index ++ " rel"]
    else decoded ++ ["next " ++ but ++ toString index]
  else decoded

/-- `Disassemble`, side-set and delay tail: with a context configured
for side-set, the side value occupies the top of the delay byte (behind
a presence bit when optional, where a clear presence bit with nonzero
side bits is illegal); the delay keeps the remaining low bits. -/
def disStepSideDelay (instr : Nat) (p : Option Program) (decoded : List String) :
    Except String (List String) :=
  let sideMask := 31
  let step :=
    match p with
    | some prog =>
      if prog.Attr.SideSet ≠ 0 then
        if prog.Attr.SideSetOpt then
          let side := (instr &&& 3840) >>> (subU16 12 prog.Attr.SideSet)
          if instr &&& 4096 ≠ 0 then
            Except.ok (decoded ++ ["\tside " ++ toString side], (sideMask >>> 1) >>> prog.Attr.SideSet)
          else if side ≠ 0 then
            Except.error ("invalid opt side-set <" ++ hex4 instr ++ ">")
          else Except.ok (decoded, (sideMask >>> 1) >>> prog.Attr.SideSet)
        else
          let side := (instr &&& 7936) >>> (subU16 13 prog.Attr.SideSet)
          Except.ok (decoded ++ ["\tside " ++ toString side], sideMask >>> prog.Attr.SideSet)
      else Except.ok (decoded, sideMask)
    | none => Except.ok (decoded, sideMask)
  match step with
  | .error e => .error e
  | .ok (decoded, sideMask) =>
    let delay := (instr >>> 8) &&& sideMask
    if delay ≠ 0 then .ok (decoded ++ [" [" ++ toString delay ++ "]"])
    else .ok decoded


/-- The main body of `Disassemble` (`pious.go`): the per-flag field
blocks between the instruction-table match and the side-set/delay
tail, producing the decoded token list. -/
def disBody (cmd : Nat) (dec : Instruction) (instr : Nat) (p : Option Program) :
    Except String (List String) := do
  let decoded := [dec.token ++ "\t"]
  let decoded := disStepCondition dec instr decoded
  let decoded := disStepAddress dec instr p decoded
  let decoded ← disStepPolSource dec instr decoded
  let decoded ← disStepISource dec instr decoded
  let decoded := disStepIfF dec instr decoded
  let decoded := disStepIfE dec instr decoded
  let decoded := disStepBlk dec instr decoded
  let decoded ← disStepDestination cmd dec instr decoded
  let decoded := disStepMDestination dec instr decoded
  let decoded := disStepBitCount dec instr decoded
  let decoded ← disStepOp dec instr decoded
  let decoded ← disStepMSource dec instr decoded
  let decoded := disStepData dec instr decoded
  let decoded ← disStepFromXIdxlIndex dec instr decoded
  return disStepClrWaitIdxModeIndex dec instr decoded

/-- `Disassemble` (`pious.go`): decode one instruction word, with an
optional `Program` supplying the label table and side-set settings:
match the instruction table, decode the per-flag fields (`disBody`),
then the side-set/delay tail. -/
def Disassemble (instr : Nat) (p : Option Program) : Except String String :=
  match matchInstr instr instructions.enum with
  | none => .error ("unknown <" ++ hex4 instr ++ ">")
  | some (cmd, dec) => do
    let decoded ← disBody cmd dec instr p
    let decoded ← disStepSideDelay instr p decoded
    return String.join decoded


/-- `Assemble`, `case idxJMP`: an optional condition mnemonic, then the
target address via `parseConst` with the label table (exactly 32 is
rejected; a label value above 31 is or-ed in unchecked, as in Go).
Accessing a token past the end is the Go runtime panic (`oob`). -/
def asmCaseJmp (tokens : List String) (labels : Option (List (String × Nat))) (instr : Nat) :
    Except PErr (Nat × Nat) :=
  let (instr, k) :=
    match disCondition.enum.find? (fun e => e.2 = tokens.getD 1 "") with
    | some (j, _) => (instr ||| (j <<< 5), 2)
    | none => (instr, 1)
  match tokens.get? k with
  | none => .error .oob
  | some t =>
    match parseConst t labels with
    | .error e => .error e
    | .ok n => if n = 32 then .error .bad else .ok (instr ||| n, k + 1)

/-- `Assemble`, `case idxWAIT`: optional polarity (0/1), a bit source
from `disBitSource`, then the per-source index syntax. -/
def asmCaseWait (tokens : List String) (instr : Nat) : Except PErr (Nat × Nat) :=
  if tokens.length < 3 then .error .bad
  else
    let step1 : Except PErr (Nat × Nat) :=
      match parseConst (tokens.getD 1 "") none with
      | .ok n => if n > 1 then .error .bad else .ok (instr ||| (n <<< 7), 2)
      | .error _ => .ok (instr, 1)
    step1.bind fun (instr, k) =>
    if k ≥ tokens.length then .error .bad
    else
      match disBitSource.enum.find? (fun e => e.2 = tokens.getD k "") with
      | none => .error .bad
      | some (src, _) =>
        let k := k + 1
        if k ≥ tokens.length then .error .bad
        else
          let instr := instr ||| (src <<< 5)
          if src = 0 ∨ src = 1 then
            match parseConst (tokens.getD k "") none with
            | .error e => .error e
            | .ok n => if n > 31 then .error .bad else .ok (instr ||| n, k + 1)
          else if src = 2 then
            match parseConst (tokens.getD k "") none with
            | .ok n =>
              if n > 7 then .error .bad
              else
                let (instr, k) := (instr ||| n, k + 1)
                if k < tokens.length ∧ tokens.getD k "" = "rel" then
                  .ok (instr ||| 16, k + 1)
                else .ok (instr, k)
            | .error _ =>
              (match tokens.getD k "" with
               | "prev" => Except.ok (instr ||| 8)
               | "next" => Except.ok (instr ||| 24)
               | _ => Except.error PErr.bad).bind fun instr =>
              match tokens.get? (k + 1) with
              | none => .error .oob
              | some t =>
                match parseConst t none with
                | .error _ => .error .bad
                | .ok n => if n > 7 then .error .bad else .ok (instr ||| n, k + 2)
          else
            if k + 2 > tokens.length ∨ tokens.getD k "" ≠ "+" then .error .bad
            else
              match parseConst (tokens.getD (k + 1) "") none with
              | .error e => .error e
              | .ok n => if n > 3 then .error .bad else .ok (instr ||| n, k + 2)

/-- `Assemble`, `case idxIN`: a source from `disISources` (empty slots
skipped), then a nonzero bit count resolved against the label table. -/
def asmCaseIn (tokens : List String) (labels : Option (List (String × Nat))) (instr : Nat) :
    Except PErr (Nat × Nat) :=
  if tokens.length < 3 then .error .bad
  else
    match disISources.enum.find? (fun e => e.2 ≠ "" ∧ e.2 = tokens.getD 1 "") with
    | none => .error .bad
    | some (j, _) =>
      match parseConst (tokens.getD 2 "") labels with
      | .error e => .error e
      | .ok n =>
        if n = 0 then .error .bad
        else .ok (instr ||| (j <<< 5) ||| (n &&& 31), 3)

/-- `Assemble`, `case idxOUT`: a destination from `disDestinations`,
then a nonzero bit count resolved against the label table. -/
def asmCaseOut (tokens : List String) (labels : Option (List (String × Nat))) (instr : Nat) :
    Except PErr (Nat × Nat) :=
  if tokens.length < 3 then .error .bad
  else
    match disDestinations.enum.find? (fun e => e.2 = tokens.getD 1 "") with
    | none => .error .bad
    | some (j, _) =>
      match parseConst (tokens.getD 2 "") labels with
      | .error e => .error e
      | .ok n =>
        if n = 0 then .error .bad
        else .ok (instr ||| (j <<< 5) ||| (n &&& 31), 3)

/-- `Assemble`, `case idxPULL, idxPUSH`: optional `iffull`/`ifempty`
(matching the family), optional `block`/`noblock`, blocking by default. -/
def asmCasePullPush (i : Nat) (tokens : List String) (instr : Nat) : Except PErr (Nat × Nat) :=
  let block := 32
  let (instr, k) :=
    if 1 < tokens.length ∧
        ((i = idxPUSH ∧ tokens.getD 1 "" = "iffull") ∨ (i = idxPULL ∧ tokens.getD 1 "" = "ifempty"))
    then (instr ||| 64, 2) else (instr, 1)
  let (block, k) :=
    if k < tokens.length then
      if tokens.getD k "" = "noblock" then (0, k + 1)
      else if tokens.getD k "" = "block" then (block, k + 1)
      else (block, k)
    else (block, k)
  .ok (instr ||| block, k)

/-- The tail of `Assemble`'s `case idxMOV1` once the `rxfifo[...]` token
is identified: it must end in `]`, and the bracketed index is either the
register `y` or a constant at most 7 (stored with the explicit-index bit). -/
def asmMov1Tail (fifo : String) (instr : Nat) : Except PErr (Nat × Nat) :=
  if fifo.data.getLastD ' ' ≠ ']' then .error .bad
  else
    let offset := String.mk ((fifo.data.drop 7).dropLast)
    if offset ≠ "y" then
      match parseConst offset none with
      | .error _ => .error .bad
      | .ok n => if n > 7 then .error .bad else .ok (instr ||| 8 ||| n, 3)
    else .ok (instr, 3)

/-- `Assemble`, `case idxMOV1` (the FIFO `mov` encoding): the `rxfifo[`
prefix picks the direction; with neither operand shaped that way the
descriptor falls through (`.ok none`) to the plain `mov` encoding. -/
def asmCaseMov1 (tokens : List String) (instr : Nat) : Except PErr (Option (Nat × Nat)) :=
  if tokens.length < 3 then .error .bad
  else
    let t1 := tokens.getD 1 ""
    let t2 := tokens.getD 2 ""
    if "rxfifo[".data.isPrefixOf t1.data then
      if t2 ≠ "isr" then .error .bad
      else (asmMov1Tail t1 instr).map some
    else if "rxfifo[".data.isPrefixOf t2.data then
      if t1 ≠ "osr" then .error .bad
      else (asmMov1Tail t2 (instr ||| 128)).map some
    else .ok none

/-- `Assemble`, `case idxMOV2` (the plain `mov` encoding): a destination
from `disMDestinations` (else fall through), an optional `!`/`::` source
operator (possibly fused with the source token), then the source; as in
the Go code an unrecognized source leaves its bits zero rather than
failing. -/
def asmCaseMov2 (tokens : List String) (instr : Nat) : Except PErr (Option (Nat × Nat)) :=
  if tokens.length < 3 then .error .bad
  else
    match disMDestinations.enum.find? (fun e => e.2 = tokens.getD 1 "") with
    | none => .ok none
    | some (j, _) =>
      let instr := instr ||| (j <<< 5)
      let k := 2
      let tok := tokens.getD k ""
      let (instr, src, k) :=
        if "!".data.isPrefixOf tok.data then (instr ||| 8, String.mk (tok.data.drop 1), k + 1)
        else if "::".data.isPrefixOf tok.data then (instr ||| 16, String.mk (tok.data.drop 2), k + 1)
        else (instr, "", k)
      ((if src = "" then
          if k ≥ tokens.length then Except.error PErr.bad
          else Except.ok (tokens.getD k "", k + 1)
        else Except.ok (src, k)).bind fun (src, k) =>
        let instr :=
          match disMSources.enum.find? (fun e => e.2 = src) with
          | some (j2, _) => instr ||| j2
          | none => instr
        .ok (some (instr, k)))

/-- `Assemble`, `case idxSET`: a destination from `disDestinations`,
then the 5-bit immediate via the label table.  A `pins` destination
lazily records `Settings.Set = 1` on the context when it is unset (the
returned flag), exactly where the Go code mutates `p.Attr.Set`. -/
def asmCaseSet (tokens : List String) (labels : Option (List (String × Nat)))
    (p : Option Program) (instr : Nat) : Except PErr (Nat × Nat) × Bool :=
  if tokens.length < 3 then (.error .bad, false)
  else
    match disDestinations.enum.find? (fun e => e.2 = tokens.getD 1 "") with
    | none => (.error .bad, false)
    | some (j, _) =>
      let instr := instr ||| (j <<< 5)
      let setPins : Bool :=
        match p with
        | some prog => j == 0 && prog.Attr.Set == 0
        | none => false
      let res :=
        match parseConst (tokens.getD 2 "") labels with
        | .error e => Except.error e
        | .ok n => Except.ok (instr ||| n, 3)
      (res, setPins)

/-- `Assemble`, `case idxIRQ`: optional `prev`/`next`, optional
`nowait`/`set`/`clear`/`wait`, the 3-bit index, optional trailing `rel`
(which conflicts with `prev`/`next`). -/
def asmCaseIrq (tokens : List String) (instr : Nat) : Except PErr (Nat × Nat) :=
  if tokens.length < 2 then .error .bad
  else
    let (idxMode, k) :=
      match tokens.getD 1 "" with
      | "prev" => (1, 2)
      | "next" => (3, 2)
      | _ => (0, 1)
    if k ≥ tokens.length then .error .bad
    else
      let (instr, k) :=
        if tokens.getD k "" = "nowait" ∨ tokens.getD k "" = "set" then (instr, k + 1)
        else if tokens.getD k "" = "clear" then (instr ||| 64, k + 1)
        else if tokens.getD k "" = "wait" then (instr ||| 32, k + 1)
        else (instr, k)
      if k ≥ tokens.length then .error .bad
      else
        match parseConst (tokens.getD k "") none with
        | .error e => .error e
        | .ok n =>
          if n > 7 then .error .bad
          else
            let instr := instr ||| n
            let k := k + 1
            ((if k < tokens.length ∧ tokens.getD k "" = "rel" then
                if idxMode ≠ 0 then Except.error PErr.bad else Except.ok (2, k + 1)
              else Except.ok (idxMode, k)).bind fun (idxMode, k) =>
              .ok (instr ||| (idxMode <<< 3), k))

/-- `Assemble`, the shared side-set/delay suffix after a case has
consumed the instruction's own fields: an optional (mandatory when the
configuration is non-optional) `side N` pair with `N` below
`1 << SideSet`, then an optional `[delay]` token whose value must fit
the delay bits left over after side-set reservation.  As in the Go
code, the side-set value is only or-ed into the word when either a delay
token is parsed or no tokens remain. -/
def asmSideDelay (tokens : List String) (p : Option Program) (instr k : Nat) :
    Except PErr (Nat × Nat) :=
  let sideStep : Except PErr (Nat × Nat × Nat) :=
    match p with
    | some prog =>
      if prog.Attr.SideSet > 0 then
        let hasSide := k + 2 ≤ tokens.length ∧ tokens.getD k "" = "side"
        (if hasSide then
           match parseConst (tokens.getD (k + 1) "") none with
           | .error e => Except.error e
           | .ok n =>
             if n ≥ shlU16 1 prog.Attr.SideSet then
               Except.error (.sideTooLarge prog.Attr.SideSet)
             else
               let sideVal :=
                 if prog.Attr.SideSetOpt then 4096 ||| shlU16 n (subU16 12 prog.Attr.SideSet)
                 else shlU16 n (subU16 13 prog.Attr.SideSet)
               Except.ok (sideVal, k + 2)
         else if ¬prog.Attr.SideSetOpt then Except.error (.sideMissing prog.Attr.SideSet)
         else Except.ok (0, k)).map fun (sideVal, k) =>
        let sideMask := if prog.Attr.SideSetOpt then 31 >>> 1 else 31
        (sideVal, sideMask >>> prog.Attr.SideSet, k)
      else .ok (0, 31, k)
    | none => .ok (0, 31, k)
  sideStep.bind fun (sideVal, sideMask, k) =>
  if k ≠ tokens.length then
    let delay := tokens.getD k ""
    if delay.data.length ≥ 3 ∧ delay.data.headD ' ' = '[' ∧ delay.data.getLastD ' ' = ']' then
      match parseConst (String.mk ((delay.data.drop 1).dropLast)) none with
      | .error e => .error e
      | .ok n =>
        if n &&& sideMask ≠ n then .error .bad
        else .ok (instr ||| sideVal ||| (n <<< 8), k + 1)
    else .ok (instr, k)
  else .ok (instr ||| sideVal, k)

/-- One iteration of `Assemble`'s loop over the instruction table:
`none` in the first component is the Go `continue`, `some r` the Go
`return`; the `Bool` reports the `Settings.Set` mutation from
`case idxSET`. -/
def asmIter (i : Nat) (dec : Instruction) (tokens : List String) (p : Option Program) :
    Option (Except PErr Nat) × Bool :=
  if tokens.headD "" ≠ dec.token then (none, false)
  else
    let instr := dec.bits
    if dec.flags = 0 ∧ tokens.length = 1 then (some (.ok instr), false)
    else if tokens.length = 1 then (some (.error .bad), false)
    else
      let labels := match p with | some prog => some prog.Labels | none => none
      let (res, setP) : Except PErr (Option (Nat × Nat)) × Bool :=
        if i = idxJMP then ((asmCaseJmp tokens labels instr).map some, false)
        else if i = idxWAIT then ((asmCaseWait tokens instr).map some, false)
        else if i = idxIN then ((asmCaseIn tokens labels instr).map some, false)
        else if i = idxOUT then ((asmCaseOut tokens labels instr).map some, false)
        else if i = idxNOP then (.ok (some (instr, 1)), false)
        else if i = idxPULL ∨ i = idxPUSH then ((asmCasePullPush i tokens instr).map some, false)
        else if i = idxMOV1 then (asmCaseMov1 tokens instr, false)
        else if i = idxMOV2 then (asmCaseMov2 tokens instr, false)
        else if i = idxSET then
          (let (r, f) := asmCaseSet tokens labels p instr; (r.map some, f))
        else if i = idxIRQ then ((asmCaseIrq tokens instr).map some, false)
        else (.error .bad, false)
      match res with
      | .error e => (some (.error e), setP)
      | .ok none => (none, setP)
      | .ok (some (instr, k)) =>
        match asmSideDelay tokens p instr k with
        | .error e => (some (.error e), setP)
        | .ok (instr, k) =>
          if k ≠ 1 then (some (.ok instr), setP)
          else (none, setP)

/-- Record the `p.Attr.Set = 1` mutation on the context. -/
def applySetPins : Option Program → Option Program
  | some prog => some { prog with Attr := { prog.Attr with Set := 1 } }
  | none => none

/-- `Assemble`'s loop over the instruction table with the context
threaded through (the Go code mutates `p` in place). -/
def asmLoop (tokens : List String) (p : Option Program) :
    List (Nat × Instruction) → Except PErr Nat × Option Program
  | [] => (.error .bad, p)
  | (i, dec) :: rest =>
    let (r, setP) := asmIter i dec tokens p
    let p := if setP then applySetPins p else p
    match r with
    | some out => (out, p)
    | none => asmLoop tokens p rest

/-- `Assemble` (`pious.go`) with the mutated context made explicit:
tokenize, reject an empty line, then try each instruction descriptor in
table order. -/
def AssembleFull (code : String) (p : Option Program) : Except PErr Nat × Option Program :=
  let tokens := tokenize code
  if tokens.length = 0 then (.error .empty, p)
  else asmLoop tokens p instructions.enum

/-- `Assemble`'s word result (the first return value of the Go function). -/
def Assemble (code : String) (p : Option Program) : Except PErr Nat :=
  (AssembleFull code p).1

/-- Sorting with the order `sort.Strings` uses (ascending lexicographic;
the names in one group are distinct, so any correct sort yields the Go
result, and a structural insertion sort keeps kernel reduction possible). -/
def sortStrings (l : List String) : List String :=
  List.insertionSort (· ≤ ·) l

/-- `buildTargets` (`pious.go`): group the label map by code offset and
sort each offset's name list. -/
def buildTargets (labels : List (String × Nat)) : List (Nat × List String) :=
  let grouped := labels.foldl
    (fun ts e =>
      let rec add : List (Nat × List String) → List (Nat × List String)
        | [] => [(e.2, [e.1])]
        | (a, ls) :: rest => if a = e.2 then (a, ls ++ [e.1]) :: rest else (a, ls) :: add rest
      add ts) []
  grouped.map (fun e => (e.1, sortStrings e.2))

/-- The error cases of `NewProgram` (each `return nil, fmt.Errorf(...)`
site, without the line-number/text payload). -/
inductive NPErr where
  | parse
  | badWrap
  | badWrapTarget
  | badOrigin
  | badSideSet
  | badSet
  | badOut
  | badIn
  | badLabel
  | duplicateLabel
deriving DecidableEq, Repr

/-- The mutable state of `NewProgram`'s line loop. -/
structure NPState where
  p : Program
  code : List Nat
  wrap : Nat
  wrapTarget : Nat
deriving Repr

/-- One directive/label line of `NewProgram` (the `switch tokens[0]`
after `Assemble` has failed on the line). -/
def npDirective (tokens : List String) (st : NPState) : Except NPErr NPState :=
  let t0 := tokens.headD ""
  if t0 = ".program" then
    if tokens.length ≠ 2 then .error .parse
    else .ok { st with p := { st.p with Attr := { st.p.Attr with Name := tokens.getD 1 "" } } }
  else if t0 = ".wrap" then
    if tokens.length ≠ 1 ∨ st.wrap ≠ 65535 then .error .badWrap
    else .ok { st with wrap := subU16 (st.code.length % 65536) 1 }
  else if t0 = ".wrap_target" then
    if tokens.length ≠ 1 ∨ st.wrapTarget ≠ 65535 then .error .badWrapTarget
    else .ok { st with wrapTarget := st.code.length % 65536 }
  else if t0 = ".origin" then
    if tokens.length ≠ 1 then .error .badOrigin
    else .ok { st with p := { st.p with Attr := { st.p.Attr with Origin := st.code.length % 65536 } } }
  else if t0 = ".side_set" then
    if tokens.length < 2 ∨ st.code.length ≠ 0 then .error .badSideSet
    else
      match parseConst (tokens.getD 1 "") none with
      | .error _ => .error .badSideSet
      | .ok n =>
        let attr := { st.p.Attr with SideSet := n }
        (if 2 < tokens.length ∧ tokens.getD 2 "" = "opt" then
           if n > 4 then Except.error NPErr.badSideSet
           else Except.ok ({ attr with SideSetOpt := true }, 3)
         else if n > 5 then Except.error NPErr.badSideSet
         else Except.ok (attr, 2)).bind fun (attr, k) =>
        if tokens.length = k then .ok { st with p := { st.p with Attr := attr } }
        else if tokens.getD k "" ≠ "pindirs" then .error .badSideSet
        else if tokens.length > k + 1 then .error .badSideSet
        else .ok { st with p := { st.p with Attr := { attr with SideSetPindirs := true } } }
  else if t0 = ".set" then
    if tokens.length ≠ 2 ∨ st.code.length ≠ 0 then .error .badSet
    else
      match parseConst (tokens.getD 1 "") none with
      | .error _ => .error .badSet
      | .ok n =>
        if n > 5 then .error .badSet
        else .ok { st with p := { st.p with Attr := { st.p.Attr with Set := n } } }
  else if t0 = ".out" then
    if st.code.length ≠ 0 then .error .badOut
    else if tokens.length < 2 then .error .badOut
    else
      match parseConst (tokens.getD 1 "") none with
      | .error _ => .error .badOut
      | .ok n =>
        if n = 0 then .error .badOut
        else
          let attr := { st.p.Attr with Out := n }
          let (attr, k) :=
            if 2 < tokens.length ∧ (tokens.getD 2 "" = "left" ∨ tokens.getD 2 "" = "right") then
              ({ attr with OutLeft := tokens.getD 2 "" = "left" }, 3)
            else (attr, 2)
          if tokens.length = k then .ok { st with p := { st.p with Attr := attr } }
          else if tokens.getD k "" ≠ "auto" then .error .badOut
          else if k + 1 = tokens.length then .ok { st with p := { st.p with Attr := attr } }
          else
            match parseConst (tokens.getD (k + 1) "") none with
            | .error _ => .error .badOut
            | .ok th =>
              if th = 0 then .error .badOut
              else
                let attr := { attr with OutThreshold := if th = 32 then 0 else th }
                if k + 2 ≠ tokens.length then .error .badOut
                else .ok { st with p := { st.p with Attr := attr } }
  else if t0 = ".in" then
    if st.code.length ≠ 0 then .error .badIn
    else if tokens.length < 2 then .error .badIn
    else
      match parseConst (tokens.getD 1 "") none with
      | .error _ => .error .badIn
      | .ok n =>
        if n = 0 then .error .badIn
        else
          let attr := { st.p.Attr with In := n }
          let (attr, k) :=
            if 2 < tokens.length ∧ (tokens.getD 2 "" = "left" ∨ tokens.getD 2 "" = "right") then
              ({ attr with InLeft := tokens.getD 2 "" = "left" }, 3)
            else (attr, 2)
          if tokens.length = k then .ok { st with p := { st.p with Attr := attr } }
          else if tokens.getD k "" ≠ "auto" then .error .badIn
          else if k + 1 = tokens.length then .ok { st with p := { st.p with Attr := attr } }
          else
            match parseConst (tokens.getD (k + 1) "") none with
            | .error _ => .error .badIn
            | .ok th =>
              if th = 0 then .error .badIn
              else
                let attr := { attr with InThreshold := if th = 32 then 0 else th }
                if k + 2 ≠ tokens.length then .error .badIn
                else .ok { st with p := { st.p with Attr := attr } }
  else
    if tokens.length = 0 ∨ t0 = "" then .ok st
    else if tokens.length ≠ 1 ∨ t0.data.getLastD ' ' ≠ ':' then .error .parse
    else
      let label := String.mk t0.data.dropLast
      if label = "" then .error .badLabel
      else if (st.p.Labels.lookup label).isSome then .error .duplicateLabel
      else .ok { st with p := { st.p with Labels := mapInsert st.p.Labels label (st.code.length % 65536) } }

/-- One line of `NewProgram`: try `Assemble` (threading the `Set`
mutation), else re-tokenize and treat the line as a directive or label. -/
def npLine (line : String) (st : NPState) : Except NPErr NPState :=
  match AssembleFull line (some st.p) with
  | (.ok instr, p) =>
    .ok { st with p := p.getD st.p, code := st.code ++ [instr] }
  | (.error _, p) =>
    let st := { st with p := p.getD st.p }
    let tokens := tokenize line
    if tokens.length = 0 then .ok st
    else npDirective tokens st

/-- `strings.Split(source, "\n")`. -/
def splitNl : List Char → List Char → List String
  | [], acc => [String.mk acc.reverse]
  | c :: r, acc =>
    if c = '\n' then String.mk acc.reverse :: splitNl r [] else splitNl r (c :: acc)

/-- `NewProgram` (`pious.go`): compile a full source text into a
`Program`.  The `wrap`/`wrap_target` trackers use the `0xffff` sentinel;
after the pass an unset wrap defaults to `len(code)`, an unset wrap
target to 0, and the inverse label table is built. -/
def NewProgram (source : String) : Except NPErr Program :=
  let lines := splitNl source.data []
  (lines.foldlM (fun st line => npLine line st)
      { p := {}, code := [], wrap := 65535, wrapTarget := 65535 }).map
    fun st =>
      let wrap := if st.wrap = 65535 then st.code.length % 65536 else st.wrap
      let wrapTarget := if st.wrapTarget = 65535 then 0 else st.wrapTarget
      { st.p with
        Attr := { st.p.Attr with Wrap := wrap, WrapTarget := wrapTarget }
        Targets := buildTargets st.p.Labels
        Code := st.code }

/-- The directive header lines of the whole-program disassembler (the
method `(p *Program) Disassemble` in `pious.go`). -/
def listingHeader (p : Program) : List String :=
  let listing := [".program " ++ p.Attr.Name]
  let listing := listing ++
    (if p.Attr.In ≠ 0 then
      let suffix := if p.Attr.InThreshold ≠ 0 then " auto " ++ toString p.Attr.InThreshold else ""
      if p.Attr.InLeft then [".in " ++ toString p.Attr.In ++ " left" ++ suffix]
      else [".in " ++ toString p.Attr.In ++ " right" ++ suffix]
    else [])
  let listing := listing ++
    (if p.Attr.Out ≠ 0 then
      let suffix := if p.Attr.OutThreshold ≠ 0 then " auto " ++ toString p.Attr.OutThreshold else ""
      if p.Attr.OutLeft then [".out " ++ toString p.Attr.Out ++ " left" ++ suffix]
      else [".out " ++ toString p.Attr.Out ++ " right" ++ suffix]
    else [])
  let listing := listing ++
    (if p.Attr.SideSet ≠ 0 then
      let parts := (if p.Attr.SideSetOpt then [" opt"] else []) ++
        (if p.Attr.SideSetPindirs then [" pindirs"] else [])
      [".side_set " ++ toString p.Attr.SideSet ++ String.join parts]
    else [])
  listing ++ (if p.Attr.Set ≠ 0 then [".set " ++ toString p.Attr.Set] else [])

/-- One code word of the whole-program disassembler's loop:
`.wrap_target`/`.origin` markers, label lines, the tab-indented
disassembly, and the `.wrap` marker.  A word that fails to disassemble
is the Go `panic`, modelled as the error case. -/
def listingLine (p : Program) (i : Nat) (code : Nat) : Except String (List String) :=
  let pre :=
    (if i = p.Attr.WrapTarget then [".wrap_target"] else []) ++
    (if i = p.Attr.Origin ∧ p.Attr.Origin ≠ 0 then [".origin"] else []) ++
    (match p.Targets.lookup i with
     | some list => list.map (fun sym => sym ++ ":")
     | none => [])
  match Disassemble code (some p) with
  | .error e => .error e
  | .ok text =>
    .ok (pre ++ ["\t" ++ text] ++ (if i = p.Attr.Wrap then [".wrap"] else []))

/-- The method `(p *Program) Disassemble` (`pious.go`): reconstruct the
full textual source of a program (named `DisassembleProgram` here
because the Go method name collides with the function `Disassemble`). -/
def DisassembleProgram (p : Program) : Except String (List String) :=
  (p.Code.enum.foldlM (fun acc e =>
      (listingLine p e.1 e.2).map (fun ls => acc ++ ls)) (listingHeader p)).map
    fun listing =>
      let listing := listing ++
        (match p.Targets.lookup p.Code.length with
         | some list => list.map (fun sym => sym ++ ":")
         | none => [])
      listing ++ (if p.Attr.Wrap = p.Code.length then [".wrap"] else [])

/-- `jumpCodeAdjust` (`pious.go`): add `delta` to the low-5-bit address
field of a `jmp`-family word (wrapping within 5 bits), leaving every
other word untouched. -/
def jumpCodeAdjust (code delta : Nat) : Nat :=
  let ins := instructions.getD idxJMP ⟨"", 0, 0, 0⟩
  if code &&& ins.mask ≠ ins.bits then code
  else
    let is := addU16 (code &&& 31) delta
    (is &&& 31) ||| (code &&& 65504)

/-- The error of `Cat` (`combined code for %q too long`). -/
inductive CatErr where
  | programTooLarge
deriving DecidableEq, Repr

/-- The per-input body of `Cat`'s loop: shift the settings snapshot,
register the synthetic and renamed labels, and append the
jump-adjusted code. -/
def catStep (acc : Program × Nat) (e : Nat × Program) : Program × Nat :=
  let (prog, offset) := acc
  let (i, p) := e
  let attr : Settings :=
    { Name := p.Attr.Name
      Origin := addU16 offset p.Attr.Origin
      Wrap := addU16 offset p.Attr.Wrap
      WrapTarget := addU16 offset p.Attr.WrapTarget
      SideSet := p.Attr.SideSet
      SideSetOpt := p.Attr.SideSetOpt
      SideSetPindirs := p.Attr.SideSetPindirs
      Set := p.Attr.Set
      Out := p.Attr.Out
      OutLeft := p.Attr.OutLeft
      OutAuto := p.Attr.OutAuto
      OutThreshold := p.Attr.OutThreshold
      In := p.Attr.In
      InLeft := p.Attr.InLeft
      InAuto := p.Attr.InAuto
      InThreshold := p.Attr.InThreshold }
  let labels := mapInsert prog.Labels (p.Attr.Name ++ toString i ++ "_origin") (addU16 offset p.Attr.Origin)
  let labels := mapInsert labels (p.Attr.Name ++ toString i ++ "_wrap") (addU16 offset p.Attr.Wrap)
  let labels := mapInsert labels (p.Attr.Name ++ toString i ++ "_wrap_target") (addU16 offset p.Attr.WrapTarget)
  let labels := p.Labels.foldl
    (fun ls e => mapInsert ls (p.Attr.Name ++ toString i ++ "_" ++ e.1) (addU16 offset e.2)) labels
  let code := prog.Code ++ p.Code.map (fun c => jumpCodeAdjust c offset)
  ({ prog with
      Labels := labels
      Code := code
      Modules := prog.Modules ++ [attr] },
   addU16 offset (p.Code.length % 65536))

/-- `Cat` (`pious.go`): merge programs at increasing offsets, reject a
merged body longer than 32 words, set the merged `Wrap` to the merged
length and rebuild the inverse label table. -/
def Cat (name : String) (ps : List Program) : Except CatErr Program :=
  let start : Program := { Attr := { Name := name }, Labels := [] }
  let (prog, _) := ps.enum.foldl catStep (start, 0)
  if prog.Code.length > 32 then .error .programTooLarge
  else
    .ok { prog with
      Targets := buildTargets prog.Labels
      Attr := { prog.Attr with Wrap := prog.Code.length % 65536 } }

/-- The 1-bit mandatory side-set context of the round-trip test. -/
def cfgSide1 : Program := { Attr := { SideSet := 1 } }

/-- The 2-bit optional side-set context of the round-trip test. -/
def cfgSide2opt : Program := { Attr := { SideSet := 2, SideSetOpt := true } }

/-- Compile a source, render the resulting program, and compile the
rendering (the composition of the render/compile idempotence property). -/
def recompileProgram (src : String) : Option Program := do
  let p ← (NewProgram src).toOption
  let ls ← (DisassembleProgram p).toOption
  (NewProgram (String.intercalate "\n" ls)).toOption

/-- Following the spec's words for the linker: at running offset `O`,
every code word matching the `jmp` family mask/bits has `O` added to its
low-5-bit address field (wrapping within 5 bits), every other word is
unmodified, and the per-program results are concatenated. -/
def catCodeSpec : List Program → Nat → List Nat
  | [], _ => []
  | p :: rest, off =>
    p.Code.map (fun c =>
      if c &&& 0xe000 = 0x0000 then (((c &&& 31) + off) % 32) ||| (c &&& 65504) else c) ++
    catCodeSpec rest (off + p.Code.length)

/-- The generic `set`-family word: family bits `0b111`, delay `del`,
destination `d`, immediate `n`. -/
def setWordOf (del d n : Nat) : Nat := 57344 + del * 256 + d * 32 + n

/-- 33 `nop` lines (the capacity example of the claims). -/
def nops33 : String := String.intercalate "\n" (List.replicate 33 "nop")

/-- Decoded-list suffix the side-set/delay tail appends with no side-set
configured, as a function of the delay bits. -/
def sfxN (del : Nat) : List String :=
  if del ≠ 0 then [" [" ++ toString del ++ "]"] else []

/-- Token-list form of `sfxN` after retokenization. -/
def tokN (del : Nat) : List String :=
  if del ≠ 0 then ["[" ++ toString del ++ "]"] else []

/-- Decoded-list suffix for the mandatory 1-bit side-set context. -/
def sfx1 (del : Nat) : List String :=
  ["\tside " ++ toString (del >>> 4)] ++
    (if del &&& 15 ≠ 0 then [" [" ++ toString (del &&& 15) ++ "]"] else [])

/-- Token-list form of `sfx1` after retokenization. -/
def tok1 (del : Nat) : List String :=
  ["side", toString (del >>> 4)] ++
    (if del &&& 15 ≠ 0 then ["[" ++ toString (del &&& 15) ++ "]"] else [])

/-- Decoded-list suffix for the optional 2-bit side-set context (on the
delay bytes it accepts). -/
def sfx2 (del : Nat) : List String :=
  (if del >>> 4 = 1 then ["\tside " ++ toString ((del >>> 2) &&& 3)] else []) ++
    (if del &&& 3 ≠ 0 then [" [" ++ toString (del &&& 3) ++ "]"] else [])

/-- Token-list form of `sfx2` after retokenization. -/
def tok2 (del : Nat) : List String :=
  (if del >>> 4 = 1 then ["side", toString ((del >>> 2) &&& 3)] else []) ++
    (if del &&& 3 ≠ 0 then ["[" ++ toString (del &&& 3) ++ "]"] else [])


/-- Relates two fallible computations that succeed together with equal
values, error payloads unconstrained. -/
def ExcRel {e f a : Type} : Except e a → Except f a → Prop
  | .ok x, .ok y => x = y
  | .error _, .error _ => True
  | _, _ => False

/-- Shape of a retokenized side-set/delay suffix: empty, headed by
`side`, or headed by a bracketed delay token. -/
def suffHeadOK (t : List String) : Prop :=
  t = [] ∨ t.headD "" = "side" ∨ (t.headD "").data.headD ' ' = '['

/-- Decidable probe for one `Assemble` table iteration on the body tokens
alone: `none` mirrors the loop continuing past this descriptor, `some b`
whether the descriptor parses the body to exactly `(e, toks0.length)`. -/
def extIter (i : Nat) (dec : Instruction) (toks0 : List String) (p2 : Option Program) (e : Nat) :
    Option Bool :=
  if toks0.headD "" ≠ dec.token then none
  else if dec.flags = 0 ∧ toks0.length = 1 then some (decide (i = idxNOP ∧ e = dec.bits))
  else if toks0.length = 1 then some false
  else
    let labels : Option (List (String × Nat)) :=
      match p2 with | some prog => some prog.Labels | none => none
    if i = idxJMP then some (decide (asmCaseJmp toks0 labels dec.bits = .ok (e, toks0.length)))
    else if i = idxWAIT then some (decide (asmCaseWait toks0 dec.bits = .ok (e, toks0.length)))
    else if i = idxIN then some (decide (asmCaseIn toks0 labels dec.bits = .ok (e, toks0.length)))
    else if i = idxOUT then some (decide (asmCaseOut toks0 labels dec.bits = .ok (e, toks0.length)))
    else if i = idxNOP then some false
    else if i = idxPULL ∨ i = idxPUSH then
      some (decide (asmCasePullPush i toks0 dec.bits = .ok (e, toks0.length)))
    else if i = idxMOV1 then
      match asmCaseMov1 toks0 dec.bits with
      | .ok none => none
      | .ok (some (v, k)) => some (decide (v = e ∧ k = toks0.length))
      | .error _ => some false
    else if i = idxMOV2 then
      some (decide (asmCaseMov2 toks0 dec.bits = .ok (some (e, toks0.length))))
    else if i = idxSET then
      some (decide ((asmCaseSet toks0 labels p2 dec.bits).1 = .ok (e, toks0.length)))
    else if i = idxIRQ then some (decide (asmCaseIrq toks0 dec.bits = .ok (e, toks0.length)))
    else some false

/-- Decidable probe for `Assemble`'s whole loop on the body tokens. -/
def extLoop (toks0 : List String) (p2 : Option Program) (e : Nat) :
    List (Nat × Instruction) → Bool
  | [] => false
  | (i, dec) :: rest =>
    match extIter i dec toks0 p2 e with
    | none => extLoop toks0 p2 e rest
    | some b => b

/-- The three side-set configurations exercised by `TestAssemble`. -/
def pClass (pc : Nat) : Option Program :=
  if pc = 1 then some cfgSide1 else if pc = 2 then some cfgSide2opt else none

/-- Decidable probe over one body word (delay/side bits clear): either its
disassembly fails, or the text reassembles through the matching descriptor
to the expected word, with the token-shape facts the suffix glue needs. -/
def bodyOK (B pc : Nat) : Bool :=
  match Disassemble B none with
  | .error _ => true
  | .ok t0 =>
    let toks0 := tokenize t0
    let e := if 57472 &&& B = 49152 ∧ B &&& 64 ≠ 0 then B &&& 65503 else B
    extLoop toks0 (pClass pc) e instructions.enum
    && decide (toks0 ≠ [])
    && (decide (t0 = "nop\t")
        || (decide (∀ x ∈ t0.data, x ≠ '/' ∧ x ≠ ';')
            && (match t0.data.getLast? with
                | some z => decide (isSep z = false)
                | none => false)
            && decide (∀ x ∈ (splitCore t0.data []).map String.mk, x ≠ "")))
    && (decide (¬ (57472 &&& B = 49152 ∧ B &&& 64 ≠ 0))
        || decide (Disassemble (B ^^^ 32) none = Disassemble B none))


/-! ## Theorems -/

theorem consumeSeps_length_le (s : List Char) : (consumeSeps s).length ≤ s.length := by
  induction s with
  | nil => simp [consumeSeps]
  | cons c r ih =>
    simp only [consumeSeps]
    split
    · exact Nat.le_trans ih (Nat.le_succ _)
    · simp

theorem consumeLine_length_le (s : List Char) : (consumeLine s).length ≤ s.length := by
  induction s with
  | nil => simp [consumeLine]
  | cons c r ih =>
    simp only [consumeLine]
    split
    · simp
    · exact Nat.le_trans ih (Nat.le_succ _)

/-- Any two sufficient fuels agree for `splitCoreF`. -/
theorem splitCoreF_congr (fuel₁ fuel₂ : Nat) (s acc : List Char) (h₁ : s.length < fuel₁)
    (h₂ : s.length < fuel₂) : splitCoreF fuel₁ s acc = splitCoreF fuel₂ s acc := by
  induction fuel₁ using Nat.strong_induction_on generalizing fuel₂ s acc with
  | _ fuel₁ ih =>
    match fuel₁, fuel₂, h₁, h₂ with
    | f₁ + 1, f₂ + 1, h₁, h₂ =>
      match s with
      | [] => rfl
      | c :: r =>
        simp only [List.length_cons] at h₁ h₂
        have hr₁ : r.length < f₁ := by omega
        have hr₂ : r.length < f₂ := by omega
        have hs₁ : (consumeSeps r).length < f₁ :=
          Nat.lt_of_le_of_lt (consumeSeps_length_le r) hr₁
        have hs₂ : (consumeSeps r).length < f₂ :=
          Nat.lt_of_le_of_lt (consumeSeps_length_le r) hr₂
        have hl₁ : (consumeLine r).length < f₁ :=
          Nat.lt_of_le_of_lt (consumeLine_length_le r) hr₁
        have hl₂ : (consumeLine r).length < f₂ :=
          Nat.lt_of_le_of_lt (consumeLine_length_le r) hr₂
        simp only [splitCoreF]
        split
        · exact congrArg _ (ih f₁ (Nat.lt_succ_self _) f₂ _ _ hs₁ hs₂)
        · split
          · exact congrArg _ (ih f₁ (Nat.lt_succ_self _) f₂ _ _ hl₁ hl₂)
          · split
            · match r, hr₁, hr₂ with
              | c2 :: r2, hr₁, hr₂ =>
                have hl2₁ : (consumeLine r2).length < f₁ :=
                  Nat.lt_of_le_of_lt (Nat.le_trans (consumeLine_length_le r2)
                    (Nat.le_succ _)) (by simpa using hr₁)
                have hl2₂ : (consumeLine r2).length < f₂ :=
                  Nat.lt_of_le_of_lt (Nat.le_trans (consumeLine_length_le r2)
                    (Nat.le_succ _)) (by simpa using hr₂)
                simp only
                split
                · exact congrArg _ (ih f₁ (Nat.lt_succ_self _) f₂ _ _ hl2₁ hl2₂)
                · exact ih f₁ (Nat.lt_succ_self _) f₂ _ _ hr₁ hr₂
              | [], hr₁, hr₂ =>
                exact ih f₁ (Nat.lt_succ_self _) f₂ _ _ hr₁ hr₂
            · exact ih f₁ (Nat.lt_succ_self _) f₂ _ _ hr₁ hr₂


/-- C2: with a nil program context, `Disassemble` produces exactly the
nine literal texts of the spec's test vectors (tab between mnemonic and
operands). -/
theorem C2_literal_vectors :
    Disassemble 0x80a0 none = .ok "pull\tblock" ∧
    Disassemble 0x6040 none = .ok "out\ty, 32" ∧
    Disassemble 0xa022 none = .ok "mov\tx, y" ∧
    Disassemble 0xe001 none = .ok "set\tpins, 1" ∧
    Disassemble 0x0044 none = .ok "jmp\tx-- 4" ∧
    Disassemble 0xa0c3 none = .ok "mov\tisr, null" ∧
    Disassemble 0x8010 none = .ok "mov\trxfifo[y], isr" ∧
    Disassemble 0xa02b none = .ok "mov\tx, !null" ∧
    Disassemble 0x8098 none = .ok "mov\tosr, rxfifo[0]" := by
  decide

/-- C7 counterexample: `jmp 5 garbage` leaves the token `garbage`
unconsumed, yet `Assemble` succeeds (returning 5) instead of failing
with an invalid-instruction error, refuting the claim as stated. -/
theorem C7_counterexample : Assemble "jmp 5 garbage" none = .ok 5 := by decide

/-- C7 amended: the loop's only exit test compares the final token index
against 1, never against the token count, so tokens left over after the
matched descriptor's fields and the optional side/delay suffix are
ignored rather than rejected.  In each proven instance a trailing junk
token leaves the word unchanged, across the descriptor families, while
`nop junk` (no operand token consumed, index still 1) falls through to
the invalid-instruction error. -/
theorem C7_amended :
    Assemble "jmp 5 garbage" none = Assemble "jmp 5" none ∧
    Assemble "jmp 5" none = .ok 5 ∧
    Assemble "set pins, 1 junk" none = Assemble "set pins, 1" none ∧
    Assemble "set pins, 1" none = .ok 0xe001 ∧
    Assemble "wait 1 gpio 3 junk" none = Assemble "wait 1 gpio 3" none ∧
    Assemble "mov x, y junk" none = Assemble "mov x, y" none ∧
    Assemble "pull block junk" none = Assemble "pull block" none ∧
    Assemble "irq 3 junk" none = Assemble "irq 3" none ∧
    Assemble "nop junk" none = .error .bad := by
  decide

/-- C3 (code bug): compiling `.program foo` + `nop` gives `Wrap = 1`
(the `len(code)` default applied when the source has no `.wrap`), and
its rendering ends in a `.wrap` line, which the recompilation turns into
`Wrap = len(code)-1 = 0`: the Code words round-trip but the `Wrap`
setting does not, contradicting the render/compile idempotence the spec
(and the package's own usage example) intends. -/
theorem C3_wrap_default_bug :
    (NewProgram ".program foo\nnop").toOption.map (fun p => (p.Attr.Wrap, p.Code)) =
      some (1, [0x8042]) ∧
    (recompileProgram ".program foo\nnop").map (fun p => (p.Attr.Wrap, p.Code)) =
      some (0, [0x8042]) := by
  decide

theorem and31_eq_mod (x : Nat) : x &&& 31 = x % 32 :=
  Nat.and_pow_two_sub_one_eq_mod x 5

theorem jumpCodeAdjust_def (c offm : Nat) :
    jumpCodeAdjust c offm =
      if c &&& 0xe000 ≠ 0 then c else (addU16 (c &&& 31) offm &&& 31) ||| (c &&& 65504) := rfl

/-- `jumpCodeAdjust` at a wrapped offset computes the spec's adjusted word. -/
theorem jumpCodeAdjust_eq_spec (c off offm : Nat) (h : offm = off % 65536) :
    jumpCodeAdjust c offm =
      if c &&& 0xe000 = 0 then (((c &&& 31) + off) % 32) ||| (c &&& 65504) else c := by
  rw [jumpCodeAdjust_def]
  by_cases hc : c &&& 0xe000 = 0
  · simp only [hc, ne_eq, not_true_eq_false, not_false_eq_true, if_neg, if_pos, ite_false,
      ite_true]
    simp only [addU16, and31_eq_mod]
    congr 1
    omega
  · simp [hc]

theorem catStep_code (prog : Program) (offm : Nat) (e : Nat × Program) :
    (catStep (prog, offm) e).1.Code =
      prog.Code ++ e.2.Code.map (fun c => jumpCodeAdjust c offm) := by
  rfl

theorem catStep_off (prog : Program) (offm : Nat) (e : Nat × Program) :
    (catStep (prog, offm) e).2 = addU16 offm (e.2.Code.length % 65536) := by
  rfl

/-- The linker's fold produces exactly the spec's merged code. -/
theorem catFold_code (ps : List Program) : ∀ (i0 : Nat) (prog : Program) (off offm : Nat),
    offm = off % 65536 →
    ((List.enumFrom i0 ps).foldl catStep (prog, offm)).1.Code =
      prog.Code ++ catCodeSpec ps off := by
  induction ps with
  | nil => intro i0 prog off offm _; simp [catCodeSpec]
  | cons p rest ih =>
    intro i0 prog off offm h
    simp only [List.enumFrom, List.foldl_cons]
    rcases hstep : catStep (prog, offm) (i0, p) with ⟨prog', off'⟩
    have hoff' : off' = (off + p.Code.length) % 65536 := by
      have := catStep_off prog offm (i0, p)
      rw [hstep] at this
      simp only [addU16] at this
      omega
    rw [ih (i0 + 1) prog' (off + p.Code.length) off' hoff']
    have hcode : prog'.Code = prog.Code ++ p.Code.map (fun c => jumpCodeAdjust c offm) := by
      have := catStep_code prog offm (i0, p)
      rw [hstep] at this
      exact this
    rw [hcode, List.append_assoc]
    congr 1
    show p.Code.map (fun c => jumpCodeAdjust c offm) ++ catCodeSpec rest (off + p.Code.length) =
      catCodeSpec (p :: rest) off
    simp only [catCodeSpec]
    congr 1
    exact List.map_congr_left fun c _ => jumpCodeAdjust_eq_spec c off offm h

theorem catCodeSpec_length (ps : List Program) :
    ∀ off, (catCodeSpec ps off).length = (ps.map (fun p => p.Code.length)).sum := by
  induction ps with
  | nil => intro off; simp [catCodeSpec]
  | cons p rest ih => intro off; simp [catCodeSpec, ih]

/-- `Cat` rewritten with the fold projected out of the destructuring let. -/
theorem Cat_eq (name : String) (ps : List Program) :
    Cat name ps =
      (let prog := ((List.enum ps).foldl catStep
          ({ Attr := { Name := name }, Labels := [] }, 0)).1
       if prog.Code.length > 32 then .error .programTooLarge
       else .ok { prog with
          Targets := buildTargets prog.Labels
          Attr := { prog.Attr with Wrap := prog.Code.length % 65536 } }) := by
  unfold Cat
  rcases hfold : (List.enum ps).foldl catStep ({ Attr := { Name := name }, Labels := [] }, 0)
    with ⟨prog, o⟩
  dsimp only
  rw [hfold]

/-- The first component of `Cat`'s fold, over any program list. -/
theorem cat_fold_code (name : String) (ps : List Program) :
    ((List.enum ps).foldl catStep ({ Attr := { Name := name }, Labels := [] }, 0)).1.Code =
      catCodeSpec ps 0 := by
  have := catFold_code ps 0 { Attr := { Name := name }, Labels := [] } 0 0 rfl
  simpa using this

/-- The merged code of a successful `Cat`. -/
theorem cat_code_eq (name : String) (ps : List Program) (m : Program)
    (h : Cat name ps = .ok m) : m.Code = catCodeSpec ps 0 := by
  rw [Cat_eq] at h
  simp only at h
  by_cases hlen : (((List.enum ps).foldl catStep
      ({ Attr := { Name := name }, Labels := [] }, 0)).1.Code.length > 32)
  · rw [if_pos hlen] at h
    cases h
  · rw [if_neg hlen] at h
    cases h
    exact cat_fold_code name ps

/-- C4: a successful `Cat` produces exactly the concatenation in which
each input's words have the running offset added to the low-5-bit
address field of `jmp`-family words (wrapping modulo 32) and every other
word left unchanged; in particular merging programs of lengths 3 and 2
gives 5 words where the second input's `jmp` to address 2 now targets
address 5. -/
theorem C4_linker_addressing :
    (∀ (name : String) (ps : List Program) (m : Program),
      Cat name ps = .ok m → m.Code = catCodeSpec ps 0) ∧
    (Cat "m" [{ Code := [0x8042, 0x8042, 0x8042] }, { Code := [0x8042, 0x0002] }]).map
        (fun m => m.Code) = .ok [0x8042, 0x8042, 0x8042, 0x8042, 0x0005] := by
  refine ⟨fun name ps m h => cat_code_eq name ps m h, by decide⟩

/-- Witness for C4 at a one-program list. -/
theorem C4_witness :
    (Cat "w" [{ Code := [0x0002] }]).map (fun m => m.Code) =
      .ok (catCodeSpec [{ Code := [0x0002] }] 0) := by
  cases h : Cat "w" [{ Code := [0x0002] }] with
  | ok m =>
    simp only [Except.map]
    exact congrArg Except.ok (C4_linker_addressing.1 "w" _ m h)
  | error e => cases e; exact absurd h (by decide)

/-- C5: `Cat` fails with the too-large error exactly when the
concatenated code exceeds 32 words (so exactly 32 still succeeds), and a
successful merge has `Wrap` equal to the merged code length. -/
theorem C5_capacity (name : String) (ps : List Program) :
    (Cat name ps = .error .programTooLarge ↔ 32 < (ps.map (fun p => p.Code.length)).sum) ∧
    (∀ m, Cat name ps = .ok m →
      m.Code.length = (ps.map (fun p => p.Code.length)).sum ∧ m.Attr.Wrap = m.Code.length) := by
  have hlen : ((List.enum ps).foldl catStep
      ({ Attr := { Name := name }, Labels := [] }, 0)).1.Code.length =
      (ps.map (fun p => p.Code.length)).sum := by
    rw [cat_fold_code, catCodeSpec_length]
  constructor
  · rw [Cat_eq]
    dsimp only
    by_cases h : 32 < (ps.map (fun p => p.Code.length)).sum
    · rw [if_pos (by omega)]
      simp [h]
    · rw [if_neg (by omega)]
      simp [h]
  · intro m hm
    rw [Cat_eq] at hm
    dsimp only at hm
    by_cases h : 32 < (ps.map (fun p => p.Code.length)).sum
    · rw [if_pos (by omega)] at hm
      cases hm
    · rw [if_neg (by omega)] at hm
      cases hm
      refine ⟨hlen, ?_⟩
      simp only [hlen]
      omega

/-- Witness for C5: 33 words overflow, and a 32-word merge keeps
`Wrap = 32`. -/
theorem C5_witness :
    Cat "w" [{ Code := List.replicate 33 0x8042 }] = .error .programTooLarge ∧
    (Cat "w" [{ Code := List.replicate 32 0x8042 }]).map (fun m => m.Attr.Wrap) = .ok 32 := by
  constructor
  · exact (C5_capacity "w" _).1.mpr (by decide)
  · cases h : Cat "w" [{ Code := List.replicate 32 0x8042 }] with
    | ok m =>
      obtain ⟨h1, h2⟩ := (C5_capacity "w" _).2 m h
      simp only [Except.map]
      rw [h2, h1]
      decide
    | error e => cases e; exact absurd ((C5_capacity "w" _).1.mp h) (by decide)

/-- Destination slice 0 of the exhaustive set-destination check (kept small for the kernel). -/
theorem C6_auxD0 : ∀ (del : Fin 32) (n : Fin 32),
    ((setWordOf del 0 n >>> 5 &&& 7 = 0 ∨ setWordOf del 0 n >>> 5 &&& 7 = 1 ∨
      setWordOf del 0 n >>> 5 &&& 7 = 2 ∨ setWordOf del 0 n >>> 5 &&& 7 = 4) →
        (Disassemble (setWordOf del 0 n) none).isOk) ∧
    ((setWordOf del 0 n >>> 5 &&& 7 = 3 ∨ 5 ≤ setWordOf del 0 n >>> 5 &&& 7) →
        Disassemble (setWordOf del 0 n) none = .error "invalid destination") := by
  decide

/-- Destination slice 1 of the exhaustive set-destination check (kept small for the kernel). -/
theorem C6_auxD1 : ∀ (del : Fin 32) (n : Fin 32),
    ((setWordOf del 1 n >>> 5 &&& 7 = 0 ∨ setWordOf del 1 n >>> 5 &&& 7 = 1 ∨
      setWordOf del 1 n >>> 5 &&& 7 = 2 ∨ setWordOf del 1 n >>> 5 &&& 7 = 4) →
        (Disassemble (setWordOf del 1 n) none).isOk) ∧
    ((setWordOf del 1 n >>> 5 &&& 7 = 3 ∨ 5 ≤ setWordOf del 1 n >>> 5 &&& 7) →
        Disassemble (setWordOf del 1 n) none = .error "invalid destination") := by
  decide

/-- Destination slice 2 of the exhaustive set-destination check (kept small for the kernel). -/
theorem C6_auxD2 : ∀ (del : Fin 32) (n : Fin 32),
    ((setWordOf del 2 n >>> 5 &&& 7 = 0 ∨ setWordOf del 2 n >>> 5 &&& 7 = 1 ∨
      setWordOf del 2 n >>> 5 &&& 7 = 2 ∨ setWordOf del 2 n >>> 5 &&& 7 = 4) →
        (Disassemble (setWordOf del 2 n) none).isOk) ∧
    ((setWordOf del 2 n >>> 5 &&& 7 = 3 ∨ 5 ≤ setWordOf del 2 n >>> 5 &&& 7) →
        Disassemble (setWordOf del 2 n) none = .error "invalid destination") := by
  decide

/-- Destination slice 3 of the exhaustive set-destination check (kept small for the kernel). -/
theorem C6_auxD3 : ∀ (del : Fin 32) (n : Fin 32),
    ((setWordOf del 3 n >>> 5 &&& 7 = 0 ∨ setWordOf del 3 n >>> 5 &&& 7 = 1 ∨
      setWordOf del 3 n >>> 5 &&& 7 = 2 ∨ setWordOf del 3 n >>> 5 &&& 7 = 4) →
        (Disassemble (setWordOf del 3 n) none).isOk) ∧
    ((setWordOf del 3 n >>> 5 &&& 7 = 3 ∨ 5 ≤ setWordOf del 3 n >>> 5 &&& 7) →
        Disassemble (setWordOf del 3 n) none = .error "invalid destination") := by
  decide

/-- Destination slice 4 of the exhaustive set-destination check (kept small for the kernel). -/
theorem C6_auxD4 : ∀ (del : Fin 32) (n : Fin 32),
    ((setWordOf del 4 n >>> 5 &&& 7 = 0 ∨ setWordOf del 4 n >>> 5 &&& 7 = 1 ∨
      setWordOf del 4 n >>> 5 &&& 7 = 2 ∨ setWordOf del 4 n >>> 5 &&& 7 = 4) →
        (Disassemble (setWordOf del 4 n) none).isOk) ∧
    ((setWordOf del 4 n >>> 5 &&& 7 = 3 ∨ 5 ≤ setWordOf del 4 n >>> 5 &&& 7) →
        Disassemble (setWordOf del 4 n) none = .error "invalid destination") := by
  decide

/-- Destination slice 5 of the exhaustive set-destination check (kept small for the kernel). -/
theorem C6_auxD5 : ∀ (del : Fin 32) (n : Fin 32),
    ((setWordOf del 5 n >>> 5 &&& 7 = 0 ∨ setWordOf del 5 n >>> 5 &&& 7 = 1 ∨
      setWordOf del 5 n >>> 5 &&& 7 = 2 ∨ setWordOf del 5 n >>> 5 &&& 7 = 4) →
        (Disassemble (setWordOf del 5 n) none).isOk) ∧
    ((setWordOf del 5 n >>> 5 &&& 7 = 3 ∨ 5 ≤ setWordOf del 5 n >>> 5 &&& 7) →
        Disassemble (setWordOf del 5 n) none = .error "invalid destination") := by
  decide

/-- Destination slice 6 of the exhaustive set-destination check (kept small for the kernel). -/
theorem C6_auxD6 : ∀ (del : Fin 32) (n : Fin 32),
    ((setWordOf del 6 n >>> 5 &&& 7 = 0 ∨ setWordOf del 6 n >>> 5 &&& 7 = 1 ∨
      setWordOf del 6 n >>> 5 &&& 7 = 2 ∨ setWordOf del 6 n >>> 5 &&& 7 = 4) →
        (Disassemble (setWordOf del 6 n) none).isOk) ∧
    ((setWordOf del 6 n >>> 5 &&& 7 = 3 ∨ 5 ≤ setWordOf del 6 n >>> 5 &&& 7) →
        Disassemble (setWordOf del 6 n) none = .error "invalid destination") := by
  decide

/-- Destination slice 7 of the exhaustive set-destination check (kept small for the kernel). -/
theorem C6_auxD7 : ∀ (del : Fin 32) (n : Fin 32),
    ((setWordOf del 7 n >>> 5 &&& 7 = 0 ∨ setWordOf del 7 n >>> 5 &&& 7 = 1 ∨
      setWordOf del 7 n >>> 5 &&& 7 = 2 ∨ setWordOf del 7 n >>> 5 &&& 7 = 4) →
        (Disassemble (setWordOf del 7 n) none).isOk) ∧
    ((setWordOf del 7 n >>> 5 &&& 7 = 3 ∨ 5 ≤ setWordOf del 7 n >>> 5 &&& 7) →
        Disassemble (setWordOf del 7 n) none = .error "invalid destination") := by
  decide

/-- Exhaustive check of the `set` destination rule over delay,
destination and data, assembled from the eight destination slices. -/
theorem C6_aux : ∀ (del : Fin 32) (d : Fin 8) (n : Fin 32),
    ((setWordOf del d n >>> 5 &&& 7 = 0 ∨ setWordOf del d n >>> 5 &&& 7 = 1 ∨
      setWordOf del d n >>> 5 &&& 7 = 2 ∨ setWordOf del d n >>> 5 &&& 7 = 4) →
        (Disassemble (setWordOf del d n) none).isOk) ∧
    ((setWordOf del d n >>> 5 &&& 7 = 3 ∨ 5 ≤ setWordOf del d n >>> 5 &&& 7) →
        Disassemble (setWordOf del d n) none = .error "invalid destination") := by
  intro del d n
  fin_cases d
  · exact C6_auxD0 del n
  · exact C6_auxD1 del n
  · exact C6_auxD2 del n
  · exact C6_auxD3 del n
  · exact C6_auxD4 del n
  · exact C6_auxD5 del n
  · exact C6_auxD6 del n
  · exact C6_auxD7 del n

/-- Every `set`-family word decomposes into delay, destination and data. -/
theorem set_decomp (w : Nat) (hw : w < 65536) (h : w &&& 0xe000 = 0xe000) :
    w = 57344 + (w / 256 % 32) * 256 + (w / 32 % 8) * 32 + w % 32 := by
  have hge : 57344 ≤ w := by
    have := Nat.and_le_left (n := w) (m := 57344)
    omega
  omega

/-- C6 counterexample: the claim admits `exec` (0b111) as a legal `set`
destination, but `Disassemble` of `0xe0e0` (a `set` word with
destination 0b111) fails: the code rejects every destination at or
above 0b101, `exec` included. -/
theorem C6_counterexample : Disassemble 0xe0e0 none = .error "invalid destination" := by
  decide

/-- C6 amended: decoding the 3-bit destination of a `set` instruction
succeeds exactly for `pins` (0b000), `x` (0b001), `y` (0b010) and
`pindirs` (0b100), and fails with the invalid-destination error for
`null` (0b011) and for every value at or above 0b101 — including
`exec` (0b111), which the claim wrongly listed as legal. -/
theorem C6_amended : ∀ w, w < 65536 → w &&& 0xe000 = 0xe000 →
    ((w >>> 5 &&& 7 = 0 ∨ w >>> 5 &&& 7 = 1 ∨ w >>> 5 &&& 7 = 2 ∨ w >>> 5 &&& 7 = 4) →
        (Disassemble w none).isOk) ∧
    ((w >>> 5 &&& 7 = 3 ∨ 5 ≤ w >>> 5 &&& 7) →
        Disassemble w none = .error "invalid destination") := by
  intro w hw h
  rw [set_decomp w hw h]
  exact C6_aux ⟨w / 256 % 32, by omega⟩ ⟨w / 32 % 8, by omega⟩ ⟨w % 32, by omega⟩

/-- Witness for C6 at `set pins, 1` (0xe001) and `set null, 0` (0xe060). -/
theorem C6_witness :
    (Disassemble 0xe001 none).isOk ∧
    Disassemble 0xe060 none = .error "invalid destination" :=
  ⟨(C6_amended 0xe001 (by decide) (by decide)).1 (by decide),
   (C6_amended 0xe060 (by decide) (by decide)).2 (by decide)⟩

theorem C8w1t : ∀ (n : Fin 33), 2 ^ 1 ≤ n.val →
    Assemble ("set pins, 1 side " ++ toString n.val)
      (some { Attr := { SideSet := 1, SideSetOpt := true } }) =
      .error (.sideTooLarge 1) := by
  decide

theorem C8w1f : ∀ (n : Fin 33), 2 ^ 1 ≤ n.val →
    Assemble ("set pins, 1 side " ++ toString n.val)
      (some { Attr := { SideSet := 1, SideSetOpt := false } }) =
      .error (.sideTooLarge 1) := by
  decide

theorem C8w2t : ∀ (n : Fin 33), 2 ^ 2 ≤ n.val →
    Assemble ("set pins, 1 side " ++ toString n.val)
      (some { Attr := { SideSet := 2, SideSetOpt := true } }) =
      .error (.sideTooLarge 2) := by
  decide

theorem C8w2f : ∀ (n : Fin 33), 2 ^ 2 ≤ n.val →
    Assemble ("set pins, 1 side " ++ toString n.val)
      (some { Attr := { SideSet := 2, SideSetOpt := false } }) =
      .error (.sideTooLarge 2) := by
  decide

theorem C8w3t : ∀ (n : Fin 33), 2 ^ 3 ≤ n.val →
    Assemble ("set pins, 1 side " ++ toString n.val)
      (some { Attr := { SideSet := 3, SideSetOpt := true } }) =
      .error (.sideTooLarge 3) := by
  decide

theorem C8w3f : ∀ (n : Fin 33), 2 ^ 3 ≤ n.val →
    Assemble ("set pins, 1 side " ++ toString n.val)
      (some { Attr := { SideSet := 3, SideSetOpt := false } }) =
      .error (.sideTooLarge 3) := by
  decide

theorem C8w4t : ∀ (n : Fin 33), 2 ^ 4 ≤ n.val →
    Assemble ("set pins, 1 side " ++ toString n.val)
      (some { Attr := { SideSet := 4, SideSetOpt := true } }) =
      .error (.sideTooLarge 4) := by
  decide

theorem C8w4f : ∀ (n : Fin 33), 2 ^ 4 ≤ n.val →
    Assemble ("set pins, 1 side " ++ toString n.val)
      (some { Attr := { SideSet := 4, SideSetOpt := false } }) =
      .error (.sideTooLarge 4) := by
  decide

theorem C8w5t : ∀ (n : Fin 33), 2 ^ 5 ≤ n.val →
    Assemble ("set pins, 1 side " ++ toString n.val)
      (some { Attr := { SideSet := 5, SideSetOpt := true } }) =
      .error (.sideTooLarge 5) := by
  decide

theorem C8w5f : ∀ (n : Fin 33), 2 ^ 5 ≤ n.val →
    Assemble ("set pins, 1 side " ++ toString n.val)
      (some { Attr := { SideSet := 5, SideSetOpt := false } }) =
      .error (.sideTooLarge 5) := by
  decide

/-- C8: with a context whose side-set width `s` (1–5, optional or not)
nonzero, a `side N` value that parses (`N ≤ 32`) but does not fit
(`2^s ≤ N`) makes `Assemble` fail with the side-set-overflow error; in
particular `set pins, 1 side 2` fails under a program compiled from
`.side_set 1 opt` and succeeds under one compiled from `.side_set 2`. -/
theorem C8_side_set_overflow :
    (∀ (s : Fin 6) (opt : Bool) (n : Fin 33), 1 ≤ s.val → 2 ^ s.val ≤ n.val →
      Assemble ("set pins, 1 side " ++ toString n.val)
        (some { Attr := { SideSet := s.val, SideSetOpt := opt } }) =
        .error (.sideTooLarge s.val)) ∧
    (NewProgram ".side_set 1 opt").toOption.map
        (fun p => Assemble "set pins, 1 side 2" (some p)) =
      some (.error (.sideTooLarge 1)) ∧
    (NewProgram ".side_set 2").toOption.map
        (fun p => (Assemble "set pins, 1 side 2" (some p)).isOk) = some true := by
  refine ⟨fun s opt n h1 h2 => ?_, by decide, by decide⟩
  fin_cases s
  · exact absurd h1 (by decide)
  all_goals fin_cases opt
  · exact C8w1t n h2
  · exact C8w1f n h2
  · exact C8w2t n h2
  · exact C8w2f n h2
  · exact C8w3t n h2
  · exact C8w3f n h2
  · exact C8w4t n h2
  · exact C8w4f n h2
  · exact C8w5t n h2
  · exact C8w5f n h2

/-- Witness for C8 at width 1 (optional), `side 2`. -/
theorem C8_witness :
    Assemble ("set pins, 1 side " ++ toString ((⟨2, by omega⟩ : Fin 33)).val)
      (some { Attr := { SideSet := ((⟨1, by omega⟩ : Fin 6)).val, SideSetOpt := true } }) =
      .error (.sideTooLarge ((⟨1, by omega⟩ : Fin 6)).val) :=
  C8_side_set_overflow.1 ⟨1, by omega⟩ true ⟨2, by omega⟩ (by decide) (by decide)

theorem sortStrings_sorted (l : List String) : (sortStrings l).Sorted (· ≤ ·) :=
  List.sorted_insertionSort _ l

/-- Every name list `buildTargets` stores is sorted. -/
theorem buildTargets_sorted (labels : List (String × Nat)) :
    ∀ e ∈ buildTargets labels, e.2.Sorted (· ≤ ·) := by
  intro e he
  unfold buildTargets at he
  rcases List.mem_map.mp he with ⟨g, _, rfl⟩
  exact sortStrings_sorted g.2

/-- A program produced by `NewProgram` carries `buildTargets` of its labels. -/
theorem np_targets (src : String) (p : Program) (h : NewProgram src = .ok p) :
    p.Targets = buildTargets p.Labels := by
  unfold NewProgram at h
  dsimp only at h
  cases hf : (splitNl src.data []).foldlM (fun st line => npLine line st)
      { p := {}, code := [], wrap := 65535, wrapTarget := 65535 } with
  | error e => rw [hf] at h; cases h
  | ok st =>
    rw [hf] at h
    cases h
    rfl

/-- A program produced by `Cat` carries `buildTargets` of its labels. -/
theorem cat_targets (name : String) (ps : List Program) (m : Program)
    (h : Cat name ps = .ok m) : m.Targets = buildTargets m.Labels := by
  rw [Cat_eq] at h
  dsimp only at h
  by_cases hlen : (((List.enum ps).foldl catStep
      ({ Attr := { Name := name }, Labels := [] }, 0)).1.Code.length > 32)
  · rw [if_pos hlen] at h; cases h
  · rw [if_neg hlen] at h; cases h; rfl

theorem testBit_false_of_lt {w i : Nat} (h : w < 2 ^ i) : w.testBit i = false := by
  simp [Nat.testBit_eq_false_of_lt h]

/-- A jump address (below 32) has no bits in the family mask. -/
theorem and_e000_of_lt (w : Nat) (h : w < 32) : 0xe000 &&& w = 0 := by
  apply Nat.eq_of_testBit_eq
  intro i
  simp only [Nat.testBit_and, Nat.zero_testBit]
  by_cases hi : i < 13
  · have hb : Nat.testBit 0xe000 i = false := by interval_cases i <;> decide
    simp [hb]
  · have hw : Nat.testBit w i = false := by
      apply testBit_false_of_lt
      calc w < 32 := h
        _ ≤ 2 ^ i := by
          calc (32 : Nat) = 2 ^ 5 := rfl
            _ ≤ 2 ^ i := Nat.pow_le_pow_right (by omega) (by omega)
    simp [hw]

theorem join_two (a b : String) : String.join [a, b] = a ++ b := by
  show (("" ++ a) ++ b) = a ++ b
  have : "" ++ a = a := by
    apply String.ext
    show ([] : List Char) ++ a.data = a.data
    simp
  rw [this]

/-- Rendering a plain `jmp` word whose address is aliased in the
context's `Targets` table uses the first (lexicographically least)
stored name. -/
theorem dis_jmp_label (p : Program) (ls : List String) (w : Nat) (hw : w < 32)
    (hS : p.Attr.SideSet = 0) (hT : p.Targets.lookup w = some ls) :
    Disassemble w (some p) = .ok ("jmp\t" ++ ls.headD "") := by
  have h0 : 0xe000 &&& w = 0 := and_e000_of_lt w hw
  have hw5 : w >>> 5 = 0 := by
    rw [Nat.shiftRight_eq_div_pow]
    exact Nat.div_eq_of_lt (lt_of_lt_of_le hw (by norm_num))
  have hw8 : w >>> 8 = 0 := by
    rw [Nat.shiftRight_eq_div_pow]
    exact Nat.div_eq_of_lt (lt_of_lt_of_le hw (by norm_num))
  have hw31 : w &&& 31 = w := by rw [and31_eq_mod]; exact Nat.mod_eq_of_lt hw
  have hmatch : matchInstr w instructions.enum =
      some (0, { token := "jmp", mask := 0xe000, bits := 0x0000,
                 flags := flagCondition ||| flagAddress }) := by
    simp only [instructions, List.enum, List.enumFrom, matchInstr]
    rw [if_pos h0]
  unfold Disassemble
  rw [hmatch]
  simp +decide [bind, Except.bind, pure, Except.pure, disBody,
    disStepCondition, disStepAddress, disStepPolSource, disStepISource, disStepIfF,
    disStepIfE, disStepBlk, disStepDestination, disStepMDestination, disStepBitCount,
    disStepOp, disStepMSource, disStepData, disStepFromXIdxlIndex,
    disStepClrWaitIdxModeIndex, disStepSideDelay,
    flagCondition, flagAddress, flagPolSource, flagWIndex, flagISource, flagBitCount,
    flagMDestination, flagDestination, flagIfF, flagBlk, flagFromXIdxlIndex, flagIfE,
    flagOp, flagMSource, flagClrWaitIdxModeIndex, flagData,
    hw5, hw8, hw31, hS, hT, join_two]

/-- C9: every program built by `NewProgram` or `Cat` stores each
offset's aliases in lexicographically sorted order in `Targets`; the
disassembler renders a `jmp` to an aliased address using the first
stored name, which sortedness makes the lexicographically least alias. -/
theorem C9_label_determinism :
    (∀ (src : String) (p : Program), NewProgram src = .ok p →
      ∀ e ∈ p.Targets, e.2.Sorted (· ≤ ·)) ∧
    (∀ (name : String) (ps : List Program) (m : Program), Cat name ps = .ok m →
      ∀ e ∈ m.Targets, e.2.Sorted (· ≤ ·)) ∧
    (∀ (p : Program) (ls : List String) (w : Nat), w < 32 → p.Attr.SideSet = 0 →
      p.Targets.lookup w = some ls →
      Disassemble w (some p) = .ok ("jmp\t" ++ ls.headD "")) ∧
    (∀ (ls : List String), ls.Sorted (· ≤ ·) → ∀ l ∈ ls, ls.headD "" ≤ l) := by
  refine ⟨?_, ?_, fun p ls w hw hS hT => dis_jmp_label p ls w hw hS hT, ?_⟩
  · intro src p h e he
    rw [np_targets src p h] at he
    exact buildTargets_sorted p.Labels e he
  · intro name ps m h e he
    rw [cat_targets name ps m h] at he
    exact buildTargets_sorted m.Labels e he
  · intro ls hs l hl
    cases ls with
    | nil => cases hl
    | cons x rest =>
      rcases List.mem_cons.mp hl with rfl | hmem
      · exact le_refl _
      · exact (List.sorted_cons.mp hs).1 l hmem

/-- Witness for C9: two aliases of offset 0 render via the first. -/
theorem C9_witness :
    Disassemble 0 (some { Targets := [(0, ["alpha", "beta"])] }) =
      .ok ("jmp\t" ++ (["alpha", "beta"]).headD "") :=
  C9_label_determinism.2.2.1 { Targets := [(0, ["alpha", "beta"])] } ["alpha", "beta"] 0
    (by omega) rfl rfl

theorem asmCaseSet_fst (tokens : List String) (labels : Option (List (String × Nat)))
    (instr : Nat) (p q : Option Program) :
    (asmCaseSet tokens labels p instr).1 = (asmCaseSet tokens labels q instr).1 := by
  unfold asmCaseSet
  split
  · rfl
  · split <;> rfl

theorem asmSideDelay_congr (tokens : List String) (p₁ p₂ : Program) (instr k : Nat)
    (hS : p₁.Attr.SideSet = p₂.Attr.SideSet) (hO : p₁.Attr.SideSetOpt = p₂.Attr.SideSetOpt) :
    asmSideDelay tokens (some p₁) instr k = asmSideDelay tokens (some p₂) instr k := by
  unfold asmSideDelay
  dsimp only
  rw [hS, hO]

theorem asmIter_fst_congr (i : Nat) (dec : Instruction) (tokens : List String)
    (p₁ p₂ : Program) (hL : p₁.Labels = p₂.Labels) (hS : p₁.Attr.SideSet = p₂.Attr.SideSet)
    (hO : p₁.Attr.SideSetOpt = p₂.Attr.SideSetOpt) :
    (asmIter i dec tokens (some p₁)).1 = (asmIter i dec tokens (some p₂)).1 := by
  have hsd : asmSideDelay tokens (some p₁) = asmSideDelay tokens (some p₂) :=
    funext fun instr => funext fun k => asmSideDelay_congr tokens p₁ p₂ instr k hS hO
  unfold asmIter
  dsimp only
  rw [hL, hsd]
  rcases hset₁ : asmCaseSet tokens (some p₂.Labels) (some p₁) dec.bits with ⟨r₁, f₁⟩
  rcases hset₂ : asmCaseSet tokens (some p₂.Labels) (some p₂) dec.bits with ⟨r₂, f₂⟩
  have hr : r₁ = r₂ := by
    have := asmCaseSet_fst tokens (some p₂.Labels) dec.bits (some p₁) (some p₂)
    rw [hset₁, hset₂] at this
    exact this
  subst hr
  by_cases h1 : tokens.headD "" ≠ dec.token
  · simp only [if_pos h1]
  · simp only [if_neg h1]
    by_cases h2 : dec.flags = 0 ∧ tokens.length = 1
    · simp only [if_pos h2]
    · simp only [if_neg h2]
      by_cases h3 : tokens.length = 1
      · simp only [if_pos h3]
      · simp only [if_neg h3]
        by_cases hi : i = idxSET
        · subst hi
          norm_num [idxJMP, idxWAIT, idxIN, idxOUT, idxNOP, idxPULL, idxPUSH, idxMOV1,
            idxMOV2, idxSET]
          rcases r₁ with e | ab
          · rfl
          · obtain ⟨a, b⟩ := ab
            simp only [Except.map]
            rcases hsd2 : asmSideDelay tokens (some p₂) a b with e2 | cd
            · simp [hsd2]
            · obtain ⟨c, d⟩ := cd
              simp only [hsd2]
              by_cases hk : d = 1 <;> simp [hk]
        · rw [if_neg hi, if_neg hi]

theorem asmLoop_fst_congr (l : List (Nat × Instruction)) : ∀ (tokens : List String)
    (p₁ p₂ : Program), p₁.Labels = p₂.Labels → p₁.Attr.SideSet = p₂.Attr.SideSet →
    p₁.Attr.SideSetOpt = p₂.Attr.SideSetOpt →
    (asmLoop tokens (some p₁) l).1 = (asmLoop tokens (some p₂) l).1 := by
  induction l with
  | nil => intros; rfl
  | cons e rest ih =>
    intro tokens p₁ p₂ hL hS hO
    obtain ⟨i, dec⟩ := e
    simp only [asmLoop]
    have h1 := asmIter_fst_congr i dec tokens p₁ p₂ hL hS hO
    rcases hit₁ : asmIter i dec tokens (some p₁) with ⟨r₁, f₁⟩
    rcases hit₂ : asmIter i dec tokens (some p₂) with ⟨r₂, f₂⟩
    rw [hit₁, hit₂] at h1
    dsimp only at h1
    subst h1
    dsimp only
    cases r₁ with
    | some out => rfl
    | none =>
      cases f₁ <;> cases f₂ <;> simp only [applySetPins, if_true, if_false] <;>
        exact ih tokens _ _ (by simp [hL]) (by simp [hS]) (by simp [hO])

theorem asmLoop_state (l : List (Nat × Instruction)) : ∀ (tokens : List String) (p : Program),
    ∃ q : Program, (asmLoop tokens (some p) l).2 = some q ∧ q.Labels = p.Labels ∧
      q.Attr.SideSet = p.Attr.SideSet ∧ q.Attr.SideSetOpt = p.Attr.SideSetOpt := by
  induction l with
  | nil => intro tokens p; exact ⟨p, rfl, rfl, rfl, rfl⟩
  | cons e rest ih =>
    intro tokens p
    obtain ⟨i, dec⟩ := e
    simp only [asmLoop]
    rcases hit : asmIter i dec tokens (some p) with ⟨r, f⟩
    dsimp only
    cases r with
    | some out =>
      cases f
      · exact ⟨p, rfl, rfl, rfl, rfl⟩
      · exact ⟨{ p with Attr := { p.Attr with Set := 1 } }, rfl, rfl, rfl, rfl⟩
    | none =>
      cases f
      · simpa using ih tokens p
      · simp only [applySetPins, if_true]
        obtain ⟨q, hq, h1, h2, h3⟩ := ih tokens { p with Attr := { p.Attr with Set := 1 } }
        exact ⟨q, hq, h1, h2, h3⟩

theorem AssembleFull_fst_congr (code : String) (p₁ p₂ : Program)
    (hL : p₁.Labels = p₂.Labels) (hS : p₁.Attr.SideSet = p₂.Attr.SideSet)
    (hO : p₁.Attr.SideSetOpt = p₂.Attr.SideSetOpt) :
    (AssembleFull code (some p₁)).1 = (AssembleFull code (some p₂)).1 := by
  unfold AssembleFull
  dsimp only
  split
  · rfl
  · exact asmLoop_fst_congr instructions.enum (tokenize code) p₁ p₂ hL hS hO

theorem AssembleFull_state (code : String) (p : Program) :
    ∃ q : Program, (AssembleFull code (some p)).2 = some q ∧ q.Labels = p.Labels ∧
      q.Attr.SideSet = p.Attr.SideSet ∧ q.Attr.SideSetOpt = p.Attr.SideSetOpt := by
  unfold AssembleFull
  dsimp only
  split
  · exact ⟨p, rfl, rfl, rfl, rfl⟩
  · exact asmLoop_state instructions.enum (tokenize code) p

theorem npLine_assemble_ok (line : String) (st : NPState)
    (h : (Assemble line (some st.p)).isOk) :
    ∃ st', npLine line st = .ok st' ∧ st'.code.length = st.code.length + 1 ∧
      st'.p.Labels = st.p.Labels ∧ st'.p.Attr.SideSet = st.p.Attr.SideSet ∧
      st'.p.Attr.SideSetOpt = st.p.Attr.SideSetOpt := by
  unfold npLine
  obtain ⟨q, hq, h1, h2, h3⟩ := AssembleFull_state line st.p
  unfold Assemble at h
  rcases haf : AssembleFull line (some st.p) with ⟨r, po⟩
  rw [haf] at h hq
  dsimp only at h hq
  cases r with
  | error e => simp [Except.isOk, Except.toBool] at h
  | ok instr =>
    subst hq
    refine ⟨_, rfl, ?_, ?_, ?_, ?_⟩ <;> simp [h1, h2, h3]

theorem np_lines_ok (lines : List String) : ∀ (st : NPState),
    st.p.Labels = [] → st.p.Attr.SideSet = 0 → st.p.Attr.SideSetOpt = false →
    (∀ line ∈ lines, (Assemble line (some ({} : Program))).isOk) →
    ∃ st', lines.foldlM (fun st line => npLine line st) st = .ok st' ∧
      st'.code.length = st.code.length + lines.length := by
  induction lines with
  | nil => intro st _ _ _ _; exact ⟨st, rfl, by simp⟩
  | cons line rest ih =>
    intro st hL hS hO hall
    have hline : (Assemble line (some st.p)).isOk := by
      have := AssembleFull_fst_congr line st.p {} (by simp [hL]) (by simp [hS]) (by simp [hO])
      unfold Assemble
      rw [this]
      exact hall line (List.mem_cons_self line rest)
    obtain ⟨st', hst', hlen, h1, h2, h3⟩ := npLine_assemble_ok line st hline
    obtain ⟨st'', hst'', hlen'⟩ := ih st' (h1.trans hL) (h2.trans hS) (h3.trans hO)
      (fun l hl => hall l (List.mem_cons_of_mem line hl))
    refine ⟨st'', ?_, ?_⟩
    · rw [List.foldlM_cons, hst']
      simpa using hst''
    · simp only [List.length_cons]
      omega


theorem C10_no_capacity :
    (∀ source : String,
      (∀ line ∈ splitNl source.data [], (Assemble line (some ({} : Program))).isOk) →
      ∃ p, NewProgram source = .ok p ∧ p.Code.length = (splitNl source.data []).length) ∧
    (NewProgram nops33).map (fun p => p.Code.length) = .ok 33 ∧
    (∀ p, NewProgram nops33 = .ok p → Cat "c" [p] = .error .programTooLarge) := by
  refine ⟨?_, by decide, ?_⟩
  · intro source hall
    obtain ⟨st', hst', hlen⟩ := np_lines_ok (splitNl source.data [])
      { p := {}, code := [], wrap := 65535, wrapTarget := 65535 } rfl rfl rfl hall
    refine ⟨{ st'.p with
        Attr := { st'.p.Attr with
          Wrap := if st'.wrap = 65535 then st'.code.length % 65536 else st'.wrap
          WrapTarget := if st'.wrapTarget = 65535 then 0 else st'.wrapTarget }
        Targets := buildTargets st'.p.Labels
        Code := st'.code }, ?_, ?_⟩
    · unfold NewProgram
      dsimp only
      rw [hst']
      rfl
    · simpa using hlen
  · intro p hp
    have h33 : (NewProgram nops33).map (fun p => p.Code.length) = .ok 33 := by decide
    rw [hp] at h33
    simp only [Except.map] at h33
    have hlen33 : p.Code.length = 33 := by
      exact (Except.ok.injEq _ _).mp h33.symm ▸ rfl
    rw [Cat_eq]
    dsimp only
    have hc := cat_fold_code "c" [p]
    have hl : ((List.enum [p]).foldl catStep
        ({ Attr := { Name := "c" }, Labels := [] }, 0)).1.Code.length = 33 := by
      rw [hc, catCodeSpec_length]
      simp [hlen33]
    rw [if_pos (by omega)]

/-- Witness for C10: a single assemblable line compiles to one word. -/
theorem C10_witness : (NewProgram "nop").map (fun p => p.Code.length) = .ok 1 := by
  obtain ⟨p, hp, hl⟩ := C10_no_capacity.1 "nop" (by decide)
  rw [hp]
  simp only [Except.map]
  rw [hl]
  decide


/-- A bit of a value below `2 ^ m` at or above position `m` is clear. -/
theorem tb_high (m : Nat) {x k : Nat} (h : x < 2 ^ m) (hk : m ≤ k) : x.testBit k = false :=
  Nat.testBit_lt_two_pow (lt_of_lt_of_le h (Nat.pow_le_pow_right (by omega) hk))

/-- Adding a value shifted past the width of another is their bitwise or. -/
theorem addOr (a b i : Nat) (h : a < 2 ^ i) : a + 2 ^ i * b = a ||| b <<< i := by
  apply Nat.eq_of_testBit_eq
  intro k
  rcases Nat.lt_or_ge k i with hk | hk
  · have h1 : (a + 2 ^ i * b) % 2 ^ i = a % 2 ^ i := Nat.add_mul_mod_self_left a (2 ^ i) b
    have h2 : (a + 2 ^ i * b).testBit k = ((a + 2 ^ i * b) % 2 ^ i).testBit k := by
      rw [Nat.testBit_mod_two_pow]
      simp [hk]
    have h3 : a.testBit k = (a % 2 ^ i).testBit k := by
      rw [Nat.testBit_mod_two_pow]
      simp [hk]
    have h4 : ¬ i ≤ k := by omega
    rw [h2, h1, ← h3]
    simp [Nat.testBit_or, Nat.testBit_shiftLeft, h4]
  · have h1 : (a + 2 ^ i * b) >>> i = b := by
      rw [Nat.shiftRight_eq_div_pow]
      rw [Nat.add_mul_div_left _ _ (Nat.pos_pow_of_pos i (by omega))]
      rw [Nat.div_eq_of_lt h]
      omega
    have h2 : (a + 2 ^ i * b).testBit k = ((a + 2 ^ i * b) >>> i).testBit (k - i) := by
      rw [Nat.testBit_shiftRight]
      congr 1
      omega
    rw [h2, h1]
    have h3 : a.testBit k = false := tb_high i h hk
    simp [Nat.testBit_or, Nat.testBit_shiftLeft, h3, hk]

/-- The 16-bit word `lo + 256*del + 8192*fam` in bitwise-or coordinates. -/
theorem orDecompW (lo del fam : Nat) (hlo : lo < 256) (hdel : del < 32) :
    lo + 256 * del + 8192 * fam = lo ||| del <<< 8 ||| fam <<< 13 := by
  have h1 : lo + 256 * del = lo ||| del <<< 8 := by
    have := addOr lo del 8 (by omega)
    simpa using this
  have h2 : (lo + 256 * del) + 8192 * fam = (lo + 256 * del) ||| fam <<< 13 := by
    have := addOr (lo + 256 * del) fam 13 (by omega)
    simpa using this
  rw [h2, h1]

/-- The suffix-free body word in bitwise-or coordinates. -/
theorem orDecompB (lo fam : Nat) (hlo : lo < 256) :
    lo + 8192 * fam = lo ||| fam <<< 13 := by
  have := addOr lo fam 13 (by omega)
  simpa using this

theorem cg_and31 (lo del fam : Nat) :
    (lo ||| del <<< 8 ||| fam <<< 13) &&& 31 = (lo ||| fam <<< 13) &&& 31 := by
  rw [show (31 : Nat) = 2 ^ 5 - 1 by norm_num]
  apply Nat.eq_of_testBit_eq
  intro k
  simp only [Nat.testBit_and, Nat.testBit_or, Nat.testBit_shiftLeft,
    Nat.testBit_two_pow_sub_one]
  by_cases hk : k < 5
  · have h1 : ¬ 8 ≤ k := by omega
    have h2 : ¬ 13 ≤ k := by omega
    simp [hk, h1, h2]
  · simp [hk]

theorem cg_and7 (lo del fam : Nat) :
    (lo ||| del <<< 8 ||| fam <<< 13) &&& 7 = (lo ||| fam <<< 13) &&& 7 := by
  rw [show (7 : Nat) = 2 ^ 3 - 1 by norm_num]
  apply Nat.eq_of_testBit_eq
  intro k
  simp only [Nat.testBit_and, Nat.testBit_or, Nat.testBit_shiftLeft,
    Nat.testBit_two_pow_sub_one]
  by_cases hk : k < 3
  · have h1 : ¬ 8 ≤ k := by omega
    have h2 : ¬ 13 ≤ k := by omega
    simp [hk, h1, h2]
  · simp [hk]

theorem cg_and3 (lo del fam : Nat) :
    (lo ||| del <<< 8 ||| fam <<< 13) &&& 3 = (lo ||| fam <<< 13) &&& 3 := by
  rw [show (3 : Nat) = 2 ^ 2 - 1 by norm_num]
  apply Nat.eq_of_testBit_eq
  intro k
  simp only [Nat.testBit_and, Nat.testBit_or, Nat.testBit_shiftLeft,
    Nat.testBit_two_pow_sub_one]
  by_cases hk : k < 2
  · have h1 : ¬ 8 ≤ k := by omega
    have h2 : ¬ 13 ≤ k := by omega
    simp [hk, h1, h2]
  · simp [hk]

theorem cg_and8 (lo del fam : Nat) :
    (lo ||| del <<< 8 ||| fam <<< 13) &&& 8 = (lo ||| fam <<< 13) &&& 8 := by
  rw [show (8 : Nat) = 2 ^ 3 by norm_num]
  apply Nat.eq_of_testBit_eq
  intro k
  simp only [Nat.testBit_and, Nat.testBit_or, Nat.testBit_shiftLeft, Nat.testBit_two_pow]
  by_cases hk : 3 = k
  · subst hk
    have h1 : ¬ 8 ≤ 3 := by omega
    have h2 : ¬ 13 ≤ 3 := by omega
    simp [h1, h2]
  · simp [hk]

theorem cg_and32 (lo del fam : Nat) :
    (lo ||| del <<< 8 ||| fam <<< 13) &&& 32 = (lo ||| fam <<< 13) &&& 32 := by
  rw [show (32 : Nat) = 2 ^ 5 by norm_num]
  apply Nat.eq_of_testBit_eq
  intro k
  simp only [Nat.testBit_and, Nat.testBit_or, Nat.testBit_shiftLeft, Nat.testBit_two_pow]
  by_cases hk : 5 = k
  · subst hk
    have h1 : ¬ 8 ≤ 5 := by omega
    have h2 : ¬ 13 ≤ 5 := by omega
    simp [h1, h2]
  · simp [hk]

theorem cg_and64 (lo del fam : Nat) :
    (lo ||| del <<< 8 ||| fam <<< 13) &&& 64 = (lo ||| fam <<< 13) &&& 64 := by
  rw [show (64 : Nat) = 2 ^ 6 by norm_num]
  apply Nat.eq_of_testBit_eq
  intro k
  simp only [Nat.testBit_and, Nat.testBit_or, Nat.testBit_shiftLeft, Nat.testBit_two_pow]
  by_cases hk : 6 = k
  · subst hk
    have h1 : ¬ 8 ≤ 6 := by omega
    have h2 : ¬ 13 ≤ 6 := by omega
    simp [h1, h2]
  · simp [hk]

theorem cg_and128 (lo del fam : Nat) :
    (lo ||| del <<< 8 ||| fam <<< 13) &&& 128 = (lo ||| fam <<< 13) &&& 128 := by
  rw [show (128 : Nat) = 2 ^ 7 by norm_num]
  apply Nat.eq_of_testBit_eq
  intro k
  simp only [Nat.testBit_and, Nat.testBit_or, Nat.testBit_shiftLeft, Nat.testBit_two_pow]
  by_cases hk : 7 = k
  · subst hk
    have h1 : ¬ 8 ≤ 7 := by omega
    have h2 : ¬ 13 ≤ 7 := by omega
    simp [h1, h2]
  · simp [hk]

theorem cg_shr5_left (lo del fam : Nat) :
    7 &&& ((lo ||| del <<< 8 ||| fam <<< 13) >>> 5) =
      7 &&& ((lo ||| fam <<< 13) >>> 5) := by
  rw [show (7 : Nat) = 2 ^ 3 - 1 by norm_num]
  apply Nat.eq_of_testBit_eq
  intro k
  simp only [Nat.testBit_and, Nat.testBit_or, Nat.testBit_shiftLeft, Nat.testBit_shiftRight,
    Nat.testBit_two_pow_sub_one]
  by_cases hk : k < 3
  · have h1 : ¬ 8 ≤ 5 + k := by omega
    have h2 : ¬ 13 ≤ 5 + k := by omega
    simp [hk, h1, h2]
  · simp [hk]

theorem cg_shr5_right (lo del fam : Nat) :
    ((lo ||| del <<< 8 ||| fam <<< 13) >>> 5) &&& 7 =
      ((lo ||| fam <<< 13) >>> 5) &&& 7 := by
  rw [show (7 : Nat) = 2 ^ 3 - 1 by norm_num]
  apply Nat.eq_of_testBit_eq
  intro k
  simp only [Nat.testBit_and, Nat.testBit_or, Nat.testBit_shiftLeft, Nat.testBit_shiftRight,
    Nat.testBit_two_pow_sub_one]
  by_cases hk : k < 3
  · have h1 : ¬ 8 ≤ 5 + k := by omega
    have h2 : ¬ 13 ≤ 5 + k := by omega
    simp [hk, h1, h2]
  · simp [hk]

theorem cg_shr3 (lo del fam : Nat) :
    ((lo ||| del <<< 8 ||| fam <<< 13) >>> 3) &&& 3 =
      ((lo ||| fam <<< 13) >>> 3) &&& 3 := by
  rw [show (3 : Nat) = 2 ^ 2 - 1 by norm_num]
  apply Nat.eq_of_testBit_eq
  intro k
  simp only [Nat.testBit_and, Nat.testBit_or, Nat.testBit_shiftLeft, Nat.testBit_shiftRight,
    Nat.testBit_two_pow_sub_one]
  by_cases hk : k < 2
  · have h1 : ¬ 8 ≤ 3 + k := by omega
    have h2 : ¬ 13 ≤ 3 + k := by omega
    simp [hk, h1, h2]
  · simp [hk]

theorem cg_e000 (lo del fam : Nat) (hdel : del < 32) :
    57344 &&& (lo ||| del <<< 8 ||| fam <<< 13) = 57344 &&& (lo ||| fam <<< 13) := by
  rw [show (57344 : Nat) = (2 ^ 3 - 1) <<< 13 by decide]
  apply Nat.eq_of_testBit_eq
  intro k
  have hd : ∀ j, 5 ≤ j → del.testBit j = false := fun j hj => tb_high 5 hdel hj
  simp only [Nat.testBit_and, Nat.testBit_or, Nat.testBit_shiftLeft,
    Nat.testBit_two_pow_sub_one]
  by_cases hk : 13 ≤ k
  · have h1 : 8 ≤ k := by omega
    have h2 : del.testBit (k - 8) = false := hd _ (by omega)
    simp [hk, h1, h2]
  · simp [hk]

theorem cg_e0ff (lo del fam : Nat) (hdel : del < 32) :
    57599 &&& (lo ||| del <<< 8 ||| fam <<< 13) = 57599 &&& (lo ||| fam <<< 13) := by
  rw [show (57599 : Nat) = (2 ^ 8 - 1) ||| (2 ^ 3 - 1) <<< 13 by decide]
  apply Nat.eq_of_testBit_eq
  intro k
  have hd : ∀ j, 5 ≤ j → del.testBit j = false := fun j hj => tb_high 5 hdel hj
  simp only [Nat.testBit_and, Nat.testBit_or, Nat.testBit_shiftLeft,
    Nat.testBit_two_pow_sub_one]
  by_cases hk : k < 8
  · have h1 : ¬ 8 ≤ k := by omega
    have h2 : ¬ 13 ≤ k := by omega
    simp [hk, h1, h2]
  · by_cases hk13 : 13 ≤ k
    · have h1 : 8 ≤ k := by omega
      have h2 : del.testBit (k - 8) = false := hd _ (by omega)
      simp [hk, hk13, h1, h2]
    · simp [hk, hk13]

theorem cg_e09f (lo del fam : Nat) (hdel : del < 32) :
    57503 &&& (lo ||| del <<< 8 ||| fam <<< 13) = 57503 &&& (lo ||| fam <<< 13) := by
  rw [show (57503 : Nat) = ((2 ^ 5 - 1) ||| 2 ^ 7) ||| (2 ^ 3 - 1) <<< 13 by decide]
  apply Nat.eq_of_testBit_eq
  intro k
  have hd : ∀ j, 5 ≤ j → del.testBit j = false := fun j hj => tb_high 5 hdel hj
  simp only [Nat.testBit_and, Nat.testBit_or, Nat.testBit_shiftLeft,
    Nat.testBit_two_pow_sub_one, Nat.testBit_two_pow]
  by_cases hk : k < 8
  · have h1 : ¬ 8 ≤ k := by omega
    have h2 : ¬ 13 ≤ k := by omega
    simp [hk, h1, h2]
  · by_cases hk13 : 13 ≤ k
    · have h1 : 8 ≤ k := by omega
      have h2 : del.testBit (k - 8) = false := hd _ (by omega)
      simp [hk13, h1, h2]
    · have h1 : ¬ k < 5 := by omega
      have h2 : ¬ 7 = k := by omega
      simp [hk13, h1, h2]

theorem cg_e074 (lo del fam : Nat) (hdel : del < 32) :
    57460 &&& (lo ||| del <<< 8 ||| fam <<< 13) = 57460 &&& (lo ||| fam <<< 13) := by
  rw [show (57460 : Nat) = (2 ^ 2 ||| (2 ^ 3 - 1) <<< 4) ||| (2 ^ 3 - 1) <<< 13 by decide]
  apply Nat.eq_of_testBit_eq
  intro k
  have hd : ∀ j, 5 ≤ j → del.testBit j = false := fun j hj => tb_high 5 hdel hj
  simp only [Nat.testBit_and, Nat.testBit_or, Nat.testBit_shiftLeft,
    Nat.testBit_two_pow_sub_one, Nat.testBit_two_pow]
  by_cases hk : k < 8
  · have h1 : ¬ 8 ≤ k := by omega
    have h2 : ¬ 13 ≤ k := by omega
    simp [hk, h1, h2]
  · by_cases hk13 : 13 ≤ k
    · have h1 : 8 ≤ k := by omega
      have h2 : del.testBit (k - 8) = false := hd _ (by omega)
      simp [hk13, h1, h2]
    · have h1 : ¬ 2 = k := by omega
      have h2 : ¬ k - 4 < 3 := by omega
      simp [hk13, h1, h2]

theorem cg_e080 (lo del fam : Nat) (hdel : del < 32) :
    57472 &&& (lo ||| del <<< 8 ||| fam <<< 13) = 57472 &&& (lo ||| fam <<< 13) := by
  rw [show (57472 : Nat) = 2 ^ 7 ||| (2 ^ 3 - 1) <<< 13 by decide]
  apply Nat.eq_of_testBit_eq
  intro k
  have hd : ∀ j, 5 ≤ j → del.testBit j = false := fun j hj => tb_high 5 hdel hj
  simp only [Nat.testBit_and, Nat.testBit_or, Nat.testBit_shiftLeft,
    Nat.testBit_two_pow_sub_one, Nat.testBit_two_pow]
  by_cases hk : k < 8
  · have h1 : ¬ 8 ≤ k := by omega
    have h2 : ¬ 13 ≤ k := by omega
    simp [hk, h1, h2]
  · by_cases hk13 : 13 ≤ k
    · have h1 : 8 ≤ k := by omega
      have h2 : del.testBit (k - 8) = false := hd _ (by omega)
      simp [hk13, h1, h2]
    · have h1 : ¬ 7 = k := by omega
      simp [hk13, h1]

/-- Masking off the `wait` bit, in coordinates. -/
theorem cg_ffdf (lo del fam : Nat) (hlo : lo < 256) (hdel : del < 32) (hfam : fam < 8) :
    (lo ||| del <<< 8 ||| fam <<< 13) &&& 65503 =
      (lo &&& 223) ||| del <<< 8 ||| fam <<< 13 := by
  rw [show (65503 : Nat) = ((2 ^ 5 - 1) ||| (2 ^ 2 - 1) <<< 6) ||| (2 ^ 8 - 1) <<< 8 by decide,
    show (223 : Nat) = (2 ^ 5 - 1) ||| (2 ^ 2 - 1) <<< 6 by decide]
  apply Nat.eq_of_testBit_eq
  intro k
  have hd : ∀ j, 5 ≤ j → del.testBit j = false := fun j hj => tb_high 5 hdel hj
  have hf : ∀ j, 3 ≤ j → fam.testBit j = false := fun j hj => tb_high 3 hfam hj
  simp only [Nat.testBit_and, Nat.testBit_or, Nat.testBit_shiftLeft,
    Nat.testBit_two_pow_sub_one]
  by_cases hk : k < 8
  · have h1 : ¬ 8 ≤ k := by omega
    have h2 : ¬ 13 ≤ k := by omega
    simp [hk, h1, h2]
  · by_cases hk16 : k < 16
    · have h1 : 8 ≤ k := by omega
      have h2 : k - 8 < 8 := by omega
      have h3 : lo.testBit k = false := tb_high 8 hlo (by omega)
      simp [h1, h2, h3]
    · have h1 : del.testBit (k - 8) = false := hd _ (by omega)
      have h2 : fam.testBit (k - 13) = false := hf _ (by omega)
      have h3 : ¬ k - 8 < 8 := by omega
      have h4 : ¬ k < 5 := by omega
      have h5 : ¬ k - 6 < 3 := by omega
      simp [h1, h2, h3, h4, h5]

/-- Toggling the `wait` bit, in coordinates. -/
theorem cg_xor32 (lo del fam : Nat) :
    (lo ||| del <<< 8 ||| fam <<< 13) ^^^ 32 =
      (lo ^^^ 32) ||| del <<< 8 ||| fam <<< 13 := by
  rw [show (32 : Nat) = 2 ^ 5 by norm_num]
  apply Nat.eq_of_testBit_eq
  intro k
  simp only [Nat.testBit_xor, Nat.testBit_or, Nat.testBit_shiftLeft, Nat.testBit_two_pow]
  by_cases hk : 5 = k
  · subst hk
    have h1 : ¬ 8 ≤ 5 := by omega
    have h2 : ¬ 13 ≤ 5 := by omega
    simp [h1, h2]
  · simp [hk]

theorem cg_delay31 (lo del fam : Nat) (hlo : lo < 256) (hdel : del < 32) :
    ((lo ||| del <<< 8 ||| fam <<< 13) >>> 8) &&& 31 = del := by
  rw [show (31 : Nat) = 2 ^ 5 - 1 by norm_num]
  apply Nat.eq_of_testBit_eq
  intro k
  have hd : ∀ j, 5 ≤ j → del.testBit j = false := fun j hj => tb_high 5 hdel hj
  simp only [Nat.testBit_and, Nat.testBit_or, Nat.testBit_shiftLeft, Nat.testBit_shiftRight,
    Nat.testBit_two_pow_sub_one]
  by_cases hk : k < 5
  · have h1 : 8 ≤ 8 + k := by omega
    have h2 : ¬ 13 ≤ 8 + k := by omega
    have h3 : 8 + k - 8 = k := by omega
    have h4 : lo.testBit (8 + k) = false := tb_high 8 hlo (by omega)
    simp [hk, h1, h2, h3, h4]
  · simp [hk, hd _ (by omega : 5 ≤ k)]

theorem cg_delay15 (lo del fam : Nat) (hlo : lo < 256) :
    ((lo ||| del <<< 8 ||| fam <<< 13) >>> 8) &&& 15 = del &&& 15 := by
  rw [show (15 : Nat) = 2 ^ 4 - 1 by norm_num]
  apply Nat.eq_of_testBit_eq
  intro k
  simp only [Nat.testBit_and, Nat.testBit_or, Nat.testBit_shiftLeft, Nat.testBit_shiftRight,
    Nat.testBit_two_pow_sub_one]
  by_cases hk : k < 4
  · have h1 : 8 ≤ 8 + k := by omega
    have h2 : ¬ 13 ≤ 8 + k := by omega
    have h3 : 8 + k - 8 = k := by omega
    have h4 : lo.testBit (8 + k) = false := tb_high 8 hlo (by omega)
    simp [hk, h1, h2, h3, h4]
  · simp [hk]

theorem cg_delay3 (lo del fam : Nat) (hlo : lo < 256) :
    ((lo ||| del <<< 8 ||| fam <<< 13) >>> 8) &&& 3 = del &&& 3 := by
  rw [show (3 : Nat) = 2 ^ 2 - 1 by norm_num]
  apply Nat.eq_of_testBit_eq
  intro k
  simp only [Nat.testBit_and, Nat.testBit_or, Nat.testBit_shiftLeft, Nat.testBit_shiftRight,
    Nat.testBit_two_pow_sub_one]
  by_cases hk : k < 2
  · have h1 : 8 ≤ 8 + k := by omega
    have h2 : ¬ 13 ≤ 8 + k := by omega
    have h3 : 8 + k - 8 = k := by omega
    have h4 : lo.testBit (8 + k) = false := tb_high 8 hlo (by omega)
    simp [hk, h1, h2, h3, h4]
  · simp [hk]

/-- The 1-bit mandatory side-set field, in coordinates. -/
theorem cg_side1 (lo del fam : Nat) (hlo : lo < 256) (hdel : del < 32) :
    ((lo ||| del <<< 8 ||| fam <<< 13) &&& 7936) >>> 12 = del >>> 4 := by
  rw [show (7936 : Nat) = (2 ^ 5 - 1) <<< 8 by decide]
  apply Nat.eq_of_testBit_eq
  intro k
  have hd : ∀ j, 5 ≤ j → del.testBit j = false := fun j hj => tb_high 5 hdel hj
  simp only [Nat.testBit_and, Nat.testBit_or, Nat.testBit_shiftLeft, Nat.testBit_shiftRight,
    Nat.testBit_two_pow_sub_one]
  by_cases hk : k = 0
  · subst hk
    have h1 : 8 ≤ 12 + 0 := by omega
    have h2 : ¬ 13 ≤ 12 + 0 := by omega
    have h3 : 12 + 0 - 8 = 4 := by omega
    have h4 : (12 + 0 - 8 : Nat) < 5 := by omega
    have h5 : lo.testBit (12 + 0) = false := tb_high 8 hlo (by omega)
    simp [h1, h2, h3, h4, h5]
  · have h1 : del.testBit (4 + k) = false := hd _ (by omega)
    have h2 : ¬ 12 + k - 8 < 5 := by omega
    simp [h1, h2]

/-- The 2-bit optional side-set field, in coordinates. -/
theorem cg_side2 (lo del fam : Nat) (hlo : lo < 256) :
    ((lo ||| del <<< 8 ||| fam <<< 13) &&& 3840) >>> 10 = (del >>> 2) &&& 3 := by
  rw [show (3840 : Nat) = (2 ^ 4 - 1) <<< 8 by decide,
    show (3 : Nat) = 2 ^ 2 - 1 by norm_num]
  apply Nat.eq_of_testBit_eq
  intro k
  simp only [Nat.testBit_and, Nat.testBit_or, Nat.testBit_shiftLeft, Nat.testBit_shiftRight,
    Nat.testBit_two_pow_sub_one]
  by_cases hk : k < 2
  · have h1 : 8 ≤ 10 + k := by omega
    have h2 : ¬ 13 ≤ 10 + k := by omega
    have h3 : 10 + k - 8 = 2 + k := by omega
    have h4 : (2 + k : Nat) < 4 := by omega
    have h5 : lo.testBit (10 + k) = false := tb_high 8 hlo (by omega)
    simp [hk, h1, h2, h3, h4, h5]
  · have h1 : ¬ 10 + k - 8 < 4 := by omega
    simp [hk, h1]

/-- The optional-side-set presence bit, in coordinates. -/
theorem cg_bit12 (lo del fam : Nat) (hlo : lo < 256) (hdel : del < 32) :
    (lo ||| del <<< 8 ||| fam <<< 13) &&& 4096 = (del >>> 4) <<< 12 := by
  rw [show (4096 : Nat) = 2 ^ 12 by norm_num]
  apply Nat.eq_of_testBit_eq
  intro k
  have hd : ∀ j, 5 ≤ j → del.testBit j = false := fun j hj => tb_high 5 hdel hj
  simp only [Nat.testBit_and, Nat.testBit_or, Nat.testBit_shiftLeft, Nat.testBit_shiftRight,
    Nat.testBit_two_pow]
  by_cases hk : 12 = k
  · subst hk
    have h1 : 8 ≤ 12 := by omega
    have h2 : ¬ 13 ≤ 12 := by omega
    have h3 : (12 : Nat) - 8 = 4 := by omega
    have h4 : lo.testBit 12 = false := tb_high 8 hlo (by omega)
    have h5 : (12 : Nat) ≤ 12 := by omega
    have h6 : (12 : Nat) - 12 = 0 := by omega
    simp [h1, h2, h3, h4, h5, h6]
  · by_cases hk12 : 12 ≤ k
    · have h1 : del.testBit (4 + (k - 12)) = false := hd _ (by omega)
      simp [hk, hk12, h1]
    · simp [hk, hk12]

/-- Recombining a 1-bit side value and its 4 delay bits. -/
theorem dor1 (del : Nat) (hdel : del < 32) :
    (del >>> 4) <<< 12 ||| (del &&& 15) <<< 8 = del <<< 8 := by
  rw [show (15 : Nat) = 2 ^ 4 - 1 by norm_num]
  have hd : ∀ j, 5 ≤ j → del.testBit j = false := fun j hj => tb_high 5 hdel hj
  apply Nat.eq_of_testBit_eq
  intro k
  simp only [Nat.testBit_and, Nat.testBit_or, Nat.testBit_shiftLeft, Nat.testBit_shiftRight,
    Nat.testBit_two_pow_sub_one]
  by_cases hk : k < 8
  · have h1 : ¬ 8 ≤ k := by omega
    have h2 : ¬ 12 ≤ k := by omega
    simp [h1, h2]
  · by_cases hk12 : 12 ≤ k
    · by_cases hkeq : k = 12
      · subst hkeq
        have h1 : (12 : Nat) - 8 = 4 := by omega
        have h2 : ¬ (4 : Nat) < 4 := by omega
        have h4 : (12 : Nat) - 12 = 0 := by omega
        have h5 : 8 ≤ 12 := by omega
        have h6 : (12 : Nat) ≤ 12 := by omega
        simp [h1, h2, h4, h5, h6]
      · have h1 : ¬ k - 8 < 4 := by omega
        have h3 : 4 + (k - 12) = k - 8 := by omega
        have h4 : 8 ≤ k := by omega
        have h5 : del.testBit (k - 8) = false := hd _ (by omega)
        simp [hk12, h1, h3, h4, h5]
    · have h1 : 8 ≤ k := by omega
      have h2 : k - 8 < 4 := by omega
      simp [hk12, h1, h2]

/-- Recombining the presence bit, a 2-bit side value and 2 delay bits. -/
theorem dor2 (del : Nat) (hdel : del < 32) (hbit : del >>> 4 = 1) :
    4096 ||| ((del >>> 2) &&& 3) <<< 10 ||| (del &&& 3) <<< 8 = del <<< 8 := by
  rw [show (4096 : Nat) = 2 ^ 12 by norm_num, show (3 : Nat) = 2 ^ 2 - 1 by norm_num]
  apply Nat.eq_of_testBit_eq
  intro k
  have hd : ∀ j, 5 ≤ j → del.testBit j = false := fun j hj => tb_high 5 hdel hj
  have hb4 : del.testBit 4 = true := by
    rw [Nat.testBit_to_div_mod]
    rw [Nat.shiftRight_eq_div_pow] at hbit
    norm_num at hbit ⊢
    omega
  simp only [Nat.testBit_and, Nat.testBit_or, Nat.testBit_shiftLeft, Nat.testBit_shiftRight,
    Nat.testBit_two_pow, Nat.testBit_two_pow_sub_one]
  by_cases hk : k < 8
  · have h1 : ¬ 8 ≤ k := by omega
    have h2 : ¬ 10 ≤ k := by omega
    have h3 : ¬ 12 = k := by omega
    simp [h1, h2, h3]
  · by_cases hk10 : k < 10
    · have h1 : 8 ≤ k := by omega
      have h2 : ¬ 10 ≤ k := by omega
      have h3 : ¬ 12 = k := by omega
      have h4 : k - 8 < 2 := by omega
      simp [h1, h2, h3, h4]
    · by_cases hk12 : k < 12
      · have h1 : 8 ≤ k := by omega
        have h2 : 10 ≤ k := by omega
        have h3 : ¬ 12 = k := by omega
        have h4 : ¬ k - 8 < 2 := by omega
        have h5 : k - 10 < 2 := by omega
        have h6 : 2 + (k - 10) = k - 8 := by omega
        simp [h1, h2, h3, h4, h5, h6]
      · by_cases hkeq : 12 = k
        · subst hkeq
          have h1 : (12 : Nat) - 8 = 4 := by omega
          have h2 : ¬ (4 : Nat) < 2 := by omega
          have h3 : 8 ≤ 12 := by omega
          have h4 : 10 ≤ 12 := by omega
          have h5 : (12 : Nat) - 10 = 2 := by omega
          have h6 : ¬ (2 : Nat) < 2 := by omega
          simp [h1, h2, h3, h4, h5, h6, hb4]
        · have h1 : del.testBit (k - 8) = false := hd _ (by omega)
          have h2 : del.testBit (2 + (k - 10)) = false := hd _ (by omega)
          have h3 : ¬ k - 8 < 2 := by omega
          have h4 : ¬ k - 10 < 2 := by omega
          have h5 : 10 ≤ k := by omega
          have h6 : 8 ≤ k := by omega
          simp [hkeq, h1, h2, h3, h4, h5, h6]

/-- Or-ing the delay byte onto the body, in coordinates. -/
theorem orW (lo del fam : Nat) :
    (lo ||| fam <<< 13) ||| del <<< 8 = lo ||| del <<< 8 ||| fam <<< 13 := by
  rw [Nat.or_assoc, Nat.or_assoc, Nat.or_comm (fam <<< 13)]

theorem xor32_lt (lo : Nat) (h : lo < 256) : lo ^^^ 32 < 256 := by
  have h1 : lo ^^^ 32 < 2 ^ 8 := Nat.xor_lt_two_pow (by omega) (by omega)
  omega

theorem and_mask_idem (x m : Nat) : (x &&& m) &&& m = x &&& m := by
  rw [Nat.and_assoc, Nat.and_self]

theorem ExcRel.bindRel {e f a b : Type} {x : Except e a} {y : Except f a}
    {g : a → Except e b} {h : a → Except f b} (hxy : ExcRel x y)
    (hgh : ∀ v, ExcRel (g v) (h v)) : ExcRel (x >>= g) (y >>= h) := by
  cases x with
  | error ex =>
    cases y with
    | error ey => exact trivial
    | ok vy => exact absurd hxy (by simp [ExcRel])
  | ok vx =>
    cases y with
    | error ey => exact absurd hxy (by simp [ExcRel])
    | ok vy =>
      have : vx = vy := hxy
      subst this
      exact hgh vx

theorem ExcRel.ok_of_ok {e f a : Type} {x : Except e a} {y : Except f a} {v : a}
    (hxy : ExcRel x y) (hy : y = .ok v) : x = .ok v := by
  subst hy
  cases x with
  | error ex => exact absurd hxy (by simp [ExcRel])
  | ok vx => exact congrArg Except.ok hxy

theorem ExcRel.error_of_error {e f a : Type} {x : Except e a} {y : Except f a} {w : f}
    (hxy : ExcRel x y) (hy : y = .error w) : ∃ u, x = .error u := by
  subst hy
  cases x with
  | error ex => exact ⟨ex, rfl⟩
  | ok vx => exact absurd hxy (by simp [ExcRel])

theorem disStepCondition_cg (dec : Instruction) (lo del fam : Nat) (d : List String) :
    disStepCondition dec (lo ||| del <<< 8 ||| fam <<< 13) d =
      disStepCondition dec (lo ||| fam <<< 13) d := by
  simp only [disStepCondition, cg_shr5_left]

theorem disStepAddress_cg (dec : Instruction) (lo del fam : Nat) (p : Option Program)
    (d : List String) (hp : p = none ∨ ∃ prog, p = some prog ∧ prog.Targets = []) :
    disStepAddress dec (lo ||| del <<< 8 ||| fam <<< 13) p d =
      disStepAddress dec (lo ||| fam <<< 13) none d := by
  rcases hp with rfl | ⟨prog, rfl, ht⟩
  · simp only [disStepAddress, cg_and31]
  · simp only [disStepAddress, ht, List.lookup, cg_and31]

theorem disStepPolSource_cg (dec : Instruction) (lo del fam : Nat) (d : List String) :
    ExcRel (disStepPolSource dec (lo ||| del <<< 8 ||| fam <<< 13) d)
      (disStepPolSource dec (lo ||| fam <<< 13) d) := by
  simp only [disStepPolSource, cg_shr5_right, cg_and31]
  split_ifs <;> first | rfl | trivial

theorem disStepISource_cg (dec : Instruction) (lo del fam : Nat) (d : List String) :
    ExcRel (disStepISource dec (lo ||| del <<< 8 ||| fam <<< 13) d)
      (disStepISource dec (lo ||| fam <<< 13) d) := by
  simp only [disStepISource, cg_shr5_right]
  split_ifs <;> first | rfl | trivial

theorem disStepIfF_cg (dec : Instruction) (lo del fam : Nat) (d : List String) :
    disStepIfF dec (lo ||| del <<< 8 ||| fam <<< 13) d =
      disStepIfF dec (lo ||| fam <<< 13) d := by
  simp only [disStepIfF, cg_and64]

theorem disStepIfE_cg (dec : Instruction) (lo del fam : Nat) (d : List String) :
    disStepIfE dec (lo ||| del <<< 8 ||| fam <<< 13) d =
      disStepIfE dec (lo ||| fam <<< 13) d := by
  simp only [disStepIfE, cg_and64]

theorem disStepBlk_cg (dec : Instruction) (lo del fam : Nat) (d : List String) :
    disStepBlk dec (lo ||| del <<< 8 ||| fam <<< 13) d =
      disStepBlk dec (lo ||| fam <<< 13) d := by
  simp only [disStepBlk, cg_and32]

theorem disStepDestination_cg (cmd : Nat) (dec : Instruction) (lo del fam : Nat)
    (d : List String) :
    ExcRel (disStepDestination cmd dec (lo ||| del <<< 8 ||| fam <<< 13) d)
      (disStepDestination cmd dec (lo ||| fam <<< 13) d) := by
  simp only [disStepDestination, cg_shr5_right]
  split_ifs <;> first | rfl | trivial

theorem disStepMDestination_cg (dec : Instruction) (lo del fam : Nat) (d : List String) :
    disStepMDestination dec (lo ||| del <<< 8 ||| fam <<< 13) d =
      disStepMDestination dec (lo ||| fam <<< 13) d := by
  simp only [disStepMDestination, cg_shr5_right]

theorem disStepBitCount_cg (dec : Instruction) (lo del fam : Nat) (d : List String) :
    disStepBitCount dec (lo ||| del <<< 8 ||| fam <<< 13) d =
      disStepBitCount dec (lo ||| fam <<< 13) d := by
  simp only [disStepBitCount, cg_and31]

theorem disStepOp_cg (dec : Instruction) (lo del fam : Nat) (d : List String) :
    ExcRel (disStepOp dec (lo ||| del <<< 8 ||| fam <<< 13) d)
      (disStepOp dec (lo ||| fam <<< 13) d) := by
  simp only [disStepOp, cg_shr3]
  split_ifs <;> first | rfl | trivial

theorem disStepMSource_cg (dec : Instruction) (lo del fam : Nat) (d : List String) :
    ExcRel (disStepMSource dec (lo ||| del <<< 8 ||| fam <<< 13) d)
      (disStepMSource dec (lo ||| fam <<< 13) d) := by
  simp only [disStepMSource, cg_and7]
  split_ifs <;> first | rfl | trivial

theorem disStepData_cg (dec : Instruction) (lo del fam : Nat) (d : List String) :
    disStepData dec (lo ||| del <<< 8 ||| fam <<< 13) d =
      disStepData dec (lo ||| fam <<< 13) d := by
  simp only [disStepData, cg_and31]

theorem disStepFromXIdxlIndex_cg (dec : Instruction) (lo del fam : Nat) (d : List String) :
    ExcRel (disStepFromXIdxlIndex dec (lo ||| del <<< 8 ||| fam <<< 13) d)
      (disStepFromXIdxlIndex dec (lo ||| fam <<< 13) d) := by
  simp only [disStepFromXIdxlIndex, cg_and128, cg_and8, cg_and7, cg_and3]
  split_ifs <;> first | rfl | trivial

theorem disStepClrWaitIdxModeIndex_cg (dec : Instruction) (lo del fam : Nat)
    (d : List String) :
    disStepClrWaitIdxModeIndex dec (lo ||| del <<< 8 ||| fam <<< 13) d =
      disStepClrWaitIdxModeIndex dec (lo ||| fam <<< 13) d := by
  simp only [disStepClrWaitIdxModeIndex, cg_and64, cg_and32, cg_shr3, cg_and7]

theorem disBody_cg (cmd : Nat) (dec : Instruction) (lo del fam : Nat) (p : Option Program)
    (hp : p = none ∨ ∃ prog, p = some prog ∧ prog.Targets = []) :
    ExcRel (disBody cmd dec (lo ||| del <<< 8 ||| fam <<< 13) p)
      (disBody cmd dec (lo ||| fam <<< 13) none) := by
  simp only [disBody]
  rw [disStepCondition_cg, disStepAddress_cg dec lo del fam p _ hp]
  simp only [disStepIfF_cg, disStepIfE_cg, disStepBlk_cg, disStepMDestination_cg,
    disStepBitCount_cg, disStepData_cg, disStepClrWaitIdxModeIndex_cg]
  refine ExcRel.bindRel (disStepPolSource_cg dec lo del fam _) fun d1 => ?_
  refine ExcRel.bindRel (disStepISource_cg dec lo del fam _) fun d2 => ?_
  refine ExcRel.bindRel (disStepDestination_cg cmd dec lo del fam _) fun d3 => ?_
  refine ExcRel.bindRel (disStepOp_cg dec lo del fam _) fun d4 => ?_
  refine ExcRel.bindRel (disStepMSource_cg dec lo del fam _) fun d5 => ?_
  refine ExcRel.bindRel (disStepFromXIdxlIndex_cg dec lo del fam _) fun d6 => ?_
  rfl

theorem matchInstr_cg (lo del fam : Nat) (hdel : del < 32) :
    matchInstr (lo ||| del <<< 8 ||| fam <<< 13) instructions.enum =
      matchInstr (lo ||| fam <<< 13) instructions.enum := by
  simp only [instructions, List.enum, List.enumFrom, matchInstr,
    cg_e000 lo del fam hdel, cg_e0ff lo del fam hdel, cg_e09f lo del fam hdel,
    cg_e074 lo del fam hdel, cg_e080 lo del fam hdel]


theorem cg_delay31B (lo fam : Nat) (hlo : lo < 256) :
    ((lo ||| fam <<< 13) >>> 8) &&& 31 = 0 := by
  rw [show (31 : Nat) = 2 ^ 5 - 1 by norm_num]
  apply Nat.eq_of_testBit_eq
  intro k
  simp only [Nat.testBit_and, Nat.testBit_or, Nat.testBit_shiftLeft, Nat.testBit_shiftRight,
    Nat.testBit_two_pow_sub_one, Nat.zero_testBit]
  by_cases hk : k < 5
  · have h1 : lo.testBit (8 + k) = false := tb_high 8 hlo (by omega)
    have h2 : ¬ 13 ≤ 8 + k := by omega
    simp [hk, h1, h2]
  · simp [hk]

theorem str_empty_append (a : String) : "" ++ a = a := by
  apply String.ext
  show ([] : List Char) ++ a.data = a.data
  simp

theorem str_append_empty (a : String) : a ++ "" = a := by
  apply String.ext
  show a.data ++ ([] : List Char) = a.data
  simp

theorem join_foldl (l : List String) : ∀ s : String,
    l.foldl (fun r t => r ++ t) s = s ++ String.join l := by
  induction l with
  | nil => intro s; exact (str_append_empty s).symm
  | cons x xs ih =>
    intro s
    show xs.foldl (fun r t => r ++ t) (s ++ x) = s ++ String.join (x :: xs)
    rw [ih (s ++ x)]
    show s ++ x ++ String.join xs = s ++ xs.foldl (fun r t => r ++ t) ("" ++ x)
    rw [ih ("" ++ x), str_empty_append, String.append_assoc]

theorem join_append (a b : List String) :
    String.join (a ++ b) = String.join a ++ String.join b := by
  show (a ++ b).foldl (fun r t => r ++ t) "" = _
  rw [List.foldl_append, join_foldl b (a.foldl (fun r t => r ++ t) ""), join_foldl a ""]
  rw [str_empty_append]

theorem dsd_none (lo del fam : Nat) (hlo : lo < 256) (hdel : del < 32) (d : List String) :
    disStepSideDelay (lo ||| del <<< 8 ||| fam <<< 13) none d = .ok (d ++ sfxN del) := by
  have h1 := cg_delay31 lo del fam hlo hdel
  simp only [disStepSideDelay, h1, sfxN]
  by_cases h0 : del = 0
  · simp [h0]
  · simp [h0]

theorem dsd_noneB (lo fam : Nat) (hlo : lo < 256) (d : List String) :
    disStepSideDelay (lo ||| fam <<< 13) none d = .ok d := by
  have h1 := cg_delay31B lo fam hlo
  simp only [disStepSideDelay, h1]
  simp

theorem dsd_s1 (lo del fam : Nat) (hlo : lo < 256) (hdel : del < 32) (d : List String) :
    disStepSideDelay (lo ||| del <<< 8 ||| fam <<< 13) (some cfgSide1) d =
      .ok (d ++ sfx1 del) := by
  have h1 := cg_side1 lo del fam hlo hdel
  have h2 := cg_delay15 lo del fam hlo
  have h3 : subU16 13 1 = 12 := by decide
  have h4 : (31 : Nat) >>> 1 = 15 := by decide
  simp only [disStepSideDelay, cfgSide1, h3, h4, h1, sfx1]
  norm_num
  rw [h2]
  by_cases h0 : del &&& 15 = 0
  · simp [h0]
  · simp [h0]

theorem dsd_s1B (lo fam : Nat) (hlo : lo < 256) (d : List String) :
    disStepSideDelay (lo ||| fam <<< 13) (some cfgSide1) d =
      .ok (d ++ sfx1 0) := by
  have h := dsd_s1 lo 0 fam hlo (by omega) d
  simpa using h

theorem dsd_s2_ok (lo del fam : Nat) (hlo : lo < 256) (hdel : del < 32) (d : List String)
    (hc : del >>> 4 = 1 ∨ (del >>> 2) &&& 3 = 0) :
    disStepSideDelay (lo ||| del <<< 8 ||| fam <<< 13) (some cfgSide2opt) d =
      .ok (d ++ sfx2 del) := by
  have h1 := cg_side2 lo del fam hlo
  have h2 := cg_delay3 lo del fam hlo
  have h3 : subU16 12 2 = 10 := by decide
  have h4 : ((31 : Nat) >>> 1) >>> 2 = 3 := by decide
  have hb := cg_bit12 lo del fam hlo hdel
  have hd4 : del >>> 4 = 0 ∨ del >>> 4 = 1 := by omega
  simp only [disStepSideDelay, cfgSide2opt, h3, h4, h1, hb, sfx2]
  norm_num
  rcases hd4 with h5 | h5
  · rcases hc with h6 | h6
    · rw [h5] at h6; exact absurd h6 (by omega)
    · rw [h5, h6]
      norm_num
      rw [h2]
      by_cases h0 : del &&& 3 = 0
      · simp [h0]
      · simp [h0]
  · rw [h5]
    have h7 : ¬ ((1 : Nat) <<< 12 = 0) := by decide
    rw [if_neg h7]
    norm_num
    rw [h2]
    by_cases h0 : del &&& 3 = 0
    · simp [h0]
    · simp [h0]

theorem dsd_s2_err (lo del fam : Nat) (hlo : lo < 256) (hdel : del < 32) (d : List String)
    (h5 : del >>> 4 = 0) (h6 : (del >>> 2) &&& 3 ≠ 0) :
    ∃ u, disStepSideDelay (lo ||| del <<< 8 ||| fam <<< 13) (some cfgSide2opt) d =
      .error u := by
  have h1 := cg_side2 lo del fam hlo
  have h3 : subU16 12 2 = 10 := by decide
  have hb := cg_bit12 lo del fam hlo hdel
  simp only [disStepSideDelay, cfgSide2opt, h3, h1, hb, h5]
  norm_num
  simp [h6]

theorem dsd_s2B (lo fam : Nat) (hlo : lo < 256) (d : List String) :
    disStepSideDelay (lo ||| fam <<< 13) (some cfgSide2opt) d = .ok d := by
  have h := dsd_s2_ok lo 0 fam hlo (by omega) d (Or.inr (by decide))
  simpa [sfx2] using h


theorem dis_glue_none_ok (lo del fam : Nat) (hlo : lo < 256) (hdel : del < 32) (t0 : String)
    (h : Disassemble (lo ||| fam <<< 13) none = .ok t0) :
    Disassemble (lo ||| del <<< 8 ||| fam <<< 13) none =
      .ok (t0 ++ String.join (sfxN del)) := by
  unfold Disassemble at h ⊢
  rw [matchInstr_cg lo del fam hdel]
  cases hm : matchInstr (lo ||| fam <<< 13) instructions.enum with
  | none =>
    rw [hm] at h
    exact absurd h (by simp)
  | some cd =>
    obtain ⟨cmd, dec⟩ := cd
    simp only [hm] at h ⊢
    have hrel := disBody_cg cmd dec lo del fam none (Or.inl rfl)
    cases hb : disBody cmd dec (lo ||| fam <<< 13) none with
    | error e =>
      rw [hb] at h
      exact absurd h (by simp [bind, Except.bind])
    | ok D =>
      have hW := hrel.ok_of_ok hb
      rw [hb] at h
      simp only [bind, Except.bind] at h
      rw [dsd_noneB lo fam hlo D] at h
      simp only [bind, Except.bind, pure, Except.pure, Except.ok.injEq] at h
      rw [hW]
      simp only [bind, Except.bind]
      rw [dsd_none lo del fam hlo hdel D]
      simp only [bind, Except.bind, pure, Except.pure, Except.ok.injEq]
      rw [join_append, h]

theorem dis_glue_none_err (lo del fam : Nat) (hlo : lo < 256) (hdel : del < 32) (e : String)
    (h : Disassemble (lo ||| fam <<< 13) none = .error e) :
    ∃ u, Disassemble (lo ||| del <<< 8 ||| fam <<< 13) none = .error u := by
  unfold Disassemble at h ⊢
  rw [matchInstr_cg lo del fam hdel]
  cases hm : matchInstr (lo ||| fam <<< 13) instructions.enum with
  | none =>
    exact ⟨"unknown <" ++ hex4 (lo ||| del <<< 8 ||| fam <<< 13) ++ ">", by simp only [hm]⟩
  | some cd =>
    obtain ⟨cmd, dec⟩ := cd
    simp only [hm] at h ⊢
    have hrel := disBody_cg cmd dec lo del fam none (Or.inl rfl)
    cases hb : disBody cmd dec (lo ||| fam <<< 13) none with
    | error eb =>
      obtain ⟨u, hu⟩ := hrel.error_of_error hb
      exact ⟨u, by rw [hu]; simp [bind, Except.bind]⟩
    | ok D =>
      rw [hb] at h
      simp only [bind, Except.bind] at h
      rw [dsd_noneB lo fam hlo D] at h
      simp [bind, Except.bind, pure, Except.pure] at h

theorem dis_glue_s1_ok (lo del fam : Nat) (hlo : lo < 256) (hdel : del < 32) (t0 : String)
    (h : Disassemble (lo ||| fam <<< 13) none = .ok t0) :
    Disassemble (lo ||| del <<< 8 ||| fam <<< 13) (some cfgSide1) =
      .ok (t0 ++ String.join (sfx1 del)) := by
  unfold Disassemble at h ⊢
  rw [matchInstr_cg lo del fam hdel]
  cases hm : matchInstr (lo ||| fam <<< 13) instructions.enum with
  | none =>
    rw [hm] at h
    exact absurd h (by simp)
  | some cd =>
    obtain ⟨cmd, dec⟩ := cd
    simp only [hm] at h ⊢
    have hrel := disBody_cg cmd dec lo del fam (some cfgSide1) (Or.inr ⟨cfgSide1, rfl, rfl⟩)
    cases hb : disBody cmd dec (lo ||| fam <<< 13) none with
    | error e =>
      rw [hb] at h
      exact absurd h (by simp [bind, Except.bind])
    | ok D =>
      have hW := hrel.ok_of_ok hb
      rw [hb] at h
      simp only [bind, Except.bind] at h
      rw [dsd_noneB lo fam hlo D] at h
      simp only [bind, Except.bind, pure, Except.pure, Except.ok.injEq] at h
      rw [hW]
      simp only [bind, Except.bind]
      rw [dsd_s1 lo del fam hlo hdel D]
      simp only [bind, Except.bind, pure, Except.pure, Except.ok.injEq]
      rw [join_append, h]

theorem dis_glue_s1_err (lo del fam : Nat) (hlo : lo < 256) (hdel : del < 32) (e : String)
    (h : Disassemble (lo ||| fam <<< 13) none = .error e) :
    ∃ u, Disassemble (lo ||| del <<< 8 ||| fam <<< 13) (some cfgSide1) = .error u := by
  unfold Disassemble at h ⊢
  rw [matchInstr_cg lo del fam hdel]
  cases hm : matchInstr (lo ||| fam <<< 13) instructions.enum with
  | none =>
    exact ⟨"unknown <" ++ hex4 (lo ||| del <<< 8 ||| fam <<< 13) ++ ">", by simp only [hm]⟩
  | some cd =>
    obtain ⟨cmd, dec⟩ := cd
    simp only [hm] at h ⊢
    have hrel := disBody_cg cmd dec lo del fam (some cfgSide1) (Or.inr ⟨cfgSide1, rfl, rfl⟩)
    cases hb : disBody cmd dec (lo ||| fam <<< 13) none with
    | error eb =>
      obtain ⟨u, hu⟩ := hrel.error_of_error hb
      exact ⟨u, by rw [hu]; simp [bind, Except.bind]⟩
    | ok D =>
      rw [hb] at h
      simp only [bind, Except.bind] at h
      rw [dsd_noneB lo fam hlo D] at h
      simp [bind, Except.bind, pure, Except.pure] at h

theorem dis_glue_s2_ok (lo del fam : Nat) (hlo : lo < 256) (hdel : del < 32) (t0 : String)
    (hc : del >>> 4 = 1 ∨ (del >>> 2) &&& 3 = 0)
    (h : Disassemble (lo ||| fam <<< 13) none = .ok t0) :
    Disassemble (lo ||| del <<< 8 ||| fam <<< 13) (some cfgSide2opt) =
      .ok (t0 ++ String.join (sfx2 del)) := by
  unfold Disassemble at h ⊢
  rw [matchInstr_cg lo del fam hdel]
  cases hm : matchInstr (lo ||| fam <<< 13) instructions.enum with
  | none =>
    rw [hm] at h
    exact absurd h (by simp)
  | some cd =>
    obtain ⟨cmd, dec⟩ := cd
    simp only [hm] at h ⊢
    have hrel := disBody_cg cmd dec lo del fam (some cfgSide2opt)
      (Or.inr ⟨cfgSide2opt, rfl, rfl⟩)
    cases hb : disBody cmd dec (lo ||| fam <<< 13) none with
    | error e =>
      rw [hb] at h
      exact absurd h (by simp [bind, Except.bind])
    | ok D =>
      have hW := hrel.ok_of_ok hb
      rw [hb] at h
      simp only [bind, Except.bind] at h
      rw [dsd_noneB lo fam hlo D] at h
      simp only [bind, Except.bind, pure, Except.pure, Except.ok.injEq] at h
      rw [hW]
      simp only [bind, Except.bind]
      rw [dsd_s2_ok lo del fam hlo hdel D hc]
      simp only [bind, Except.bind, pure, Except.pure, Except.ok.injEq]
      rw [join_append, h]

theorem dis_glue_s2_err (lo del fam : Nat) (hlo : lo < 256) (hdel : del < 32) (e : String)
    (h : Disassemble (lo ||| fam <<< 13) none = .error e) :
    ∃ u, Disassemble (lo ||| del <<< 8 ||| fam <<< 13) (some cfgSide2opt) = .error u := by
  unfold Disassemble at h ⊢
  rw [matchInstr_cg lo del fam hdel]
  cases hm : matchInstr (lo ||| fam <<< 13) instructions.enum with
  | none =>
    exact ⟨"unknown <" ++ hex4 (lo ||| del <<< 8 ||| fam <<< 13) ++ ">", by simp only [hm]⟩
  | some cd =>
    obtain ⟨cmd, dec⟩ := cd
    simp only [hm] at h ⊢
    have hrel := disBody_cg cmd dec lo del fam (some cfgSide2opt)
      (Or.inr ⟨cfgSide2opt, rfl, rfl⟩)
    cases hb : disBody cmd dec (lo ||| fam <<< 13) none with
    | error eb =>
      obtain ⟨u, hu⟩ := hrel.error_of_error hb
      exact ⟨u, by rw [hu]; simp [bind, Except.bind]⟩
    | ok D =>
      rw [hb] at h
      simp only [bind, Except.bind] at h
      rw [dsd_noneB lo fam hlo D] at h
      simp [bind, Except.bind, pure, Except.pure] at h

theorem dis_glue_s2_bad (lo del fam : Nat) (hlo : lo < 256) (hdel : del < 32)
    (h5 : del >>> 4 = 0) (h6 : (del >>> 2) &&& 3 ≠ 0) :
    ∃ u, Disassemble (lo ||| del <<< 8 ||| fam <<< 13) (some cfgSide2opt) = .error u := by
  unfold Disassemble
  cases hm : matchInstr (lo ||| del <<< 8 ||| fam <<< 13) instructions.enum with
  | none => exact ⟨_, rfl⟩
  | some cd =>
    obtain ⟨cmd, dec⟩ := cd
    cases hb : disBody cmd dec (lo ||| del <<< 8 ||| fam <<< 13) (some cfgSide2opt) with
    | error eb => exact ⟨eb, by dsimp only; rw [hb]; simp [bind, Except.bind]⟩
    | ok D =>
      obtain ⟨u, hu⟩ := dsd_s2_err lo del fam hlo hdel D h5 h6
      refine ⟨u, ?_⟩
      dsimp only
      rw [hb]
      simp only [bind, Except.bind]
      rw [hu]


theorem removeEmptyGo_cons_ne (x : String) (xs : List String) (hx : x ≠ "") :
    removeEmptyGo (x :: xs) = x :: removeEmptyGo xs := by
  rw [removeEmptyGo.eq_def]
  simp only
  rw [if_neg hx]

/-- The empty-token removal loop leaves a list with no empty strings
unchanged. -/
theorem removeEmptyGo_id (l : List String) (h : ∀ x ∈ l, x ≠ "") : removeEmptyGo l = l := by
  induction l with
  | nil => rfl
  | cons x xs ih =>
    rw [removeEmptyGo_cons_ne x xs (h x (List.mem_cons_self x xs))]
    rw [ih fun y hy => h y (List.mem_cons_of_mem x hy)]

theorem consumeSeps_append (a b : List Char) (h : ∃ z ∈ a, isSep z = false) :
    consumeSeps (a ++ b) = consumeSeps a ++ b := by
  induction a with
  | nil =>
    obtain ⟨z, hz, _⟩ := h
    exact absurd hz (List.not_mem_nil z)
  | cons x t ih =>
    show consumeSeps (x :: (t ++ b)) = consumeSeps (x :: t) ++ b
    simp only [consumeSeps]
    by_cases hx : isSep x
    · rw [if_pos hx, if_pos hx]
      apply ih
      obtain ⟨z, hz, hzs⟩ := h
      rcases List.mem_cons.1 hz with rfl | hz2
      · rw [hx] at hzs; cases hzs
      · exact ⟨z, hz2, hzs⟩
    · rw [if_neg hx, if_neg hx]
      rfl

theorem consumeSeps_props (a : List Char) (h : ∃ z ∈ a, isSep z = false) :
    consumeSeps a ≠ [] ∧ (consumeSeps a).getLast? = a.getLast? ∧
      ∀ x ∈ consumeSeps a, x ∈ a := by
  induction a with
  | nil =>
    obtain ⟨z, hz, _⟩ := h
    exact absurd hz (List.not_mem_nil z)
  | cons x t ih =>
    simp only [consumeSeps]
    by_cases hx : isSep x
    · rw [if_pos hx]
      have ht : ∃ z ∈ t, isSep z = false := by
        obtain ⟨z, hz, hzs⟩ := h
        rcases List.mem_cons.1 hz with rfl | hz2
        · rw [hx] at hzs; cases hzs
        · exact ⟨z, hz2, hzs⟩
      obtain ⟨h1, h2, h3⟩ := ih ht
      have htne : t ≠ [] := by
        obtain ⟨z, hz, _⟩ := ht
        intro h0
        subst h0
        exact absurd hz (List.not_mem_nil z)
      refine ⟨h1, ?_, fun y hy => List.mem_cons_of_mem x (h3 y hy)⟩
      rw [h2]
      match t, htne with
      | u :: v, _ => simp
    · rw [if_neg hx]
      exact ⟨by simp, rfl, fun y hy => hy⟩

theorem nonsep_last_mem (a : List Char)
    (hlast : ∀ z, a.getLast? = some z → isSep z = false) (hne : a ≠ []) :
    ∃ z ∈ a, isSep z = false := by
  have h2 : a.getLast? = some (a.getLast hne) :=
    Option.mem_def.mp (List.getLast_mem_getLast? hne)
  exact ⟨a.getLast hne, List.getLast_mem hne, hlast _ h2⟩

/-- One step of the splitter at successor fuel on a nonempty input. -/
theorem splitCoreF_cons (f : Nat) (x : Char) (a acc : List Char) :
    splitCoreF (f + 1) (x :: a) acc =
      if isSep x then acc.reverse :: splitCoreF f (consumeSeps a) []
      else if x = ';' then acc.reverse :: splitCoreF f (consumeLine a) []
      else if x = '/' then
        match a with
        | c2 :: r2 =>
          if c2 = '/' then acc.reverse :: splitCoreF f (consumeLine r2) []
          else splitCoreF f (c2 :: r2) (x :: acc)
        | [] => splitCoreF f [] (x :: acc)
      else splitCoreF f a (x :: acc) := rfl

/-- One step of the splitter on a leading separator, at canonical fuel. -/
theorem splitCore_cons_sep (x : Char) (a : List Char) (acc : List Char)
    (hx : isSep x = true) :
    splitCore (x :: a) acc = acc.reverse :: splitCore (consumeSeps a) [] := by
  show splitCoreF (a.length + 1 + 1) (x :: a) acc = _
  rw [splitCoreF_cons, if_pos hx]
  congr 1
  exact splitCoreF_congr (a.length + 1) ((consumeSeps a).length + 1) _ _
    (Nat.lt_succ_of_le (consumeSeps_length_le a)) (Nat.lt_succ_self _)

/-- One step of the splitter on a plain character, at canonical fuel. -/
theorem splitCore_cons_plain (x : Char) (a : List Char) (acc : List Char)
    (h1 : isSep x = false) (h2 : x ≠ ';') (h3 : x ≠ '/') :
    splitCore (x :: a) acc = splitCore a (x :: acc) := by
  show splitCoreF (a.length + 1 + 1) (x :: a) acc = _
  rw [splitCoreF_cons, if_neg (by rw [h1]; exact Bool.false_ne_true), if_neg h2, if_neg h3]
  rfl

/-- Splitting a text that ends in a non-separator and contains no
comment starters, followed by a separator and a remainder: the split of
the concatenation is the split of the text followed by the split of the
remainder with its leading separators consumed. -/
theorem splitCoreF_append : ∀ (f : Nat) (a acc : List Char) (c : Char) (r : List Char),
    (a ++ c :: r).length < f →
    (∀ x ∈ a, x ≠ '/' ∧ x ≠ ';') →
    isSep c = true →
    (∀ z, a.getLast? = some z → isSep z = false) →
    splitCoreF f (a ++ c :: r) acc =
      splitCore a acc ++ splitCore (consumeSeps r) [] := by
  intro f
  induction f using Nat.strong_induction_on with
  | _ f ih =>
    intro a acc c r hlen ha hc hlast
    match f, hlen with
    | f + 1, hlen =>
      match a with
      | [] =>
        simp only [List.nil_append] at hlen ⊢
        rw [splitCoreF_cons, if_pos hc]
        have hcs : (consumeSeps r).length < f := by
          have h1 := consumeSeps_length_le r
          simp only [List.length_cons] at hlen
          omega
        rw [splitCoreF_congr f ((consumeSeps r).length + 1) (consumeSeps r) []
          hcs (Nat.lt_succ_self _)]
        rfl
      | x :: a' =>
        have hx := ha x (List.mem_cons_self x a')
        have hmem' : ∀ y ∈ a', y ≠ '/' ∧ y ≠ ';' :=
          fun y hy => ha y (List.mem_cons_of_mem x hy)
        show splitCoreF (f + 1) (x :: (a' ++ c :: r)) acc = _
        rw [splitCoreF_cons]
        by_cases hsx : isSep x
        · rw [if_pos hsx]
          have ha'ne : a' ≠ [] := by
            intro h0
            subst h0
            have := hlast x (by simp)
            rw [hsx] at this
            cases this
          have hlast' : ∀ z, a'.getLast? = some z → isSep z = false := by
            intro z hz
            apply hlast
            rw [List.getLast?_cons, hz]
            rfl
          have hex : ∃ z ∈ a', isSep z = false := nonsep_last_mem a' hlast' ha'ne
          rw [consumeSeps_append a' (c :: r) hex]
          obtain ⟨hne, hgl, hmm⟩ := consumeSeps_props a' hex
          have hlen2 : (consumeSeps a' ++ c :: r).length < f := by
            have h1 := consumeSeps_length_le a'
            simp only [List.length_append, List.length_cons] at hlen ⊢
            omega
          rw [ih f (Nat.lt_succ_self f) (consumeSeps a') [] c r hlen2
            (fun y hy => hmem' y (hmm y hy)) hc
            (fun z hz => hlast' z (by rw [← hgl]; exact hz))]
          rw [splitCore_cons_sep x a' acc hsx]
          rfl
        · rw [if_neg hsx, if_neg hx.2, if_neg hx.1]
          have hlast' : ∀ z, a'.getLast? = some z → isSep z = false := by
            intro z hz
            apply hlast
            rw [List.getLast?_cons, hz]
            rfl
          have hlen2 : (a' ++ c :: r).length < f := by
            simp only [List.length_append, List.length_cons] at hlen ⊢
            omega
          rw [ih f (Nat.lt_succ_self f) a' (x :: acc) c r hlen2 hmem' hc hlast']
          rw [splitCore_cons_plain x a' acc (by rw [Bool.eq_false_iff]; exact hsx) hx.2 hx.1]

/-- Retokenizing a text extended by a separator-led suffix appends the
suffix's tokens. -/
theorem tokenize_append (t0 s : String) (T : List String)
    (h1 : s.data ≠ [])
    (h2 : isSep (s.data.headD 'x') = true)
    (h3 : (splitCore (consumeSeps s.data.tail) []).map String.mk = T)
    (h4 : ∀ x ∈ T, x ≠ "")
    (ha1 : ∀ x ∈ t0.data, x ≠ '/' ∧ x ≠ ';')
    (ha2 : ∀ z, t0.data.getLast? = some z → isSep z = false)
    (hne : ∀ x ∈ (splitCore t0.data []).map String.mk, x ≠ "") :
    tokenize (t0 ++ s) = tokenize t0 ++ T := by
  obtain ⟨c, r, hcr⟩ : ∃ c r, s.data = c :: r := by
    cases hs : s.data with
    | nil => exact absurd hs h1
    | cons c r => exact ⟨c, r, rfl⟩
  have hc : isSep c = true := by
    rw [hcr] at h2
    simpa using h2
  have hr : (splitCore (consumeSeps r) []).map String.mk = T := by
    rw [hcr] at h3
    simpa using h3
  have hall : ∀ x ∈ (splitCore t0.data []).map String.mk ++ T, x ≠ "" := by
    intro x hx
    rcases List.mem_append.1 hx with hx1 | hx2
    · exact hne x hx1
    · exact h4 x hx2
  unfold tokenize
  rw [String.data_append, hcr]
  have hsplit : splitCore (t0.data ++ c :: r) [] =
      splitCore t0.data [] ++ splitCore (consumeSeps r) [] :=
    splitCoreF_append ((t0.data ++ c :: r).length + 1) t0.data [] c r
      (Nat.lt_succ_self _) ha1 hc ha2
  rw [hsplit, List.map_append, hr]
  rw [removeEmptyGo_id _ hall, removeEmptyGo_id _ hne]


theorem getD_append_lt {α : Type} (l₁ l₂ : List α) (n : Nat) (d : α) (h : n < l₁.length) :
    (l₁ ++ l₂).getD n d = l₁.getD n d := by
  simp [List.getD_eq_getElem?_getD, List.getElem?_append_left h]

theorem getD_append_len {α : Type} (l₁ l₂ : List α) (d : α) :
    (l₁ ++ l₂).getD l₁.length d = l₂.headD d := by
  rw [List.getD_eq_getElem?_getD, List.getElem?_append_right (Nat.le_refl _)]
  rw [Nat.sub_self]
  cases l₂ <;> simp

/-- Admissible heads for a retokenized side-set/delay suffix. -/

theorem suffHead_ne (t : List String) (h : suffHeadOK t) :
    t.headD "" ≠ "rel" ∧ t.headD "" ≠ "block" ∧ t.headD "" ≠ "noblock" ∧
      t.headD "" ≠ "iffull" ∧ t.headD "" ≠ "ifempty" := by
  rcases h with rfl | h | h
  · refine ⟨by decide, by decide, by decide, by decide, by decide⟩
  · rw [h]
    refine ⟨by decide, by decide, by decide, by decide, by decide⟩
  · refine ⟨fun he => ?_, fun he => ?_, fun he => ?_, fun he => ?_, fun he => ?_⟩ <;>
      (rw [he] at h; exact absurd h (by decide))

theorem ext_jmp (toks t : List String) (labels : Option (List (String × Nat))) (instr v : Nat)
    (h : asmCaseJmp toks labels instr = .ok (v, toks.length)) :
    asmCaseJmp (toks ++ t) labels instr = .ok (v, toks.length) := by
  unfold asmCaseJmp at h ⊢
  cases hf : disCondition.enum.find? (fun e => e.2 = toks.getD 1 "") with
  | none =>
    simp only [hf] at h
    cases hg : toks.get? 1 with
    | none =>
      simp only [hg] at h
      exact absurd h (by simp)
    | some s =>
      simp only [hg] at h
      cases hp : parseConst s labels with
      | error e =>
        simp only [hp] at h
        exact absurd h (by simp)
      | ok n =>
        simp only [hp] at h
        by_cases h32 : n = 32
        · rw [if_pos h32] at h
          exact absurd h (by simp)
        · rw [if_neg h32] at h
          simp only [Except.ok.injEq, Prod.mk.injEq] at h
          obtain ⟨hv, hlen⟩ := h
          have h1 : (1 : Nat) < toks.length := by omega
          rw [getD_append_lt toks t 1 "" h1, hf]
          simp only
          rw [List.get?_append h1, hg]
          simp only [hp]
          rw [if_neg h32]
          rw [hv, ← hlen]
  | some jv =>
    obtain ⟨j, js⟩ := jv
    simp only [hf] at h
    cases hg : toks.get? 2 with
    | none =>
      simp only [hg] at h
      exact absurd h (by simp)
    | some s =>
      simp only [hg] at h
      cases hp : parseConst s labels with
      | error e =>
        simp only [hp] at h
        exact absurd h (by simp)
      | ok n =>
        simp only [hp] at h
        by_cases h32 : n = 32
        · rw [if_pos h32] at h
          exact absurd h (by simp)
        · rw [if_neg h32] at h
          simp only [Except.ok.injEq, Prod.mk.injEq] at h
          obtain ⟨hv, hlen⟩ := h
          have h1 : (1 : Nat) < toks.length := by omega
          have h2 : (2 : Nat) < toks.length := by omega
          rw [getD_append_lt toks t 1 "" h1, hf]
          simp only
          rw [List.get?_append h2, hg]
          simp only [hp]
          rw [if_neg h32]
          rw [hv, ← hlen]

theorem ext_in (toks t : List String) (labels : Option (List (String × Nat))) (instr : Nat)
    (hl : 3 ≤ toks.length) :
    asmCaseIn (toks ++ t) labels instr = asmCaseIn toks labels instr := by
  unfold asmCaseIn
  rw [if_neg (by simp only [List.length_append]; omega), if_neg (by omega)]
  rw [getD_append_lt toks t 1 "" (by omega), getD_append_lt toks t 2 "" (by omega)]

theorem ext_out (toks t : List String) (labels : Option (List (String × Nat))) (instr : Nat)
    (hl : 3 ≤ toks.length) :
    asmCaseOut (toks ++ t) labels instr = asmCaseOut toks labels instr := by
  unfold asmCaseOut
  rw [if_neg (by simp only [List.length_append]; omega), if_neg (by omega)]
  rw [getD_append_lt toks t 1 "" (by omega), getD_append_lt toks t 2 "" (by omega)]

theorem ext_set (toks t : List String) (labels : Option (List (String × Nat)))
    (p : Option Program) (instr : Nat) (hl : 3 ≤ toks.length) :
    asmCaseSet (toks ++ t) labels p instr = asmCaseSet toks labels p instr := by
  unfold asmCaseSet
  rw [if_neg (by simp only [List.length_append]; omega), if_neg (by omega)]
  rw [getD_append_lt toks t 1 "" (by omega), getD_append_lt toks t 2 "" (by omega)]

theorem ext_mov1 (toks t : List String) (instr : Nat) (hl : 3 ≤ toks.length) :
    asmCaseMov1 (toks ++ t) instr = asmCaseMov1 toks instr := by
  unfold asmCaseMov1
  rw [if_neg (show ¬ ((toks ++ t).length < 3) by simp only [List.length_append]; omega)]
  rw [if_neg (show ¬ (toks.length < 3) by omega)]
  rw [getD_append_lt toks t 1 "" (by omega), getD_append_lt toks t 2 "" (by omega)]


theorem ext_mov2 (toks t : List String) (instr v : Nat)
    (h : asmCaseMov2 toks instr = .ok (some (v, toks.length))) :
    asmCaseMov2 (toks ++ t) instr = .ok (some (v, toks.length)) := by
  unfold asmCaseMov2 at h ⊢
  by_cases hl : toks.length < 3
  · rw [if_pos hl] at h
    exact absurd h (by simp)
  · rw [if_neg hl] at h
    rw [if_neg (show ¬ ((toks ++ t).length < 3) by simp only [List.length_append]; omega)]
    rw [getD_append_lt toks t 1 "" (by omega)]
    cases hf : disMDestinations.enum.find? (fun e => e.2 = toks.getD 1 "") with
    | none =>
      simp only [hf] at h
      exact absurd h (by simp)
    | some jv =>
      obtain ⟨j, js⟩ := jv
      simp only [hf] at h ⊢
      rw [getD_append_lt toks t 2 "" (by omega)] at *
      by_cases hp1 : "!".data.isPrefixOf (toks.getD 2 "").data
      · rw [if_pos hp1] at h ⊢
        simp only at h ⊢
        by_cases hsrc : String.mk ((toks.getD 2 "").data.drop 1) = ""
        · rw [if_pos hsrc] at h ⊢
          by_cases hge : 3 ≥ toks.length
          · rw [if_pos hge] at h
            exact absurd h (by simp [bind, Except.bind])
          · rw [if_neg hge] at h
            rw [if_neg (show ¬ (3 ≥ (toks ++ t).length) by
              simp only [List.length_append]; omega)]
            rw [getD_append_lt toks t 3 "" (by omega)]
            exact h
        · rw [if_neg hsrc] at h ⊢
          exact h
      · rw [if_neg hp1] at h ⊢
        by_cases hp2 : "::".data.isPrefixOf (toks.getD 2 "").data
        · rw [if_pos hp2] at h ⊢
          simp only at h ⊢
          by_cases hsrc : String.mk ((toks.getD 2 "").data.drop 2) = ""
          · rw [if_pos hsrc] at h ⊢
            by_cases hge : 3 ≥ toks.length
            · rw [if_pos hge] at h
              exact absurd h (by simp [bind, Except.bind])
            · rw [if_neg hge] at h
              rw [if_neg (show ¬ (3 ≥ (toks ++ t).length) by
                simp only [List.length_append]; omega)]
              rw [getD_append_lt toks t 3 "" (by omega)]
              exact h
          · rw [if_neg hsrc] at h ⊢
            exact h
        · rw [if_neg hp2] at h ⊢
          simp only at h ⊢
          simp only [if_true] at h ⊢
          rw [if_neg (show ¬ (2 ≥ toks.length) by omega)] at h
          rw [if_neg (show ¬ (2 ≥ (toks ++ t).length) by
            simp only [List.length_append]; omega)]
          rw [getD_append_lt toks t 2 "" (by omega)]
          exact h


theorem ext_pullpush (i : Nat) (toks t : List String) (instr v : Nat)
    (hs : suffHeadOK t)
    (h : asmCasePullPush i toks instr = .ok (v, toks.length)) :
    asmCasePullPush i (toks ++ t) instr = .ok (v, toks.length) := by
  by_cases ht0 : t = []
  · subst ht0
    rw [List.append_nil]
    exact h
  have htl : 1 ≤ t.length := List.length_pos.2 ht0
  obtain ⟨hs1, hs2, hs3, hs4, hs5⟩ := suffHead_ne t hs
  unfold asmCasePullPush at h ⊢
  by_cases hc1 : 1 < toks.length ∧
      ((i = idxPUSH ∧ toks.getD 1 "" = "iffull") ∨ (i = idxPULL ∧ toks.getD 1 "" = "ifempty"))
  · have hc1e : 1 < (toks ++ t).length ∧
        ((i = idxPUSH ∧ (toks ++ t).getD 1 "" = "iffull") ∨
          (i = idxPULL ∧ (toks ++ t).getD 1 "" = "ifempty")) := by
      obtain ⟨ha, hb⟩ := hc1
      rw [getD_append_lt toks t 1 "" ha]
      exact ⟨by simp only [List.length_append]; omega, hb⟩
    rw [if_pos hc1] at h
    rw [if_pos hc1e]
    simp only at h ⊢
    by_cases hk : 2 < toks.length
    · rw [if_pos hk] at h
      rw [if_pos (show 2 < (toks ++ t).length by simp only [List.length_append]; omega)]
      rw [getD_append_lt toks t 2 "" hk]
      exact h
    · rw [if_neg hk] at h
      simp only [Except.ok.injEq, Prod.mk.injEq] at h
      obtain ⟨hv, hlen⟩ := h
      have hlen2 : toks.length = 2 := by omega
      rw [if_pos (show 2 < (toks ++ t).length by simp only [List.length_append]; omega)]
      rw [show (toks ++ t).getD 2 "" = t.headD "" by
        rw [← hlen2]; exact getD_append_len toks t ""]
      rw [if_neg hs3, if_neg hs2]
      rw [hv, hlen]
  · have hc1e : ¬ (1 < (toks ++ t).length ∧
        ((i = idxPUSH ∧ (toks ++ t).getD 1 "" = "iffull") ∨
          (i = idxPULL ∧ (toks ++ t).getD 1 "" = "ifempty"))) := by
      intro hcon
      obtain ⟨ha, hb⟩ := hcon
      by_cases h1 : 1 < toks.length
      · rw [getD_append_lt toks t 1 "" h1] at hb
        exact hc1 ⟨h1, hb⟩
      · -- toks.length ≤ 1; h forces result k = toks.length with k ≥ 1
        rw [if_neg hc1] at h
        simp only at h
        rw [if_neg h1] at h
        simp only [Except.ok.injEq, Prod.mk.injEq] at h
        have hlen1 : toks.length = 1 := by omega
        rw [show (toks ++ t).getD 1 "" = t.headD "" by
          rw [← hlen1]; exact getD_append_len toks t ""] at hb
        rcases hb with ⟨_, hb⟩ | ⟨_, hb⟩
        · exact hs4 hb
        · exact hs5 hb
    rw [if_neg hc1] at h
    rw [if_neg hc1e]
    simp only at h ⊢
    by_cases hk : 1 < toks.length
    · rw [if_pos hk] at h
      rw [if_pos (show 1 < (toks ++ t).length by simp only [List.length_append]; omega)]
      rw [getD_append_lt toks t 1 "" hk]
      exact h
    · rw [if_neg hk] at h
      simp only [Except.ok.injEq, Prod.mk.injEq] at h
      obtain ⟨hv, hlen⟩ := h
      have hlen1 : toks.length = 1 := by omega
      rw [if_pos (show 1 < (toks ++ t).length by simp only [List.length_append]; omega)]
      rw [show (toks ++ t).getD 1 "" = t.headD "" by
        rw [← hlen1]; exact getD_append_len toks t ""]
      rw [if_neg hs3, if_neg hs2]
      rw [hv, hlen]

/-- Appending a suffix headed by `side` or a delay token does not disturb a
successful `asmCaseIrq` parse that consumed its whole token list. -/
theorem ext_irq (toks t : List String) (instr v : Nat)
    (hs : suffHeadOK t)
    (h : asmCaseIrq toks instr = .ok (v, toks.length)) :
    asmCaseIrq (toks ++ t) instr = .ok (v, toks.length) := by
  have hrel : t.headD "" ≠ "rel" := (suffHead_ne t hs).1
  by_cases hl2 : toks.length < 2
  · rw [asmCaseIrq, if_pos hl2] at h; exact absurd h (by simp)
  rw [asmCaseIrq, if_neg hl2] at h
  rw [asmCaseIrq, if_neg (show ¬ ((toks ++ t).length < 2) by
    simp only [List.length_append]; omega)]
  rw [getD_append_lt toks t 1 "" (by omega)]
  split at h
  rename_i p1 idxMode k1 heq1
  by_cases hg1 : k1 ≥ toks.length
  · rw [if_pos hg1] at h; exact absurd h (by simp)
  rw [if_neg hg1] at h
  rw [if_neg (show ¬ (k1 ≥ (toks ++ t).length) by
    simp only [List.length_append]; omega)]
  rw [getD_append_lt toks t k1 "" (by omega)]
  split at h
  rename_i p2 instr2 k2 heq2
  by_cases hg2 : k2 ≥ toks.length
  · rw [if_pos hg2] at h; exact absurd h (by simp)
  rw [if_neg hg2] at h
  rw [if_neg (show ¬ (k2 ≥ (toks ++ t).length) by
    simp only [List.length_append]; omega)]
  rw [getD_append_lt toks t k2 "" (by omega)]
  rcases hpc : parseConst (toks.getD k2 "") none with e | n
  · simp only [hpc] at h
    exact absurd h (by simp)
  · simp only [hpc] at h ⊢
    by_cases hn7 : n > 7
    · rw [if_pos hn7] at h; exact absurd h (by simp)
    rw [if_neg hn7] at h ⊢
    by_cases hb : k2 + 1 < toks.length ∧ toks.getD (k2 + 1) "" = "rel"
    · have hb' : k2 + 1 < (toks ++ t).length ∧ (toks ++ t).getD (k2 + 1) "" = "rel" := by
        refine ⟨by simp only [List.length_append]; omega, ?_⟩
        rw [getD_append_lt toks t (k2 + 1) "" hb.1]; exact hb.2
      rw [if_pos hb] at h
      rw [if_pos hb']
      exact h
    · rw [if_neg hb] at h
      simp only [bind, Except.bind] at h
      by_cases hk : k2 + 1 < toks.length
      · have hnr : ¬ ((toks ++ t).getD (k2 + 1) "" = "rel") := by
          rw [getD_append_lt toks t (k2 + 1) "" hk]
          intro hc; exact hb ⟨hk, hc⟩
        rw [if_neg (show ¬ (k2 + 1 < (toks ++ t).length ∧ (toks ++ t).getD (k2 + 1) "" = "rel") from
          fun hc => hnr hc.2)]
        simp only [bind, Except.bind]
        exact h
      · have hlen : k2 + 1 = toks.length := by
          simp only [Except.ok.injEq, Prod.mk.injEq] at h
          exact h.2
        have hnr : ¬ ((toks ++ t).getD (k2 + 1) "" = "rel") := by
          rw [hlen, getD_append_len toks t ""]
          exact hrel
        rw [if_neg (show ¬ (k2 + 1 < (toks ++ t).length ∧ (toks ++ t).getD (k2 + 1) "" = "rel") from
          fun hc => hnr hc.2)]
        simp only [bind, Except.bind]
        exact h

/-- Appending a suffix headed by `side` or a delay token does not disturb a
successful `asmCaseWait` parse that consumed its whole token list. -/
theorem ext_wait (toks t : List String) (instr v : Nat)
    (hs : suffHeadOK t)
    (h : asmCaseWait toks instr = .ok (v, toks.length)) :
    asmCaseWait (toks ++ t) instr = .ok (v, toks.length) := by
  have hrel : t.headD "" ≠ "rel" := (suffHead_ne t hs).1
  by_cases hl3 : toks.length < 3
  · rw [asmCaseWait, if_pos hl3] at h; exact absurd h (by simp)
  rw [asmCaseWait, if_neg hl3] at h
  rw [asmCaseWait, if_neg (show ¬ ((toks ++ t).length < 3) by
    simp only [List.length_append]; omega)]
  rw [getD_append_lt toks t 1 "" (by omega)]
  rcases hp1 : parseConst (toks.getD 1 "") none with e | n
  · simp only [hp1, bind, Except.bind] at h ⊢
    rw [if_neg (show ¬ (1 ≥ toks.length) by omega)] at h
    rw [if_neg (show ¬ (1 ≥ (toks ++ t).length) by simp only [List.length_append]; omega)]
    rw [getD_append_lt toks t 1 "" (by omega)]
    rcases hfa : disBitSource.enum.find? (fun e => e.2 = toks.getD 1 "") with _ | pa
    · simp only [hfa] at h; exact absurd h (by simp)
    rcases pa with ⟨src, sname⟩
    simp only [hfa] at h ⊢
    simp only [Nat.reduceAdd] at h ⊢
    by_cases hg2a : 2 ≥ toks.length
    · rw [if_pos hg2a] at h; exact absurd h (by simp)
    rw [if_neg hg2a] at h
    rw [if_neg (show ¬ (2 ≥ (toks ++ t).length) by simp only [List.length_append]; omega)]
    rw [getD_append_lt toks t 2 "" (by omega)]
    by_cases hs01a : src = 0 ∨ src = 1
    · rw [if_pos hs01a] at h ⊢
      rcases hpA : parseConst (toks.getD 2 "") none with e | nA
      · simp only [hpA] at h; exact absurd h (by simp)
      simp only [hpA] at h ⊢
      by_cases hnA : nA > 31
      · rw [if_pos hnA] at h; exact absurd h (by simp)
      rw [if_neg hnA] at h ⊢
      exact h
    rw [if_neg hs01a] at h ⊢
    by_cases hs2a : src = 2
    · rw [if_pos hs2a] at h ⊢
      rcases hpB : parseConst (toks.getD 2 "") none with e | nB
      · simp only [hpB] at h ⊢
        split at h
        · exact absurd h (by simp)
        · rcases hq : toks.get? 3 with _ | tokX
          · simp only [hq] at h; exact absurd h (by simp)
          have hlt : 3 < toks.length := by
            by_contra hh
            rw [List.get?_eq_none.mpr (by omega)] at hq
            exact absurd hq (by simp)
          simp only [List.get?_append hlt, hq] at h ⊢
          rcases hp4 : parseConst tokX none with e | n4
          · simp only [hp4] at h; exact absurd h (by simp)
          simp only [hp4] at h ⊢
          by_cases hn4 : n4 > 7
          · rw [if_pos hn4] at h; exact absurd h (by simp)
          rw [if_neg hn4] at h ⊢
          exact h
      · simp only [hpB] at h ⊢
        by_cases hnB : nB > 7
        · rw [if_pos hnB] at h; exact absurd h (by simp)
        rw [if_neg hnB] at h ⊢
        by_cases hbB : 3 < toks.length ∧ toks.getD 3 "" = "rel"
        · rw [if_pos hbB] at h
          rw [if_pos (show 3 < (toks ++ t).length ∧ (toks ++ t).getD 3 "" = "rel" from
            ⟨by simp only [List.length_append]; omega, by
              rw [getD_append_lt toks t 3 "" hbB.1]; exact hbB.2⟩)]
          exact h
        · rw [if_neg hbB] at h
          by_cases hkB : 3 < toks.length
          · rw [if_neg (show ¬ (3 < (toks ++ t).length ∧ (toks ++ t).getD 3 "" = "rel") from
              fun hc2 => hbB ⟨hkB, by
                have h2 := hc2.2
                rw [getD_append_lt toks t 3 "" hkB] at h2
                exact h2⟩)]
            exact h
          · have hlenB : (3 : Nat) = toks.length := by
              simp only [Except.ok.injEq, Prod.mk.injEq] at h
              exact h.2
            have hgdB : (toks ++ t).getD 3 "" = t.headD "" := by
              rw [hlenB, getD_append_len toks t ""]
            rw [if_neg (show ¬ (3 < (toks ++ t).length ∧ (toks ++ t).getD 3 "" = "rel") from
              fun hc2 => hrel (by rw [← hgdB]; exact hc2.2))]
            exact h
    · rw [if_neg hs2a] at h ⊢
      split at h
      · exact absurd h (by simp)
      rename_i hcC
      push_neg at hcC
      rw [if_neg (show ¬ (4 > (toks ++ t).length ∨ toks.getD 2 "" ≠ "+") by
        push_neg
        exact ⟨by simp only [List.length_append]; omega, hcC.2⟩)]
      rw [getD_append_lt toks t 3 "" (by omega)]
      rcases hpC : parseConst (toks.getD 3 "") none with e | nC
      · simp only [hpC] at h; exact absurd h (by simp)
      simp only [hpC] at h ⊢
      by_cases hnC : nC > 3
      · rw [if_pos hnC] at h; exact absurd h (by simp)
      rw [if_neg hnC] at h ⊢
      exact h
  · simp only [hp1] at h ⊢
    by_cases hn1 : n > 1
    · rw [if_pos hn1] at h; simp only [bind, Except.bind] at h; exact absurd h (by simp)
    rw [if_neg hn1] at h ⊢
    simp only [bind, Except.bind] at h ⊢
    rw [if_neg (show ¬ (2 ≥ toks.length) by omega)] at h
    rw [if_neg (show ¬ (2 ≥ (toks ++ t).length) by simp only [List.length_append]; omega)]
    rw [getD_append_lt toks t 2 "" (by omega)]
    rcases hfb : disBitSource.enum.find? (fun e => e.2 = toks.getD 2 "") with _ | pb
    · simp only [hfb] at h; exact absurd h (by simp)
    rcases pb with ⟨src, sname⟩
    simp only [hfb] at h ⊢
    simp only [Nat.reduceAdd] at h ⊢
    by_cases hg2b : 3 ≥ toks.length
    · rw [if_pos hg2b] at h; exact absurd h (by simp)
    rw [if_neg hg2b] at h
    rw [if_neg (show ¬ (3 ≥ (toks ++ t).length) by simp only [List.length_append]; omega)]
    rw [getD_append_lt toks t 3 "" (by omega)]
    by_cases hs01b : src = 0 ∨ src = 1
    · rw [if_pos hs01b] at h ⊢
      rcases hpA : parseConst (toks.getD 3 "") none with e | nA
      · simp only [hpA] at h; exact absurd h (by simp)
      simp only [hpA] at h ⊢
      by_cases hnA : nA > 31
      · rw [if_pos hnA] at h; exact absurd h (by simp)
      rw [if_neg hnA] at h ⊢
      exact h
    rw [if_neg hs01b] at h ⊢
    by_cases hs2b : src = 2
    · rw [if_pos hs2b] at h ⊢
      rcases hpB : parseConst (toks.getD 3 "") none with e | nB
      · simp only [hpB] at h ⊢
        split at h
        · exact absurd h (by simp)
        · rcases hq : toks.get? 4 with _ | tokX
          · simp only [hq] at h; exact absurd h (by simp)
          have hlt : 4 < toks.length := by
            by_contra hh
            rw [List.get?_eq_none.mpr (by omega)] at hq
            exact absurd hq (by simp)
          simp only [List.get?_append hlt, hq] at h ⊢
          rcases hp4 : parseConst tokX none with e | n4
          · simp only [hp4] at h; exact absurd h (by simp)
          simp only [hp4] at h ⊢
          by_cases hn4 : n4 > 7
          · rw [if_pos hn4] at h; exact absurd h (by simp)
          rw [if_neg hn4] at h ⊢
          exact h
      · simp only [hpB] at h ⊢
        by_cases hnB : nB > 7
        · rw [if_pos hnB] at h; exact absurd h (by simp)
        rw [if_neg hnB] at h ⊢
        by_cases hbB : 4 < toks.length ∧ toks.getD 4 "" = "rel"
        · rw [if_pos hbB] at h
          rw [if_pos (show 4 < (toks ++ t).length ∧ (toks ++ t).getD 4 "" = "rel" from
            ⟨by simp only [List.length_append]; omega, by
              rw [getD_append_lt toks t 4 "" hbB.1]; exact hbB.2⟩)]
          exact h
        · rw [if_neg hbB] at h
          by_cases hkB : 4 < toks.length
          · rw [if_neg (show ¬ (4 < (toks ++ t).length ∧ (toks ++ t).getD 4 "" = "rel") from
              fun hc2 => hbB ⟨hkB, by
                have h2 := hc2.2
                rw [getD_append_lt toks t 4 "" hkB] at h2
                exact h2⟩)]
            exact h
          · have hlenB : (4 : Nat) = toks.length := by
              simp only [Except.ok.injEq, Prod.mk.injEq] at h
              exact h.2
            have hgdB : (toks ++ t).getD 4 "" = t.headD "" := by
              rw [hlenB, getD_append_len toks t ""]
            rw [if_neg (show ¬ (4 < (toks ++ t).length ∧ (toks ++ t).getD 4 "" = "rel") from
              fun hc2 => hrel (by rw [← hgdB]; exact hc2.2))]
            exact h
    · rw [if_neg hs2b] at h ⊢
      split at h
      · exact absurd h (by simp)
      rename_i hcC
      push_neg at hcC
      rw [if_neg (show ¬ (5 > (toks ++ t).length ∨ toks.getD 3 "" ≠ "+") by
        push_neg
        exact ⟨by simp only [List.length_append]; omega, hcC.2⟩)]
      rw [getD_append_lt toks t 4 "" (by omega)]
      rcases hpC : parseConst (toks.getD 4 "") none with e | nC
      · simp only [hpC] at h; exact absurd h (by simp)
      simp only [hpC] at h ⊢
      by_cases hnC : nC > 3
      · rw [if_pos hnC] at h; exact absurd h (by simp)
      rw [if_neg hnC] at h ⊢
      exact h

theorem headD_append (l₁ l₂ : List String) (d : String) (h : l₁ ≠ []) :
    (l₁ ++ l₂).headD d = l₁.headD d := by
  cases l₁ with
  | nil => exact absurd rfl h
  | cons a l => rfl

/-- A descriptor the probe skips is also skipped on the suffixed tokens. -/
theorem iter_ext_none (i : Nat) (dec : Instruction) (toks0 σ : List String)
    (p2 : Option Program) (e : Nat) (h0 : toks0 ≠ [])
    (hx : extIter i dec toks0 p2 e = none) :
    asmIter i dec (toks0 ++ σ) p2 = (none, false) := by
  have hhd : (toks0 ++ σ).headD "" = toks0.headD "" := headD_append toks0 σ "" h0
  simp only [extIter] at hx
  by_cases hhead : toks0.headD "" ≠ dec.token
  · rw [if_pos hhead] at hx
    simp only [asmIter]
    rw [if_pos (show (toks0 ++ σ).headD "" ≠ dec.token by rw [hhd]; exact hhead)]
  · rw [if_neg hhead] at hx
    by_cases hfl : dec.flags = 0 ∧ toks0.length = 1
    · rw [if_pos hfl] at hx; exact absurd hx (by simp)
    rw [if_neg hfl] at hx
    by_cases hl1 : toks0.length = 1
    · rw [if_pos hl1] at hx; exact absurd hx (by simp)
    rw [if_neg hl1] at hx
    have hl2 : 2 ≤ toks0.length := by
      rcases toks0 with _ | ⟨a, l⟩
      · exact absurd rfl h0
      · simp only [List.length_cons] at hl1 ⊢; omega
    by_cases hiJ : i = idxJMP
    · rw [if_pos hiJ] at hx; exact absurd hx (by simp)
    rw [if_neg hiJ] at hx
    by_cases hiW : i = idxWAIT
    · rw [if_pos hiW] at hx; exact absurd hx (by simp)
    rw [if_neg hiW] at hx
    by_cases hiI : i = idxIN
    · rw [if_pos hiI] at hx; exact absurd hx (by simp)
    rw [if_neg hiI] at hx
    by_cases hiO : i = idxOUT
    · rw [if_pos hiO] at hx; exact absurd hx (by simp)
    rw [if_neg hiO] at hx
    by_cases hiN : i = idxNOP
    · rw [if_pos hiN] at hx; exact absurd hx (by simp)
    rw [if_neg hiN] at hx
    by_cases hiPP : i = idxPULL ∨ i = idxPUSH
    · rw [if_pos hiPP] at hx; exact absurd hx (by simp)
    rw [if_neg hiPP] at hx
    by_cases hiM1 : i = idxMOV1
    · rw [if_pos hiM1] at hx
      rcases hm : asmCaseMov1 toks0 dec.bits with er | o
      · simp only [hm] at hx; exact absurd hx (by simp)
      rcases o with _ | ⟨v, k⟩
      · have hl3 : 3 ≤ toks0.length := by
          by_contra hc
          rw [asmCaseMov1, if_pos (by omega)] at hm
          exact absurd hm (by simp)
        simp only [asmIter]
        rw [if_neg (show ¬ ((toks0 ++ σ).headD "" ≠ dec.token) by rw [hhd]; exact hhead)]
        rw [if_neg (show ¬ (dec.flags = 0 ∧ (toks0 ++ σ).length = 1) from
          fun hc => absurd hc.2 (by simp only [List.length_append]; omega))]
        rw [if_neg (show ¬ ((toks0 ++ σ).length = 1) by simp only [List.length_append]; omega)]
        rw [if_neg hiJ, if_neg hiW, if_neg hiI, if_neg hiO, if_neg hiN, if_neg hiPP,
          if_pos hiM1]
        rw [ext_mov1 toks0 σ dec.bits hl3, hm]
      · simp only [hm] at hx; exact absurd hx (by simp)
    rw [if_neg hiM1] at hx
    by_cases hiM2 : i = idxMOV2
    · rw [if_pos hiM2] at hx; exact absurd hx (by simp)
    rw [if_neg hiM2] at hx
    by_cases hiS : i = idxSET
    · rw [if_pos hiS] at hx; exact absurd hx (by simp)
    rw [if_neg hiS] at hx
    by_cases hiIq : i = idxIRQ
    · rw [if_pos hiIq] at hx; exact absurd hx (by simp)
    rw [if_neg hiIq] at hx
    exact absurd hx (by simp)

/-- A descriptor the probe accepts parses the suffixed tokens to the full
word once `asmSideDelay` accounts for the suffix. -/
theorem iter_ext_some (i : Nat) (dec : Instruction) (toks0 σ : List String)
    (p2 : Option Program) (e D : Nat) (h0 : toks0 ≠ []) (hσ : suffHeadOK σ)
    (hsd1 : (toks0 ++ σ).length = 1 → D = 0)
    (hsd2 : (toks0 ++ σ).length ≠ 1 →
      ∃ kEnd, asmSideDelay (toks0 ++ σ) p2 e toks0.length = .ok (e ||| D, kEnd) ∧ kEnd ≠ 1)
    (hx : extIter i dec toks0 p2 e = some true) :
    (asmIter i dec (toks0 ++ σ) p2).1 = some (.ok (e ||| D)) := by
  have hhd : (toks0 ++ σ).headD "" = toks0.headD "" := headD_append toks0 σ "" h0
  have h0l : 0 < toks0.length := List.length_pos.mpr h0
  simp only [extIter] at hx
  by_cases hhead : toks0.headD "" ≠ dec.token
  · rw [if_pos hhead] at hx; exact absurd hx (by simp)
  rw [if_neg hhead] at hx
  by_cases hfl : dec.flags = 0 ∧ toks0.length = 1
  · rw [if_pos hfl] at hx
    simp only [Option.some.injEq, decide_eq_true_eq] at hx
    obtain ⟨hiN, hbits⟩ := hx
    subst hiN
    subst hbits
    by_cases hσe : σ = []
    · subst hσe
      have hD : D = 0 := hsd1 (by simp only [List.append_nil]; exact hfl.2)
      subst hD
      simp only [asmIter, List.append_nil]
      rw [if_neg (show ¬ (toks0.headD "" ≠ dec.token) from hhead), if_pos hfl]
      simp only [Nat.or_zero]
    · have hσl : 0 < σ.length := List.length_pos.mpr hσe
      have hlen2 : 2 ≤ (toks0 ++ σ).length := by simp only [List.length_append]; omega
      obtain ⟨kEnd, hk, hk1⟩ := hsd2 (by omega)
      rw [hfl.2] at hk
      simp only [asmIter]
      rw [if_neg (show ¬ ((toks0 ++ σ).headD "" ≠ dec.token) by rw [hhd]; exact hhead)]
      rw [if_neg (show ¬ (dec.flags = 0 ∧ (toks0 ++ σ).length = 1) from
        fun hc => absurd hc.2 (by omega))]
      rw [if_neg (show ¬ ((toks0 ++ σ).length = 1) by omega)]
      rw [if_neg (show ¬ (idxNOP = idxJMP) by decide),
        if_neg (show ¬ (idxNOP = idxWAIT) by decide),
        if_neg (show ¬ (idxNOP = idxIN) by decide),
        if_neg (show ¬ (idxNOP = idxOUT) by decide),
        if_pos (show True from trivial)]
      simp only [hk]
      rw [if_pos hk1]
  rw [if_neg hfl] at hx
  by_cases hl1 : toks0.length = 1
  · rw [if_pos hl1] at hx; exact absurd hx (by simp)
  rw [if_neg hl1] at hx
  have hl2 : 2 ≤ toks0.length := by omega
  simp only [asmIter]
  rw [if_neg (show ¬ ((toks0 ++ σ).headD "" ≠ dec.token) by rw [hhd]; exact hhead)]
  rw [if_neg (show ¬ (dec.flags = 0 ∧ (toks0 ++ σ).length = 1) from
    fun hc => absurd hc.2 (by simp only [List.length_append]; omega))]
  rw [if_neg (show ¬ ((toks0 ++ σ).length = 1) by simp only [List.length_append]; omega)]
  obtain ⟨kEnd, hk, hk1⟩ := hsd2 (by simp only [List.length_append]; omega)
  by_cases hiJ : i = idxJMP
  · rw [if_pos hiJ] at hx ⊢
    simp only [Option.some.injEq, decide_eq_true_eq] at hx
    rw [ext_jmp toks0 σ _ dec.bits e hx]
    simp only [Except.map, hk]
    rw [if_pos hk1]
  rw [if_neg hiJ] at hx ⊢
  by_cases hiW : i = idxWAIT
  · rw [if_pos hiW] at hx ⊢
    simp only [Option.some.injEq, decide_eq_true_eq] at hx
    rw [ext_wait toks0 σ dec.bits e hσ hx]
    simp only [Except.map, hk]
    rw [if_pos hk1]
  rw [if_neg hiW] at hx ⊢
  by_cases hiI : i = idxIN
  · rw [if_pos hiI] at hx ⊢
    simp only [Option.some.injEq, decide_eq_true_eq] at hx
    have hl3 : 3 ≤ toks0.length := by
      by_contra hc
      rw [asmCaseIn, if_pos (by omega)] at hx
      exact absurd hx (by simp)
    rw [ext_in toks0 σ _ dec.bits hl3, hx]
    simp only [Except.map, hk]
    rw [if_pos hk1]
  rw [if_neg hiI] at hx ⊢
  by_cases hiO : i = idxOUT
  · rw [if_pos hiO] at hx ⊢
    simp only [Option.some.injEq, decide_eq_true_eq] at hx
    have hl3 : 3 ≤ toks0.length := by
      by_contra hc
      rw [asmCaseOut, if_pos (by omega)] at hx
      exact absurd hx (by simp)
    rw [ext_out toks0 σ _ dec.bits hl3, hx]
    simp only [Except.map, hk]
    rw [if_pos hk1]
  rw [if_neg hiO] at hx ⊢
  by_cases hiN : i = idxNOP
  · rw [if_pos hiN] at hx; exact absurd hx (by simp)
  rw [if_neg hiN] at hx ⊢
  by_cases hiPP : i = idxPULL ∨ i = idxPUSH
  · rw [if_pos hiPP] at hx ⊢
    simp only [Option.some.injEq, decide_eq_true_eq] at hx
    rw [ext_pullpush i toks0 σ dec.bits e hσ hx]
    simp only [Except.map, hk]
    rw [if_pos hk1]
  rw [if_neg hiPP] at hx ⊢
  by_cases hiM1 : i = idxMOV1
  · rw [if_pos hiM1] at hx ⊢
    rcases hm : asmCaseMov1 toks0 dec.bits with er | o
    · simp only [hm] at hx; exact absurd hx (by simp)
    rcases o with _ | ⟨v, k⟩
    · simp only [hm] at hx; exact absurd hx (by simp)
    · simp only [hm, Option.some.injEq, decide_eq_true_eq] at hx
      obtain ⟨hv, hkk⟩ := hx
      have hl3 : 3 ≤ toks0.length := by
        by_contra hc
        rw [asmCaseMov1, if_pos (by omega)] at hm
        exact absurd hm (by simp)
      rw [ext_mov1 toks0 σ dec.bits hl3, hm, hv, hkk]
      simp only [hk]
      rw [if_pos hk1]
  rw [if_neg hiM1] at hx ⊢
  by_cases hiM2 : i = idxMOV2
  · rw [if_pos hiM2] at hx ⊢
    simp only [Option.some.injEq, decide_eq_true_eq] at hx
    rw [ext_mov2 toks0 σ dec.bits e hx]
    simp only [hk]
    rw [if_pos hk1]
  rw [if_neg hiM2] at hx ⊢
  by_cases hiS : i = idxSET
  · rw [if_pos hiS] at hx ⊢
    simp only [Option.some.injEq, decide_eq_true_eq] at hx
    have hl3 : 3 ≤ toks0.length := by
      by_contra hc
      rw [asmCaseSet, if_pos (by omega)] at hx
      exact absurd hx (by simp)
    rw [ext_set toks0 σ _ p2 dec.bits hl3, hx]
    simp only [Except.map, hk]
    rw [if_pos hk1]
  rw [if_neg hiS] at hx ⊢
  by_cases hiIq : i = idxIRQ
  · rw [if_pos hiIq] at hx ⊢
    simp only [Option.some.injEq, decide_eq_true_eq] at hx
    rw [ext_irq toks0 σ dec.bits e hσ hx]
    simp only [Except.map, hk]
    rw [if_pos hk1]
  rw [if_neg hiIq] at hx
  exact absurd hx (by simp)

/-- Rebuilding the word: if the probe accepts the body tokens, the whole
`Assemble` loop on the suffixed tokens produces `e ||| D`, where `D` is
what `asmSideDelay` contributes for the suffix. -/
theorem loop_ext (L : List (Nat × Instruction)) (toks0 σ : List String)
    (p2 : Option Program) (e D : Nat)
    (h0 : toks0 ≠ []) (hσ : suffHeadOK σ)
    (hsd1 : (toks0 ++ σ).length = 1 → D = 0)
    (hsd2 : (toks0 ++ σ).length ≠ 1 →
      ∃ kEnd, asmSideDelay (toks0 ++ σ) p2 e toks0.length = .ok (e ||| D, kEnd) ∧ kEnd ≠ 1)
    (hprobe : extLoop toks0 p2 e L = true) :
    (asmLoop (toks0 ++ σ) p2 L).1 = .ok (e ||| D) := by
  induction L with
  | nil => exact absurd hprobe (by simp [extLoop])
  | cons hd rest ih =>
    obtain ⟨i, dec⟩ := hd
    simp only [extLoop] at hprobe
    cases hxi : extIter i dec toks0 p2 e with
    | none =>
      simp only [hxi] at hprobe
      have hit := iter_ext_none i dec toks0 σ p2 e h0 hxi
      simp only [asmLoop, hit, Bool.false_eq_true, if_false]
      exact ih hprobe
    | some b =>
      simp only [hxi] at hprobe
      subst hprobe
      have hit := iter_ext_some i dec toks0 σ p2 e D h0 hσ hsd1 hsd2 hxi
      rcases hai : asmIter i dec (toks0 ++ σ) p2 with ⟨r, sp⟩
      rw [hai] at hit
      simp only at hit
      subst hit
      simp only [asmLoop, hai]

theorem getD_append_add {α : Type} (l₁ l₂ : List α) (j : Nat) (d : α) :
    (l₁ ++ l₂).getD (l₁.length + j) d = l₂.getD j d := by
  rw [List.getD_eq_getElem?_getD, List.getElem?_append_right (by omega)]
  rw [Nat.add_sub_cancel_left, List.getD_eq_getElem?_getD]

/-- `asmSideDelay` with no configuration and no suffix. -/
theorem sd_none_empty (toks0 : List String) (e : Nat) :
    asmSideDelay (toks0 ++ []) none e toks0.length = .ok (e ||| 0, toks0.length) := by
  simp only [asmSideDelay, Except.bind, List.append_nil]
  rw [if_neg (show ¬ (toks0.length ≠ toks0.length) from fun hc => hc rfl)]

/-- `asmSideDelay` with no configuration and a sole delay token. -/
theorem sd_none_delay (toks0 : List String) (e del : Nat) (s : String)
    (h3 : s.data.length ≥ 3) (hh : s.data.headD ' ' = '[')
    (hl : s.data.getLastD ' ' = ']')
    (hp : parseConst (String.mk ((s.data.drop 1).dropLast)) none = .ok del)
    (hm : del &&& 31 = del) :
    asmSideDelay (toks0 ++ [s]) none e toks0.length =
      .ok (e ||| 0 ||| del <<< 8, toks0.length + 1) := by
  simp only [asmSideDelay, Except.bind]
  rw [if_pos (show toks0.length ≠ (toks0 ++ [s]).length by
    simp only [List.length_append, List.length_cons, List.length_nil]; omega)]
  rw [getD_append_len toks0 [s] ""]
  simp only [List.headD_cons]
  rw [if_pos (show s.data.length ≥ 3 ∧ s.data.headD ' ' = '[' ∧ s.data.getLastD ' ' = ']' from
    ⟨h3, hh, hl⟩)]
  simp only [hp]
  rw [if_neg (show ¬ (del &&& 31 ≠ del) from fun hc => hc hm)]

/-- `asmSideDelay` for the one-bit mandatory side-set with no delay. -/
theorem sd_s1_nodelay (toks0 : List String) (e ss : Nat) (ssStr : String)
    (hp : parseConst ssStr none = .ok ss) (hss : ss < 2) :
    asmSideDelay (toks0 ++ ["side", ssStr]) (some cfgSide1) e toks0.length =
      .ok (e ||| ss <<< 12, toks0.length + 2) := by
  simp only [asmSideDelay]
  rw [if_pos (show cfgSide1.Attr.SideSet > 0 by decide)]
  rw [if_pos (show toks0.length + 2 ≤ (toks0 ++ ["side", ssStr]).length ∧
      (toks0 ++ ["side", ssStr]).getD toks0.length "" = "side" from
    ⟨by simp only [List.length_append, List.length_cons, List.length_nil]; omega,
     by rw [getD_append_len toks0 _ ""]; rfl⟩)]
  rw [show (toks0 ++ ["side", ssStr]).getD (toks0.length + 1) "" = ssStr from
    by rw [getD_append_add]; rfl]
  simp only [hp]
  rw [show shlU16 1 cfgSide1.Attr.SideSet = 2 from by decide]
  rw [if_neg (show ¬ (ss ≥ 2) by omega)]
  rw [if_neg (show ¬ (cfgSide1.Attr.SideSetOpt = true) by decide)]
  rw [if_neg (show ¬ (cfgSide1.Attr.SideSetOpt = true) by decide)]
  rw [show subU16 13 cfgSide1.Attr.SideSet = 12 from by decide]
  rw [show shlU16 ss 12 = ss <<< 12 from by
    simp only [shlU16]
    exact Nat.mod_eq_of_lt (by
      rw [Nat.shiftLeft_eq]
      have h2 : (2 : Nat) ^ 12 = 4096 := by norm_num
      rw [h2]; omega)]
  simp only [Except.map, Except.bind]
  rw [if_neg (show ¬ (toks0.length + 2 ≠ (toks0 ++ ["side", ssStr]).length) from
    fun hc => hc (by simp only [List.length_append, List.length_cons, List.length_nil]))]

/-- `asmSideDelay` for the one-bit mandatory side-set with a delay token. -/
theorem sd_s1_delay (toks0 : List String) (e ss dd : Nat) (ssStr s : String)
    (hp : parseConst ssStr none = .ok ss) (hss : ss < 2)
    (h3 : s.data.length ≥ 3) (hh : s.data.headD ' ' = '[')
    (hl : s.data.getLastD ' ' = ']')
    (hpd : parseConst (String.mk ((s.data.drop 1).dropLast)) none = .ok dd)
    (hmd : dd &&& 15 = dd) :
    asmSideDelay (toks0 ++ ["side", ssStr, s]) (some cfgSide1) e toks0.length =
      .ok (e ||| ss <<< 12 ||| dd <<< 8, toks0.length + 3) := by
  simp only [asmSideDelay]
  rw [if_pos (show cfgSide1.Attr.SideSet > 0 by decide)]
  rw [if_pos (show toks0.length + 2 ≤ (toks0 ++ ["side", ssStr, s]).length ∧
      (toks0 ++ ["side", ssStr, s]).getD toks0.length "" = "side" from
    ⟨by simp only [List.length_append, List.length_cons, List.length_nil]; omega,
     by rw [getD_append_len toks0 _ ""]; rfl⟩)]
  rw [show (toks0 ++ ["side", ssStr, s]).getD (toks0.length + 1) "" = ssStr from
    by rw [getD_append_add]; rfl]
  simp only [hp]
  rw [show shlU16 1 cfgSide1.Attr.SideSet = 2 from by decide]
  rw [if_neg (show ¬ (ss ≥ 2) by omega)]
  rw [if_neg (show ¬ (cfgSide1.Attr.SideSetOpt = true) by decide)]
  rw [if_neg (show ¬ (cfgSide1.Attr.SideSetOpt = true) by decide)]
  rw [show subU16 13 cfgSide1.Attr.SideSet = 12 from by decide]
  rw [show shlU16 ss 12 = ss <<< 12 from by
    simp only [shlU16]
    exact Nat.mod_eq_of_lt (by
      rw [Nat.shiftLeft_eq]
      have h2 : (2 : Nat) ^ 12 = 4096 := by norm_num
      rw [h2]; omega)]
  simp only [Except.map, Except.bind]
  rw [if_pos (show toks0.length + 2 ≠ (toks0 ++ ["side", ssStr, s]).length by
    simp only [List.length_append, List.length_cons, List.length_nil]; omega)]
  rw [show (toks0 ++ ["side", ssStr, s]).getD (toks0.length + 2) "" = s from
    by rw [getD_append_add]; rfl]
  rw [if_pos (show s.data.length ≥ 3 ∧ s.data.headD ' ' = '[' ∧ s.data.getLastD ' ' = ']' from
    ⟨h3, hh, hl⟩)]
  simp only [hpd]
  rw [show (31 : Nat) >>> cfgSide1.Attr.SideSet = 15 from by decide]
  rw [if_neg (show ¬ (dd &&& 15 ≠ dd) from fun hc => hc hmd)]

/-- `asmSideDelay` for the optional two-bit side-set with no suffix. -/
theorem sd_s2_empty (toks0 : List String) (e : Nat) :
    asmSideDelay (toks0 ++ []) (some cfgSide2opt) e toks0.length =
      .ok (e ||| 0, toks0.length) := by
  simp only [asmSideDelay, List.append_nil]
  rw [if_pos (show cfgSide2opt.Attr.SideSet > 0 by decide)]
  rw [if_neg (show ¬ (toks0.length + 2 ≤ toks0.length ∧
      toks0.getD toks0.length "" = "side") from fun hc => by omega)]
  rw [if_neg (show ¬ (¬ (cfgSide2opt.Attr.SideSetOpt = true)) by decide)]
  simp only [Except.map, Except.bind]
  rw [if_neg (show ¬ (toks0.length ≠ toks0.length) from fun hc => hc rfl)]

/-- `asmSideDelay` for the optional two-bit side-set with a sole delay token. -/
theorem sd_s2_delay (toks0 : List String) (e dd : Nat) (s : String)
    (h3 : s.data.length ≥ 3) (hh : s.data.headD ' ' = '[')
    (hl : s.data.getLastD ' ' = ']')
    (hpd : parseConst (String.mk ((s.data.drop 1).dropLast)) none = .ok dd)
    (hmd : dd &&& 3 = dd) :
    asmSideDelay (toks0 ++ [s]) (some cfgSide2opt) e toks0.length =
      .ok (e ||| 0 ||| dd <<< 8, toks0.length + 1) := by
  simp only [asmSideDelay]
  rw [if_pos (show cfgSide2opt.Attr.SideSet > 0 by decide)]
  rw [if_neg (show ¬ (toks0.length + 2 ≤ (toks0 ++ [s]).length ∧
      (toks0 ++ [s]).getD toks0.length "" = "side") from fun hc => by
    have := hc.1
    simp only [List.length_append, List.length_cons, List.length_nil] at this
    omega)]
  rw [if_neg (show ¬ (¬ (cfgSide2opt.Attr.SideSetOpt = true)) by decide)]
  simp only [Except.map, Except.bind]
  rw [if_pos (show toks0.length ≠ (toks0 ++ [s]).length by
    simp only [List.length_append, List.length_cons, List.length_nil]; omega)]
  rw [getD_append_len toks0 [s] ""]
  simp only [List.headD_cons]
  rw [if_pos (show s.data.length ≥ 3 ∧ s.data.headD ' ' = '[' ∧ s.data.getLastD ' ' = ']' from
    ⟨h3, hh, hl⟩)]
  simp only [hpd]
  rw [if_pos (show cfgSide2opt.Attr.SideSetOpt = true by decide)]
  rw [show (31 : Nat) >>> 1 >>> cfgSide2opt.Attr.SideSet = 3 from by decide]
  rw [if_neg (show ¬ (dd &&& 3 ≠ dd) from fun hc => hc hmd)]

/-- `asmSideDelay` for the optional two-bit side-set with `side N` alone. -/
theorem sd_s2_side (toks0 : List String) (e ss : Nat) (ssStr : String)
    (hp : parseConst ssStr none = .ok ss) (hss : ss < 4) :
    asmSideDelay (toks0 ++ ["side", ssStr]) (some cfgSide2opt) e toks0.length =
      .ok (e ||| (4096 ||| ss <<< 10), toks0.length + 2) := by
  simp only [asmSideDelay]
  rw [if_pos (show cfgSide2opt.Attr.SideSet > 0 by decide)]
  rw [if_pos (show toks0.length + 2 ≤ (toks0 ++ ["side", ssStr]).length ∧
      (toks0 ++ ["side", ssStr]).getD toks0.length "" = "side" from
    ⟨by simp only [List.length_append, List.length_cons, List.length_nil]; omega,
     by rw [getD_append_len toks0 _ ""]; rfl⟩)]
  rw [show (toks0 ++ ["side", ssStr]).getD (toks0.length + 1) "" = ssStr from
    by rw [getD_append_add]; rfl]
  simp only [hp]
  rw [show shlU16 1 cfgSide2opt.Attr.SideSet = 4 from by decide]
  rw [if_neg (show ¬ (ss ≥ 4) by omega)]
  rw [if_pos (show cfgSide2opt.Attr.SideSetOpt = true by decide)]
  rw [if_pos (show cfgSide2opt.Attr.SideSetOpt = true by decide)]
  rw [show subU16 12 cfgSide2opt.Attr.SideSet = 10 from by decide]
  rw [show shlU16 ss 10 = ss <<< 10 from by
    simp only [shlU16]
    exact Nat.mod_eq_of_lt (by
      rw [Nat.shiftLeft_eq]
      have h2 : (2 : Nat) ^ 10 = 1024 := by norm_num
      rw [h2]; omega)]
  simp only [Except.map, Except.bind]
  rw [if_neg (show ¬ (toks0.length + 2 ≠ (toks0 ++ ["side", ssStr]).length) from
    fun hc => hc (by simp only [List.length_append, List.length_cons, List.length_nil]))]

/-- `asmSideDelay` for the optional two-bit side-set with `side N` and a
delay token. -/
theorem sd_s2_side_delay (toks0 : List String) (e ss dd : Nat) (ssStr s : String)
    (hp : parseConst ssStr none = .ok ss) (hss : ss < 4)
    (h3 : s.data.length ≥ 3) (hh : s.data.headD ' ' = '[')
    (hl : s.data.getLastD ' ' = ']')
    (hpd : parseConst (String.mk ((s.data.drop 1).dropLast)) none = .ok dd)
    (hmd : dd &&& 3 = dd) :
    asmSideDelay (toks0 ++ ["side", ssStr, s]) (some cfgSide2opt) e toks0.length =
      .ok (e ||| (4096 ||| ss <<< 10) ||| dd <<< 8, toks0.length + 3) := by
  simp only [asmSideDelay]
  rw [if_pos (show cfgSide2opt.Attr.SideSet > 0 by decide)]
  rw [if_pos (show toks0.length + 2 ≤ (toks0 ++ ["side", ssStr, s]).length ∧
      (toks0 ++ ["side", ssStr, s]).getD toks0.length "" = "side" from
    ⟨by simp only [List.length_append, List.length_cons, List.length_nil]; omega,
     by rw [getD_append_len toks0 _ ""]; rfl⟩)]
  rw [show (toks0 ++ ["side", ssStr, s]).getD (toks0.length + 1) "" = ssStr from
    by rw [getD_append_add]; rfl]
  simp only [hp]
  rw [show shlU16 1 cfgSide2opt.Attr.SideSet = 4 from by decide]
  rw [if_neg (show ¬ (ss ≥ 4) by omega)]
  rw [if_pos (show cfgSide2opt.Attr.SideSetOpt = true by decide)]
  rw [if_pos (show cfgSide2opt.Attr.SideSetOpt = true by decide)]
  rw [show subU16 12 cfgSide2opt.Attr.SideSet = 10 from by decide]
  rw [show shlU16 ss 10 = ss <<< 10 from by
    simp only [shlU16]
    exact Nat.mod_eq_of_lt (by
      rw [Nat.shiftLeft_eq]
      have h2 : (2 : Nat) ^ 10 = 1024 := by norm_num
      rw [h2]; omega)]
  simp only [Except.map, Except.bind]
  rw [if_pos (show toks0.length + 2 ≠ (toks0 ++ ["side", ssStr, s]).length by
    simp only [List.length_append, List.length_cons, List.length_nil]; omega)]
  rw [show (toks0 ++ ["side", ssStr, s]).getD (toks0.length + 2) "" = s from
    by rw [getD_append_add]; rfl]
  rw [if_pos (show s.data.length ≥ 3 ∧ s.data.headD ' ' = '[' ∧ s.data.getLastD ' ' = ']' from
    ⟨h3, hh, hl⟩)]
  simp only [hpd]
  rw [show (31 : Nat) >>> 1 >>> cfgSide2opt.Attr.SideSet = 3 from by decide]
  rw [if_neg (show ¬ (dd &&& 3 ≠ dd) from fun hc => hc hmd)]

theorem tokenize_nop : tokenize "nop\t" = ["nop"] := by decide

/-- Per-delay facts for the no-side-set suffix: the appended text rebuilds
exactly the delay token, which parses back to the delay value. -/
theorem delfN_aux : ∀ d : Fin 32, d.val ≠ 0 →
    ((String.join (sfxN d.val)).data ≠ [] ∧
     isSep ((String.join (sfxN d.val)).data.headD 'x') = true ∧
     (splitCore (consumeSeps (String.join (sfxN d.val)).data.tail) []).map String.mk =
       tokN d.val ∧
     (∀ x ∈ tokN d.val, x ≠ "") ∧
     (tokN d.val = [] ∨ (tokN d.val).headD "" = "side" ∨
       ((tokN d.val).headD "").data.headD ' ' = '[') ∧
     ("[" ++ toString d.val ++ "]").data.length ≥ 3 ∧
     ("[" ++ toString d.val ++ "]").data.headD ' ' = '[' ∧
     ("[" ++ toString d.val ++ "]").data.getLastD ' ' = ']' ∧
     parseConst (String.mk ((("[" ++ toString d.val ++ "]").data.drop 1).dropLast)) none =
       .ok d.val ∧
     d.val &&& 31 = d.val ∧
     tokenize ("nop\t" ++ String.join (sfxN d.val)) = "nop" :: tokN d.val) := by decide

/-- Per-delay facts for the one-bit mandatory side-set suffix. -/
theorem delf1_aux : ∀ d : Fin 32,
    ((String.join (sfx1 d.val)).data ≠ [] ∧
     isSep ((String.join (sfx1 d.val)).data.headD 'x') = true ∧
     (splitCore (consumeSeps (String.join (sfx1 d.val)).data.tail) []).map String.mk =
       tok1 d.val ∧
     (∀ x ∈ tok1 d.val, x ≠ "") ∧
     (tok1 d.val = [] ∨ (tok1 d.val).headD "" = "side" ∨
       ((tok1 d.val).headD "").data.headD ' ' = '[') ∧
     parseConst (toString (d.val >>> 4)) none = .ok (d.val >>> 4) ∧
     d.val >>> 4 < 2 ∧
     (d.val &&& 15 ≠ 0 →
       ("[" ++ toString (d.val &&& 15) ++ "]").data.length ≥ 3 ∧
       ("[" ++ toString (d.val &&& 15) ++ "]").data.headD ' ' = '[' ∧
       ("[" ++ toString (d.val &&& 15) ++ "]").data.getLastD ' ' = ']' ∧
       parseConst
         (String.mk ((("[" ++ toString (d.val &&& 15) ++ "]").data.drop 1).dropLast)) none =
         .ok (d.val &&& 15)) ∧
     (d.val &&& 15) &&& 15 = d.val &&& 15 ∧
     tokenize ("nop\t" ++ String.join (sfx1 d.val)) = "nop" :: tok1 d.val) := by decide

/-- Per-delay facts for the optional two-bit side-set suffix. -/
theorem delf2_aux : ∀ d : Fin 32,
    ((d.val >>> 4 = 1 ∨ d.val &&& 3 ≠ 0) →
       ((String.join (sfx2 d.val)).data ≠ [] ∧
        isSep ((String.join (sfx2 d.val)).data.headD 'x') = true ∧
        (splitCore (consumeSeps (String.join (sfx2 d.val)).data.tail) []).map String.mk =
          tok2 d.val ∧
        (∀ x ∈ tok2 d.val, x ≠ "") ∧
        tokenize ("nop\t" ++ String.join (sfx2 d.val)) = "nop" :: tok2 d.val)) ∧
    (tok2 d.val = [] ∨ (tok2 d.val).headD "" = "side" ∨
      ((tok2 d.val).headD "").data.headD ' ' = '[') ∧
    (d.val >>> 4 = 1 →
       parseConst (toString ((d.val >>> 2) &&& 3)) none = .ok ((d.val >>> 2) &&& 3) ∧
       (d.val >>> 2) &&& 3 < 4) ∧
    (d.val &&& 3 ≠ 0 →
       ("[" ++ toString (d.val &&& 3) ++ "]").data.length ≥ 3 ∧
       ("[" ++ toString (d.val &&& 3) ++ "]").data.headD ' ' = '[' ∧
       ("[" ++ toString (d.val &&& 3) ++ "]").data.getLastD ' ' = ']' ∧
       parseConst
         (String.mk ((("[" ++ toString (d.val &&& 3) ++ "]").data.drop 1).dropLast)) none =
         .ok (d.val &&& 3)) ∧
    (d.val &&& 3) &&& 3 = d.val &&& 3 ∧
    (d.val >>> 4 = 0 → (d.val >>> 2) &&& 3 = 0 → d.val &&& 3 = d.val) := by decide

theorem delfN (del : Nat) (hdel : del < 32) (hne : del ≠ 0) :
    (String.join (sfxN del)).data ≠ [] ∧
    isSep ((String.join (sfxN del)).data.headD 'x') = true ∧
    (splitCore (consumeSeps (String.join (sfxN del)).data.tail) []).map String.mk =
      tokN del ∧
    (∀ x ∈ tokN del, x ≠ "") ∧
    (tokN del = [] ∨ (tokN del).headD "" = "side" ∨
      ((tokN del).headD "").data.headD ' ' = '[') ∧
    ("[" ++ toString del ++ "]").data.length ≥ 3 ∧
    ("[" ++ toString del ++ "]").data.headD ' ' = '[' ∧
    ("[" ++ toString del ++ "]").data.getLastD ' ' = ']' ∧
    parseConst (String.mk ((("[" ++ toString del ++ "]").data.drop 1).dropLast)) none =
      .ok del ∧
    del &&& 31 = del ∧
    tokenize ("nop\t" ++ String.join (sfxN del)) = "nop" :: tokN del :=
  delfN_aux ⟨del, hdel⟩ hne

theorem delf1 (del : Nat) (hdel : del < 32) :
    (String.join (sfx1 del)).data ≠ [] ∧
    isSep ((String.join (sfx1 del)).data.headD 'x') = true ∧
    (splitCore (consumeSeps (String.join (sfx1 del)).data.tail) []).map String.mk =
      tok1 del ∧
    (∀ x ∈ tok1 del, x ≠ "") ∧
    (tok1 del = [] ∨ (tok1 del).headD "" = "side" ∨
      ((tok1 del).headD "").data.headD ' ' = '[') ∧
    parseConst (toString (del >>> 4)) none = .ok (del >>> 4) ∧
    del >>> 4 < 2 ∧
    (del &&& 15 ≠ 0 →
      ("[" ++ toString (del &&& 15) ++ "]").data.length ≥ 3 ∧
      ("[" ++ toString (del &&& 15) ++ "]").data.headD ' ' = '[' ∧
      ("[" ++ toString (del &&& 15) ++ "]").data.getLastD ' ' = ']' ∧
      parseConst
        (String.mk ((("[" ++ toString (del &&& 15) ++ "]").data.drop 1).dropLast)) none =
        .ok (del &&& 15)) ∧
    (del &&& 15) &&& 15 = del &&& 15 ∧
    tokenize ("nop\t" ++ String.join (sfx1 del)) = "nop" :: tok1 del :=
  delf1_aux ⟨del, hdel⟩

theorem delf2 (del : Nat) (hdel : del < 32) :
    ((del >>> 4 = 1 ∨ del &&& 3 ≠ 0) →
      ((String.join (sfx2 del)).data ≠ [] ∧
       isSep ((String.join (sfx2 del)).data.headD 'x') = true ∧
       (splitCore (consumeSeps (String.join (sfx2 del)).data.tail) []).map String.mk =
         tok2 del ∧
       (∀ x ∈ tok2 del, x ≠ "") ∧
       tokenize ("nop\t" ++ String.join (sfx2 del)) = "nop" :: tok2 del)) ∧
    (tok2 del = [] ∨ (tok2 del).headD "" = "side" ∨
      ((tok2 del).headD "").data.headD ' ' = '[') ∧
    (del >>> 4 = 1 →
      parseConst (toString ((del >>> 2) &&& 3)) none = .ok ((del >>> 2) &&& 3) ∧
      (del >>> 2) &&& 3 < 4) ∧
    (del &&& 3 ≠ 0 →
      ("[" ++ toString (del &&& 3) ++ "]").data.length ≥ 3 ∧
      ("[" ++ toString (del &&& 3) ++ "]").data.headD ' ' = '[' ∧
      ("[" ++ toString (del &&& 3) ++ "]").data.getLastD ' ' = ']' ∧
      parseConst
        (String.mk ((("[" ++ toString (del &&& 3) ++ "]").data.drop 1).dropLast)) none =
        .ok (del &&& 3)) ∧
    (del &&& 3) &&& 3 = del &&& 3 ∧
    (del >>> 4 = 0 → (del >>> 2) &&& 3 = 0 → del &&& 3 = del) :=
  delf2_aux ⟨del, hdel⟩

/-- Retokenizing the disassembly text splits into body tokens plus suffix
tokens, with the `nop` body (whose text ends in a tab) handled directly. -/
theorem tok_glue (t0 sfxS : String) (T : List String)
    (hstruct : t0 = "nop\t" ∨
      ((∀ x ∈ t0.data, x ≠ '/' ∧ x ≠ ';') ∧
       (match t0.data.getLast? with
        | some z => decide (isSep z = false)
        | none => false) = true ∧
       (∀ x ∈ (splitCore t0.data []).map String.mk, x ≠ "")))
    (h1 : sfxS.data ≠ []) (h2 : isSep (sfxS.data.headD 'x') = true)
    (h3 : (splitCore (consumeSeps sfxS.data.tail) []).map String.mk = T)
    (h4 : ∀ x ∈ T, x ≠ "")
    (hnop : tokenize ("nop\t" ++ sfxS) = "nop" :: T) :
    tokenize (t0 ++ sfxS) = tokenize t0 ++ T := by
  rcases hstruct with rfl | ⟨ha1, hgl, hne⟩
  · rw [hnop, tokenize_nop]; rfl
  · have ha2 : ∀ z, t0.data.getLast? = some z → isSep z = false := by
      intro z hz
      rw [hz] at hgl
      simpa using hgl
    exact tokenize_append t0 sfxS T h1 h2 h3 h4 ha1 ha2 hne

/-- `Assemble` on body text plus suffix, reduced to the loop lemma. -/
theorem assemble_entry (t0 sfxS : String) (T : List String) (p2 : Option Program) (e D : Nat)
    (htk : tokenize (t0 ++ sfxS) = tokenize t0 ++ T)
    (htok0 : tokenize t0 ≠ [])
    (hσ : suffHeadOK T)
    (hsd1 : (tokenize t0 ++ T).length = 1 → D = 0)
    (hsd2 : (tokenize t0 ++ T).length ≠ 1 →
      ∃ kEnd, asmSideDelay (tokenize t0 ++ T) p2 e (tokenize t0).length =
        .ok (e ||| D, kEnd) ∧ kEnd ≠ 1)
    (hloop : extLoop (tokenize t0) p2 e instructions.enum = true) :
    Assemble (t0 ++ sfxS) p2 = .ok (e ||| D) := by
  rw [Assemble, AssembleFull]
  simp only [htk]
  rw [if_neg (show ¬ ((tokenize t0 ++ T).length = 0) by
    have := List.length_pos.mpr htok0
    simp only [List.length_append]
    omega)]
  exact loop_ext instructions.enum (tokenize t0) T p2 e D htok0 hσ hsd1 hsd2 hloop

theorem wSplit (w : Nat) (hw : w < 65536) :
    (w &&& 255) ||| ((w >>> 8) &&& 31) <<< 8 ||| (w >>> 13) <<< 13 = w := by
  rw [show (255 : Nat) = 2 ^ 8 - 1 by norm_num, show (31 : Nat) = 2 ^ 5 - 1 by norm_num]
  apply Nat.eq_of_testBit_eq
  intro k
  simp only [Nat.testBit_or, Nat.testBit_and, Nat.testBit_shiftLeft, Nat.testBit_shiftRight,
    Nat.testBit_two_pow_sub_one]
  by_cases h8 : k < 8
  · have ha : k < 8 := h8
    have hb : ¬ (8 ≤ k) := by omega
    have hc : ¬ (13 ≤ k) := by omega
    simp [ha, hb, hc]
  · by_cases h13 : k < 13
    · have ha : ¬ (k < 8) := h8
      have hb : 8 ≤ k := by omega
      have hc : k - 8 < 5 := by omega
      have hd : ¬ (13 ≤ k) := by omega
      have he : 8 + (k - 8) = k := by omega
      simp [ha, hb, hc, hd, he]
    · by_cases h16 : k < 16
      · have ha : ¬ (k < 8) := h8
        have hb : 8 ≤ k := by omega
        have hc : ¬ (k - 8 < 5) := by omega
        have hd : 13 ≤ k := by omega
        have he : 13 + (k - 13) = k := by omega
        simp [ha, hb, hc, hd, he]
      · have ha : ¬ (k < 8) := h8
        have hc : ¬ (k - 8 < 5) := by omega
        have he : 13 + (k - 13) = k := by omega
        have hf : w.testBit k = false := tb_high 16 (by omega) (by omega)
        simp [ha, hc, he, hf]

theorem maskB65503 (lo fam : Nat) (hlo : lo < 256) (hfam : fam < 8) :
    (lo ||| fam <<< 13) &&& 65503 = (lo &&& 223) ||| fam <<< 13 := by
  have h := cg_ffdf lo 0 fam hlo (by omega) hfam
  simpa [Nat.zero_shiftLeft, Nat.or_zero] using h

theorem xorB (lo fam : Nat) :
    (lo ||| fam <<< 13) ^^^ 32 = (lo ^^^ 32) ||| fam <<< 13 := by
  have h := cg_xor32 lo 0 fam
  simpa [Nat.zero_shiftLeft, Nat.or_zero] using h

/-- Unpack the probe conjunction for a body that disassembles. -/
theorem probe_unpack (B pc : Nat) (t0 : String)
    (hB : Disassemble B none = .ok t0)
    (hpr : bodyOK B pc = true) :
    extLoop (tokenize t0) (pClass pc)
        (if 57472 &&& B = 49152 ∧ B &&& 64 ≠ 0 then B &&& 65503 else B)
        instructions.enum = true ∧
    tokenize t0 ≠ [] ∧
    (t0 = "nop\t" ∨
      ((∀ x ∈ t0.data, x ≠ '/' ∧ x ≠ ';') ∧
       (match t0.data.getLast? with
        | some z => decide (isSep z = false)
        | none => false) = true ∧
       (∀ x ∈ (splitCore t0.data []).map String.mk, x ≠ ""))) ∧
    (57472 &&& B = 49152 ∧ B &&& 64 ≠ 0 → Disassemble (B ^^^ 32) none = .ok t0) := by
  simp only [bodyOK, hB, Bool.and_eq_true, Bool.or_eq_true, decide_eq_true_eq] at hpr
  obtain ⟨⟨⟨hloop, htok⟩, hstruct⟩, hirq⟩ := hpr
  refine ⟨hloop, htok, ?_, ?_⟩
  · rcases hstruct with hn | ⟨⟨hA, hM⟩, hC⟩
    · exact Or.inl hn
    · exact Or.inr ⟨hA, hM, hC⟩
  · intro hi
    rcases hirq with hno | hyes
    · exact absurd hi hno
    · exact hyes

/-- Round-trip for an arbitrary word under no side-set configuration,
given the probe holds for its body. -/
theorem roundtrip_none (lo del fam : Nat) (hlo : lo < 256) (hdel : del < 32) (hfam : fam < 8)
    (hpr : bodyOK (lo ||| fam <<< 13) 0 = true) (t : String)
    (h : Disassemble (lo ||| del <<< 8 ||| fam <<< 13) none = .ok t) :
    (¬ (57472 &&& (lo ||| del <<< 8 ||| fam <<< 13) = 49152 ∧
        (lo ||| del <<< 8 ||| fam <<< 13) &&& 64 ≠ 0) →
      Assemble t none = .ok (lo ||| del <<< 8 ||| fam <<< 13)) ∧
    ((57472 &&& (lo ||| del <<< 8 ||| fam <<< 13) = 49152 ∧
        (lo ||| del <<< 8 ||| fam <<< 13) &&& 64 ≠ 0) →
      Assemble t none = .ok ((lo ||| del <<< 8 ||| fam <<< 13) &&& 65503) ∧
      Disassemble ((lo ||| del <<< 8 ||| fam <<< 13) ^^^ 32) none = .ok t) := by
  have hiff : (57472 &&& (lo ||| del <<< 8 ||| fam <<< 13) = 49152 ∧
      (lo ||| del <<< 8 ||| fam <<< 13) &&& 64 ≠ 0) ↔
      (57472 &&& (lo ||| fam <<< 13) = 49152 ∧ (lo ||| fam <<< 13) &&& 64 ≠ 0) := by
    rw [cg_e080 lo del fam hdel, cg_and64 lo del fam]
  rcases hB : Disassemble (lo ||| fam <<< 13) none with u | t0
  · obtain ⟨u', herr⟩ := dis_glue_none_err lo del fam hlo hdel u hB
    rw [herr] at h
    exact absurd h (by simp)
  obtain ⟨hloop, htok, hstruct, hirqp⟩ := probe_unpack _ 0 t0 hB hpr
  have hloop' : extLoop (tokenize t0) none
      (if 57472 &&& (lo ||| fam <<< 13) = 49152 ∧ (lo ||| fam <<< 13) &&& 64 ≠ 0
       then (lo ||| fam <<< 13) &&& 65503 else (lo ||| fam <<< 13))
      instructions.enum = true := hloop
  have hglue := dis_glue_none_ok lo del fam hlo hdel t0 hB
  rw [hglue] at h
  have ht : t = t0 ++ String.join (sfxN del) := (Except.ok.inj h).symm
  subst ht
  have hasm : Assemble (t0 ++ String.join (sfxN del)) none =
      .ok ((if 57472 &&& (lo ||| fam <<< 13) = 49152 ∧ (lo ||| fam <<< 13) &&& 64 ≠ 0
            then (lo ||| fam <<< 13) &&& 65503 else (lo ||| fam <<< 13)) ||| del <<< 8) := by
    by_cases hd0 : del = 0
    · subst hd0
      rw [show String.join (sfxN 0) = "" from rfl, str_append_empty, Nat.zero_shiftLeft]
      rw [Assemble, AssembleFull]
      rw [if_neg (show ¬ ((tokenize t0).length = 0) by
        have := List.length_pos.mpr htok; omega)]
      have hle := loop_ext instructions.enum (tokenize t0) [] none _ 0 htok (Or.inl rfl)
        (fun _ => rfl)
        (fun hne => ⟨(tokenize t0).length, sd_none_empty (tokenize t0) _, by
          intro hc
          exact hne (by simp only [List.append_nil]; omega)⟩)
        hloop'
      rw [List.append_nil] at hle
      exact hle
    · obtain ⟨a1, b1, c1, d1, hhead, e1, f1, g1, hparse, hm31, hnop⟩ := delfN del hdel hd0
      have htkN : tokN del = ["[" ++ toString del ++ "]"] := by rw [tokN, if_pos hd0]
      have htk := tok_glue t0 (String.join (sfxN del)) (tokN del) hstruct a1 b1 c1 d1 hnop
      refine assemble_entry t0 (String.join (sfxN del)) (tokN del) none _ (del <<< 8)
        htk htok hhead ?_ ?_ hloop'
      · intro hlen1
        exfalso
        have := List.length_pos.mpr htok
        rw [htkN] at hlen1
        simp only [List.length_append, List.length_cons, List.length_nil] at hlen1
        omega
      · intro _
        refine ⟨(tokenize t0).length + 1, ?_, by have := List.length_pos.mpr htok; omega⟩
        rw [htkN]
        have hsd := sd_none_delay (tokenize t0)
          (if 57472 &&& (lo ||| fam <<< 13) = 49152 ∧ (lo ||| fam <<< 13) &&& 64 ≠ 0
           then (lo ||| fam <<< 13) &&& 65503 else (lo ||| fam <<< 13))
          del ("[" ++ toString del ++ "]") e1 f1 g1 hparse hm31
        rwa [Nat.or_zero] at hsd
  refine ⟨?_, ?_⟩
  · intro hni
    rw [hasm, if_neg (fun hc => hni (hiff.mpr hc)), orW lo del fam]
  · intro hi
    refine ⟨?_, ?_⟩
    · rw [hasm, if_pos (hiff.mp hi), maskB65503 lo fam hlo hfam,
        orW (lo &&& 223) del fam, cg_ffdf lo del fam hlo hdel hfam]
    · have hpair := hirqp (hiff.mp hi)
      rw [xorB lo fam] at hpair
      have hglue2 := dis_glue_none_ok (lo ^^^ 32) del fam (xor32_lt lo hlo) hdel t0 hpair
      rw [cg_xor32 lo del fam]
      exact hglue2

/-- Round-trip for an arbitrary word under the one-bit mandatory side-set,
given the probe holds for its body. -/
theorem roundtrip_s1 (lo del fam : Nat) (hlo : lo < 256) (hdel : del < 32) (hfam : fam < 8)
    (hpr : bodyOK (lo ||| fam <<< 13) 1 = true) (t : String)
    (h : Disassemble (lo ||| del <<< 8 ||| fam <<< 13) (some cfgSide1) = .ok t) :
    (¬ (57472 &&& (lo ||| del <<< 8 ||| fam <<< 13) = 49152 ∧
        (lo ||| del <<< 8 ||| fam <<< 13) &&& 64 ≠ 0) →
      Assemble t (some cfgSide1) = .ok (lo ||| del <<< 8 ||| fam <<< 13)) ∧
    ((57472 &&& (lo ||| del <<< 8 ||| fam <<< 13) = 49152 ∧
        (lo ||| del <<< 8 ||| fam <<< 13) &&& 64 ≠ 0) →
      Assemble t (some cfgSide1) = .ok ((lo ||| del <<< 8 ||| fam <<< 13) &&& 65503) ∧
      Disassemble ((lo ||| del <<< 8 ||| fam <<< 13) ^^^ 32) (some cfgSide1) = .ok t) := by
  have hiff : (57472 &&& (lo ||| del <<< 8 ||| fam <<< 13) = 49152 ∧
      (lo ||| del <<< 8 ||| fam <<< 13) &&& 64 ≠ 0) ↔
      (57472 &&& (lo ||| fam <<< 13) = 49152 ∧ (lo ||| fam <<< 13) &&& 64 ≠ 0) := by
    rw [cg_e080 lo del fam hdel, cg_and64 lo del fam]
  rcases hB : Disassemble (lo ||| fam <<< 13) none with u | t0
  · obtain ⟨u', herr⟩ := dis_glue_s1_err lo del fam hlo hdel u hB
    rw [herr] at h
    exact absurd h (by simp)
  obtain ⟨hloop, htok, hstruct, hirqp⟩ := probe_unpack _ 1 t0 hB hpr
  have hloop' : extLoop (tokenize t0) (some cfgSide1)
      (if 57472 &&& (lo ||| fam <<< 13) = 49152 ∧ (lo ||| fam <<< 13) &&& 64 ≠ 0
       then (lo ||| fam <<< 13) &&& 65503 else (lo ||| fam <<< 13))
      instructions.enum = true := hloop
  have hglue := dis_glue_s1_ok lo del fam hlo hdel t0 hB
  rw [hglue] at h
  have ht : t = t0 ++ String.join (sfx1 del) := (Except.ok.inj h).symm
  subst ht
  obtain ⟨a1, b1, c1, d1, hhead, hpss, hss2, hdel15, hm15, hnop⟩ := delf1 del hdel
  have htk := tok_glue t0 (String.join (sfx1 del)) (tok1 del) hstruct a1 b1 c1 d1 hnop
  have hasm : Assemble (t0 ++ String.join (sfx1 del)) (some cfgSide1) =
      .ok ((if 57472 &&& (lo ||| fam <<< 13) = 49152 ∧ (lo ||| fam <<< 13) &&& 64 ≠ 0
            then (lo ||| fam <<< 13) &&& 65503 else (lo ||| fam <<< 13)) ||| del <<< 8) := by
    refine assemble_entry t0 (String.join (sfx1 del)) (tok1 del) (some cfgSide1) _ (del <<< 8)
      htk htok hhead ?_ ?_ hloop'
    · intro hlen1
      exfalso
      have h0 := List.length_pos.mpr htok
      by_cases hz : del &&& 15 = 0
      · rw [show tok1 del = ["side", toString (del >>> 4)] from by
          rw [tok1, if_neg (fun hc => hc hz), List.append_nil]] at hlen1
        simp only [List.length_append, List.length_cons, List.length_nil] at hlen1
        omega
      · rw [show tok1 del = ["side", toString (del >>> 4),
            "[" ++ toString (del &&& 15) ++ "]"] from by rw [tok1, if_pos hz]; rfl] at hlen1
        simp only [List.length_append, List.length_cons, List.length_nil] at hlen1
        omega
    · intro _
      by_cases hz : del &&& 15 = 0
      · refine ⟨(tokenize t0).length + 2, ?_, by omega⟩
        rw [show tok1 del = ["side", toString (del >>> 4)] from by
          rw [tok1, if_neg (fun hc => hc hz), List.append_nil]]
        have hsd := sd_s1_nodelay (tokenize t0)
          (if 57472 &&& (lo ||| fam <<< 13) = 49152 ∧ (lo ||| fam <<< 13) &&& 64 ≠ 0
           then (lo ||| fam <<< 13) &&& 65503 else (lo ||| fam <<< 13))
          (del >>> 4) (toString (del >>> 4)) hpss hss2
        have hD : (del >>> 4) <<< 12 = del <<< 8 := by
          have hdor := dor1 del hdel
          rwa [hz, Nat.zero_shiftLeft, Nat.or_zero] at hdor
        rwa [hD] at hsd
      · obtain ⟨e3, f3, g3, hp3⟩ := hdel15 hz
        refine ⟨(tokenize t0).length + 3, ?_, by omega⟩
        rw [show tok1 del = ["side", toString (del >>> 4),
            "[" ++ toString (del &&& 15) ++ "]"] from by rw [tok1, if_pos hz]; rfl]
        have hsd := sd_s1_delay (tokenize t0)
          (if 57472 &&& (lo ||| fam <<< 13) = 49152 ∧ (lo ||| fam <<< 13) &&& 64 ≠ 0
           then (lo ||| fam <<< 13) &&& 65503 else (lo ||| fam <<< 13))
          (del >>> 4) (del &&& 15) (toString (del >>> 4))
          ("[" ++ toString (del &&& 15) ++ "]") hpss hss2 e3 f3 g3 hp3 hm15
        rwa [Nat.or_assoc, dor1 del hdel] at hsd
  refine ⟨?_, ?_⟩
  · intro hni
    rw [hasm, if_neg (fun hc => hni (hiff.mpr hc)), orW lo del fam]
  · intro hi
    refine ⟨?_, ?_⟩
    · rw [hasm, if_pos (hiff.mp hi), maskB65503 lo fam hlo hfam,
        orW (lo &&& 223) del fam, cg_ffdf lo del fam hlo hdel hfam]
    · have hpair := hirqp (hiff.mp hi)
      rw [xorB lo fam] at hpair
      have hglue2 := dis_glue_s1_ok (lo ^^^ 32) del fam (xor32_lt lo hlo) hdel t0 hpair
      rw [cg_xor32 lo del fam]
      exact hglue2

/-- Round-trip for an arbitrary word under the optional two-bit side-set,
given the probe holds for its body. -/
theorem roundtrip_s2 (lo del fam : Nat) (hlo : lo < 256) (hdel : del < 32) (hfam : fam < 8)
    (hpr : bodyOK (lo ||| fam <<< 13) 2 = true) (t : String)
    (h : Disassemble (lo ||| del <<< 8 ||| fam <<< 13) (some cfgSide2opt) = .ok t) :
    (¬ (57472 &&& (lo ||| del <<< 8 ||| fam <<< 13) = 49152 ∧
        (lo ||| del <<< 8 ||| fam <<< 13) &&& 64 ≠ 0) →
      Assemble t (some cfgSide2opt) = .ok (lo ||| del <<< 8 ||| fam <<< 13)) ∧
    ((57472 &&& (lo ||| del <<< 8 ||| fam <<< 13) = 49152 ∧
        (lo ||| del <<< 8 ||| fam <<< 13) &&& 64 ≠ 0) →
      Assemble t (some cfgSide2opt) = .ok ((lo ||| del <<< 8 ||| fam <<< 13) &&& 65503) ∧
      Disassemble ((lo ||| del <<< 8 ||| fam <<< 13) ^^^ 32) (some cfgSide2opt) = .ok t) := by
  have hiff : (57472 &&& (lo ||| del <<< 8 ||| fam <<< 13) = 49152 ∧
      (lo ||| del <<< 8 ||| fam <<< 13) &&& 64 ≠ 0) ↔
      (57472 &&& (lo ||| fam <<< 13) = 49152 ∧ (lo ||| fam <<< 13) &&& 64 ≠ 0) := by
    rw [cg_e080 lo del fam hdel, cg_and64 lo del fam]
  by_cases h5 : del >>> 4 = 0 ∧ (del >>> 2) &&& 3 ≠ 0
  · obtain ⟨u', herr⟩ := dis_glue_s2_bad lo del fam hlo hdel h5.1 h5.2
    rw [herr] at h
    exact absurd h (by simp)
  have hc : del >>> 4 = 1 ∨ (del >>> 2) &&& 3 = 0 := by
    by_cases ha : del >>> 4 = 0
    · right; by_contra hb; exact h5 ⟨ha, hb⟩
    · left
      obtain ⟨-, -, -, -, -, -, hlt2, -⟩ := delf1 del hdel
      omega
  rcases hB : Disassemble (lo ||| fam <<< 13) none with u | t0
  · obtain ⟨u', herr⟩ := dis_glue_s2_err lo del fam hlo hdel u hB
    rw [herr] at h
    exact absurd h (by simp)
  obtain ⟨hloop, htok, hstruct, hirqp⟩ := probe_unpack _ 2 t0 hB hpr
  have hloop' : extLoop (tokenize t0) (some cfgSide2opt)
      (if 57472 &&& (lo ||| fam <<< 13) = 49152 ∧ (lo ||| fam <<< 13) &&& 64 ≠ 0
       then (lo ||| fam <<< 13) &&& 65503 else (lo ||| fam <<< 13))
      instructions.enum = true := hloop
  have hglue := dis_glue_s2_ok lo del fam hlo hdel t0 hc hB
  rw [hglue] at h
  have ht : t = t0 ++ String.join (sfx2 del) := (Except.ok.inj h).symm
  subst ht
  obtain ⟨hjoin, hhead, hside, hdel3, hm3, hsmall⟩ := delf2 del hdel
  have hasm : Assemble (t0 ++ String.join (sfx2 del)) (some cfgSide2opt) =
      .ok ((if 57472 &&& (lo ||| fam <<< 13) = 49152 ∧ (lo ||| fam <<< 13) &&& 64 ≠ 0
            then (lo ||| fam <<< 13) &&& 65503 else (lo ||| fam <<< 13)) ||| del <<< 8) := by
    by_cases hf1 : del >>> 4 = 1
    · obtain ⟨hps2, hlt4⟩ := hside hf1
      obtain ⟨a1, b1, c1, d1, hnop⟩ := hjoin (Or.inl hf1)
      have htk := tok_glue t0 (String.join (sfx2 del)) (tok2 del) hstruct a1 b1 c1 d1 hnop
      by_cases hz : del &&& 3 = 0
      · refine assemble_entry t0 (String.join (sfx2 del)) (tok2 del) (some cfgSide2opt) _
          (del <<< 8) htk htok hhead ?_ ?_ hloop'
        · intro hlen1
          exfalso
          have h0 := List.length_pos.mpr htok
          rw [show tok2 del = ["side", toString ((del >>> 2) &&& 3)] from by
            rw [tok2, if_pos hf1, if_neg (fun hc2 => hc2 hz), List.append_nil]] at hlen1
          simp only [List.length_append, List.length_cons, List.length_nil] at hlen1
          omega
        · intro _
          refine ⟨(tokenize t0).length + 2, ?_, by omega⟩
          rw [show tok2 del = ["side", toString ((del >>> 2) &&& 3)] from by
            rw [tok2, if_pos hf1, if_neg (fun hc2 => hc2 hz), List.append_nil]]
          have hsd := sd_s2_side (tokenize t0)
            (if 57472 &&& (lo ||| fam <<< 13) = 49152 ∧ (lo ||| fam <<< 13) &&& 64 ≠ 0
             then (lo ||| fam <<< 13) &&& 65503 else (lo ||| fam <<< 13))
            ((del >>> 2) &&& 3) (toString ((del >>> 2) &&& 3)) hps2 hlt4
          have hD : (4096 ||| ((del >>> 2) &&& 3) <<< 10) = del <<< 8 := by
            have hdor := dor2 del hdel hf1
            rwa [hz, Nat.zero_shiftLeft, Nat.or_zero] at hdor
          rwa [hD] at hsd
      · obtain ⟨e3, f3, g3, hp3⟩ := hdel3 hz
        refine assemble_entry t0 (String.join (sfx2 del)) (tok2 del) (some cfgSide2opt) _
          (del <<< 8) htk htok hhead ?_ ?_ hloop'
        · intro hlen1
          exfalso
          have h0 := List.length_pos.mpr htok
          rw [show tok2 del = ["side", toString ((del >>> 2) &&& 3),
              "[" ++ toString (del &&& 3) ++ "]"] from by
            rw [tok2, if_pos hf1, if_pos hz]; rfl] at hlen1
          simp only [List.length_append, List.length_cons, List.length_nil] at hlen1
          omega
        · intro _
          refine ⟨(tokenize t0).length + 3, ?_, by omega⟩
          rw [show tok2 del = ["side", toString ((del >>> 2) &&& 3),
              "[" ++ toString (del &&& 3) ++ "]"] from by
            rw [tok2, if_pos hf1, if_pos hz]; rfl]
          have hsd := sd_s2_side_delay (tokenize t0)
            (if 57472 &&& (lo ||| fam <<< 13) = 49152 ∧ (lo ||| fam <<< 13) &&& 64 ≠ 0
             then (lo ||| fam <<< 13) &&& 65503 else (lo ||| fam <<< 13))
            ((del >>> 2) &&& 3) (del &&& 3) (toString ((del >>> 2) &&& 3))
            ("[" ++ toString (del &&& 3) ++ "]") hps2 hlt4 e3 f3 g3 hp3 hm3
          rwa [Nat.or_assoc, dor2 del hdel hf1] at hsd
    · have hf0 : del >>> 4 = 0 := by
        obtain ⟨-, -, -, -, -, -, hlt2, -⟩ := delf1 del hdel
        omega
      have hss0 : (del >>> 2) &&& 3 = 0 := by
        rcases hc with hc1 | hc2
        · exact absurd hc1 hf1
        · exact hc2
      by_cases hz : del &&& 3 = 0
      · have hdel0 : del = 0 := by
          have hs := hsmall hf0 hss0
          omega
        subst hdel0
        rw [show String.join (sfx2 0) = "" from rfl, str_append_empty, Nat.zero_shiftLeft]
        rw [Assemble, AssembleFull]
        rw [if_neg (show ¬ ((tokenize t0).length = 0) by
          have := List.length_pos.mpr htok; omega)]
        have hle := loop_ext instructions.enum (tokenize t0) [] (some cfgSide2opt) _ 0 htok
          (Or.inl rfl) (fun _ => rfl)
          (fun hne => ⟨(tokenize t0).length, sd_s2_empty (tokenize t0) _, by
            intro hcx
            exact hne (by simp only [List.append_nil]; omega)⟩)
          hloop'
        rw [List.append_nil] at hle
        exact hle
      · obtain ⟨a1, b1, c1, d1, hnop⟩ := hjoin (Or.inr hz)
        obtain ⟨e3, f3, g3, hp3⟩ := hdel3 hz
        have htk := tok_glue t0 (String.join (sfx2 del)) (tok2 del) hstruct a1 b1 c1 d1 hnop
        refine assemble_entry t0 (String.join (sfx2 del)) (tok2 del) (some cfgSide2opt) _
          (del <<< 8) htk htok hhead ?_ ?_ hloop'
        · intro hlen1
          exfalso
          have h0 := List.length_pos.mpr htok
          rw [show tok2 del = ["[" ++ toString (del &&& 3) ++ "]"] from by
            rw [tok2, if_neg (fun hc2 => by rw [hf0] at hc2; exact absurd hc2 (by decide)),
              if_pos hz]; rfl] at hlen1
          simp only [List.length_append, List.length_cons, List.length_nil] at hlen1
          omega
        · intro _
          refine ⟨(tokenize t0).length + 1, ?_, by
            have := List.length_pos.mpr htok; omega⟩
          rw [show tok2 del = ["[" ++ toString (del &&& 3) ++ "]"] from by
            rw [tok2, if_neg (fun hc2 => by rw [hf0] at hc2; exact absurd hc2 (by decide)),
              if_pos hz]; rfl]
          have hsd := sd_s2_delay (tokenize t0)
            (if 57472 &&& (lo ||| fam <<< 13) = 49152 ∧ (lo ||| fam <<< 13) &&& 64 ≠ 0
             then (lo ||| fam <<< 13) &&& 65503 else (lo ||| fam <<< 13))
            (del &&& 3) ("[" ++ toString (del &&& 3) ++ "]") e3 f3 g3 hp3 hm3
          have hD : (del &&& 3) <<< 8 = del <<< 8 := by rw [hsmall hf0 hss0]
          rwa [Nat.or_zero, hD] at hsd
  refine ⟨?_, ?_⟩
  · intro hni
    rw [hasm, if_neg (fun hc2 => hni (hiff.mpr hc2)), orW lo del fam]
  · intro hi
    refine ⟨?_, ?_⟩
    · rw [hasm, if_pos (hiff.mp hi), maskB65503 lo fam hlo hfam,
        orW (lo &&& 223) del fam, cg_ffdf lo del fam hlo hdel hfam]
    · have hpair := hirqp (hiff.mp hi)
      rw [xorB lo fam] at hpair
      have hglue2 := dis_glue_s2_ok (lo ^^^ 32) del fam (xor32_lt lo hlo) hdel t0 hc hpair
      rw [cg_xor32 lo del fam]
      exact hglue2

theorem probe_p0_f0 : ∀ lo : Fin 256, bodyOK (lo.val ||| 0 <<< 13) 0 = true := by
  decide

theorem probe_p0_f1 : ∀ lo : Fin 256, bodyOK (lo.val ||| 1 <<< 13) 0 = true := by
  decide

theorem probe_p0_f2 : ∀ lo : Fin 256, bodyOK (lo.val ||| 2 <<< 13) 0 = true := by
  decide

theorem probe_p0_f3 : ∀ lo : Fin 256, bodyOK (lo.val ||| 3 <<< 13) 0 = true := by
  decide

theorem probe_p0_f4 : ∀ lo : Fin 256, bodyOK (lo.val ||| 4 <<< 13) 0 = true := by
  decide

theorem probe_p0_f5 : ∀ lo : Fin 256, bodyOK (lo.val ||| 5 <<< 13) 0 = true := by
  decide

theorem probe_p0_f6 : ∀ lo : Fin 256, bodyOK (lo.val ||| 6 <<< 13) 0 = true := by
  decide

theorem probe_p0_f7 : ∀ lo : Fin 256, bodyOK (lo.val ||| 7 <<< 13) 0 = true := by
  decide

theorem probe_p1_f0 : ∀ lo : Fin 256, bodyOK (lo.val ||| 0 <<< 13) 1 = true := by
  decide

theorem probe_p1_f1 : ∀ lo : Fin 256, bodyOK (lo.val ||| 1 <<< 13) 1 = true := by
  decide

theorem probe_p1_f2 : ∀ lo : Fin 256, bodyOK (lo.val ||| 2 <<< 13) 1 = true := by
  decide

theorem probe_p1_f3 : ∀ lo : Fin 256, bodyOK (lo.val ||| 3 <<< 13) 1 = true := by
  decide

theorem probe_p1_f4 : ∀ lo : Fin 256, bodyOK (lo.val ||| 4 <<< 13) 1 = true := by
  decide

theorem probe_p1_f5 : ∀ lo : Fin 256, bodyOK (lo.val ||| 5 <<< 13) 1 = true := by
  decide

theorem probe_p1_f6 : ∀ lo : Fin 256, bodyOK (lo.val ||| 6 <<< 13) 1 = true := by
  decide

theorem probe_p1_f7 : ∀ lo : Fin 256, bodyOK (lo.val ||| 7 <<< 13) 1 = true := by
  decide

theorem probe_p2_f0 : ∀ lo : Fin 256, bodyOK (lo.val ||| 0 <<< 13) 2 = true := by
  decide

theorem probe_p2_f1 : ∀ lo : Fin 256, bodyOK (lo.val ||| 1 <<< 13) 2 = true := by
  decide

theorem probe_p2_f2 : ∀ lo : Fin 256, bodyOK (lo.val ||| 2 <<< 13) 2 = true := by
  decide

theorem probe_p2_f3 : ∀ lo : Fin 256, bodyOK (lo.val ||| 3 <<< 13) 2 = true := by
  decide

theorem probe_p2_f4 : ∀ lo : Fin 256, bodyOK (lo.val ||| 4 <<< 13) 2 = true := by
  decide

theorem probe_p2_f5 : ∀ lo : Fin 256, bodyOK (lo.val ||| 5 <<< 13) 2 = true := by
  decide

theorem probe_p2_f6 : ∀ lo : Fin 256, bodyOK (lo.val ||| 6 <<< 13) 2 = true := by
  decide

theorem probe_p2_f7 : ∀ lo : Fin 256, bodyOK (lo.val ||| 7 <<< 13) 2 = true := by
  decide

theorem probe_ok0 (lo fam : Nat) (hlo : lo < 256) (hfam : fam < 8) :
    bodyOK (lo ||| fam <<< 13) 0 = true := by
  interval_cases fam
  · exact probe_p0_f0 ⟨lo, hlo⟩
  · exact probe_p0_f1 ⟨lo, hlo⟩
  · exact probe_p0_f2 ⟨lo, hlo⟩
  · exact probe_p0_f3 ⟨lo, hlo⟩
  · exact probe_p0_f4 ⟨lo, hlo⟩
  · exact probe_p0_f5 ⟨lo, hlo⟩
  · exact probe_p0_f6 ⟨lo, hlo⟩
  · exact probe_p0_f7 ⟨lo, hlo⟩

theorem probe_ok1 (lo fam : Nat) (hlo : lo < 256) (hfam : fam < 8) :
    bodyOK (lo ||| fam <<< 13) 1 = true := by
  interval_cases fam
  · exact probe_p1_f0 ⟨lo, hlo⟩
  · exact probe_p1_f1 ⟨lo, hlo⟩
  · exact probe_p1_f2 ⟨lo, hlo⟩
  · exact probe_p1_f3 ⟨lo, hlo⟩
  · exact probe_p1_f4 ⟨lo, hlo⟩
  · exact probe_p1_f5 ⟨lo, hlo⟩
  · exact probe_p1_f6 ⟨lo, hlo⟩
  · exact probe_p1_f7 ⟨lo, hlo⟩

theorem probe_ok2 (lo fam : Nat) (hlo : lo < 256) (hfam : fam < 8) :
    bodyOK (lo ||| fam <<< 13) 2 = true := by
  interval_cases fam
  · exact probe_p2_f0 ⟨lo, hlo⟩
  · exact probe_p2_f1 ⟨lo, hlo⟩
  · exact probe_p2_f2 ⟨lo, hlo⟩
  · exact probe_p2_f3 ⟨lo, hlo⟩
  · exact probe_p2_f4 ⟨lo, hlo⟩
  · exact probe_p2_f5 ⟨lo, hlo⟩
  · exact probe_p2_f6 ⟨lo, hlo⟩
  · exact probe_p2_f7 ⟨lo, hlo⟩

/-- C1: for every 16-bit word and each of the three tested side-set
configurations, a successful disassembly reassembles to the same word,
except irq words with the clear bit set, where the wait bit is a
don't-care: both wait-bit variants decode to the same text, and that
text reassembles to the word with the wait bit masked off. -/
theorem C1_roundtrip : ∀ w < 65536, ∀ p ∈ [none, some cfgSide1, some cfgSide2opt],
    ∀ t : String, Disassemble w p = .ok t →
      if 57472 &&& w = 49152 ∧ w &&& 64 ≠ 0 then
        Assemble t p = .ok (w &&& 65503) ∧ Disassemble (w ^^^ 32) p = .ok t
      else Assemble t p = .ok w := by
  intro w hw p hp t h
  have hlo : w &&& 255 < 256 := by
    have := Nat.and_le_right (n := w) (m := 255)
    omega
  have hdel : (w >>> 8) &&& 31 < 32 := by
    have := Nat.and_le_right (n := w >>> 8) (m := 31)
    omega
  have hfam : w >>> 13 < 8 := by
    have h1 : w >>> 13 = w / 8192 := by
      rw [Nat.shiftRight_eq_div_pow]
    omega
  have hsplit := wSplit w hw
  simp only [List.mem_cons, List.not_mem_nil, or_false] at hp
  rcases hp with rfl | rfl | rfl
  · rw [← hsplit] at h ⊢
    have hm := roundtrip_none (w &&& 255) ((w >>> 8) &&& 31) (w >>> 13) hlo hdel hfam
      (probe_ok0 (w &&& 255) (w >>> 13) hlo hfam) t h
    by_cases hA : 57472 &&& ((w &&& 255) ||| ((w >>> 8) &&& 31) <<< 8 ||| (w >>> 13) <<< 13) =
        49152 ∧ ((w &&& 255) ||| ((w >>> 8) &&& 31) <<< 8 ||| (w >>> 13) <<< 13) &&& 64 ≠ 0
    · rw [if_pos hA]
      exact hm.2 hA
    · rw [if_neg hA]
      exact hm.1 hA
  · rw [← hsplit] at h ⊢
    have hm := roundtrip_s1 (w &&& 255) ((w >>> 8) &&& 31) (w >>> 13) hlo hdel hfam
      (probe_ok1 (w &&& 255) (w >>> 13) hlo hfam) t h
    by_cases hA : 57472 &&& ((w &&& 255) ||| ((w >>> 8) &&& 31) <<< 8 ||| (w >>> 13) <<< 13) =
        49152 ∧ ((w &&& 255) ||| ((w >>> 8) &&& 31) <<< 8 ||| (w >>> 13) <<< 13) &&& 64 ≠ 0
    · rw [if_pos hA]
      exact hm.2 hA
    · rw [if_neg hA]
      exact hm.1 hA
  · rw [← hsplit] at h ⊢
    have hm := roundtrip_s2 (w &&& 255) ((w >>> 8) &&& 31) (w >>> 13) hlo hdel hfam
      (probe_ok2 (w &&& 255) (w >>> 13) hlo hfam) t h
    by_cases hA : 57472 &&& ((w &&& 255) ||| ((w >>> 8) &&& 31) <<< 8 ||| (w >>> 13) <<< 13) =
        49152 ∧ ((w &&& 255) ||| ((w >>> 8) &&& 31) <<< 8 ||| (w >>> 13) <<< 13) &&& 64 ≠ 0
    · rw [if_pos hA]
      exact hm.2 hA
    · rw [if_neg hA]
      exact hm.1 hA

theorem C1_witness :
    (0 : Nat) < 65536 ∧ (none ∈ [none, some cfgSide1, some cfgSide2opt]) ∧
    Disassemble 0 none = .ok "jmp\t0" ∧ Assemble "jmp\t0" none = .ok 0 := by
  refine ⟨by norm_num, by simp, by decide, ?_⟩
  have h := C1_roundtrip 0 (by norm_num) none (by simp) "jmp\t0" (by decide)
  rw [if_neg (by decide)] at h
  exact h
